import Mathlib

/-!
# TalkingButton: a shallow embedding of `src/TalkingButton.cpp`

The C++ class `TalkingButton` is embedded as a record of its data members and
its member functions as pure functions on that record.

* `uint8_t`, `uint16_t` and `uint32_t` members are natural numbers; every
  operation that can leave the range of its destination type reduces its
  result explicitly (`u8`, `u16`, `u32`, `sub32`).
* `millis()` and `digitalRead(buttonPin)` are the two inputs of `read`: the
  arguments `now` (a 32-bit tick count) and `level` (the pin level, `LOW = 0` or
  `HIGH = 1`, stored unchanged in the `uint8_t` members).
* `message[16]` is a list; an indexed access outside `0..15` and a division by
  a zero `durationUnit` are undefined behaviour in C++ and make the embedded
  function return `none`.

The file has three parts: the embedding of the source, the definitions used to
state the properties (predicates, poll traces, concrete states), and the
theorems. The theorems on whole messages (Count, Binary and Duration mode)
share one induction over the poll trace of a message, `trace_run`.
-/

namespace TalkingButton

/-- Press modes, `enum pressMode`. -/
inductive PressMode where
  | COUNT
  | BINARY
  | DURATION
  deriving DecidableEq, Repr

/-- Error codes, `enum errorCode`. -/
inductive ErrorCode where
  | SUCCESS
  | READ_PERIOD_TOO_LONG
  | READ_NOISE
  | RELEASE_TOO_SHORT
  | PRESS_TOO_SHORT
  | COUNT_OVERFLOW
  | BINARY_BITS_NUM_OVERFLOW
  | DURATION_DIGITS_NUM_OVERFLOW
  deriving DecidableEq, Repr

/-- Parsing states, `enum parsingStatus`. The specification calls them Idle,
AwaitingMessage, InMessage and MessageComplete. -/
inductive ParsingStatus where
  | INIT
  | WAIT_FOR_MESSAGE
  | IN_MESSAGE
  | END_OF_MESSAGE
  deriving DecidableEq, Repr

/-- The data members of `class TalkingButton`, in the order of the header. -/
structure State where
  error : ErrorCode
  buttonPin : Nat
  pressMode : PressMode
  pressed : Nat
  released : Nat
  status : Nat
  currentStatus : Nat
  currentStatusDuration : Nat
  lastStatus : Nat
  parseStatus : ParsingStatus
  minReleased : Nat
  minPressed : Nat
  statusDuration : Nat
  lastChange : Nat
  changeAverage : Nat
  minChangeAverage : Nat
  lastReadTime : Nat
  maxReadPeriod : Nat
  debounceInterval : Nat
  messageSeparator : Nat
  count : Nat
  binaryCode : Nat
  bitNum : Nat
  digitNum : Nat
  maxCount : Nat
  maxBitNum : Nat
  maxDigitNum : Nat
  durationUnit : Nat
  binaryHighLowThreshold : Nat
  isMessageAvailable : Bool
  message : List Nat
  deriving DecidableEq, Repr

/-- Conversion to `uint8_t`. -/
def u8 (n : Nat) : Nat := n % 256

/-- Conversion to `uint16_t`. -/
def u16 (n : Nat) : Nat := n % 65536

/-- Conversion to `uint32_t`. -/
def u32 (n : Nat) : Nat := n % 4294967296

/-- Subtraction of 32-bit unsigned values, `a - b` modulo `2^32`. -/
def sub32 (a b : Nat) : Nat :=
  (a % 4294967296 + (4294967296 - b % 4294967296)) % 4294967296

/-- Size of the `message` array. -/
def MESSAGE_SIZE : Nat := 16

/-- The indexed write `message[i] = v`; `none` when `i` is outside the array. -/
def writeMessage (m : List Nat) (i v : Nat) : Option (List Nat) :=
  if i < MESSAGE_SIZE then some (m.set i v) else none

/-- `TalkingButton::_error(errorCode, reset)`; the declaration gives `reset`
the default value `true`. -/
def _error (s : State) (errorCode : ErrorCode) (reset : Bool) : Bool × State :=
  let s := { s with error := errorCode }
  if !reset then (false, s)
  else
    let s :=
      match s.pressMode with
      | .COUNT => { s with count := 0 }
      | .BINARY => { s with binaryCode := 0, bitNum := 0 }
      | .DURATION => { s with digitNum := 0 }
    (false, { s with parseStatus := .INIT })

/-- `TalkingButton::_parseCount`. -/
def _parseCount (s : State) : Bool × State :=
  if s.parseStatus = .END_OF_MESSAGE then
    let s :=
      if s.count ≠ 0 then
        { s with message := s.message.set 0 s.count, count := 0,
                 error := .SUCCESS, isMessageAvailable := true }
      else s
    (true, { s with parseStatus := .WAIT_FOR_MESSAGE })
  else
    let s := { s with count := u8 (s.count + 1) }
    if s.maxCount < s.count then _error s .COUNT_OVERFLOW true
    else (true, s)

/-- `TalkingButton::_parseBinary`. -/
def _parseBinary (s : State) : Bool × State :=
  if s.parseStatus = .END_OF_MESSAGE then
    let s :=
      if s.bitNum ≠ 0 then
        { s with message := s.message.set 0 s.binaryCode, binaryCode := 0,
                 bitNum := 0, error := .SUCCESS, isMessageAvailable := true }
      else s
    (true, { s with parseStatus := .WAIT_FOR_MESSAGE })
  else
    let s := { s with bitNum := u8 (s.bitNum + 1) }
    if s.maxBitNum < s.bitNum then _error s .BINARY_BITS_NUM_OVERFLOW true
    else
      let s := { s with binaryCode := u8 (s.binaryCode * 2) }
      let s :=
        if s.binaryHighLowThreshold < s.statusDuration then
          { s with binaryCode := s.binaryCode ||| 1 }
        else s
      (true, s)

/-- The value stored by `message[digitNum] = (statusDuration +
(durationUnit >> 1)) / durationUnit` followed by the increment of a zero
entry. Both operands are `uint16_t` and are promoted to `int` (taken here as
at least 32 bits wide, so the sum does not wrap); the quotient is converted to
`uint8_t` by the store. -/
def durationDigit (statusDuration durationUnit : Nat) : Nat :=
  let q := u8 ((statusDuration + durationUnit / 2) / durationUnit)
  if q = 0 then u8 (q + 1) else q

/-- `TalkingButton::_parseDuration`. -/
def _parseDuration (s : State) : Option (Bool × State) :=
  if s.parseStatus = .END_OF_MESSAGE then
    if s.digitNum ≠ 0 then
      match writeMessage s.message s.digitNum 0 with
      | none => none
      | some m =>
        some (true, { s with message := m, digitNum := 0, error := .SUCCESS,
                             isMessageAvailable := true,
                             parseStatus := .WAIT_FOR_MESSAGE })
    else some (true, { s with parseStatus := .WAIT_FOR_MESSAGE })
  else if (s.maxDigitNum : Int) - 1 < (s.digitNum : Int) then
    some (_error s .DURATION_DIGITS_NUM_OVERFLOW true)
  else if s.durationUnit = 0 then none
  else
    match writeMessage s.message s.digitNum
        (durationDigit s.statusDuration s.durationUnit) with
    | none => none
    | some m => some (true, { s with message := m, digitNum := u8 (s.digitNum + 1) })

/-- The two duration checks at the head of `_parseMessage`: the error code
with which the function returns early, if it does. -/
def tooShort (s : State) : Option ErrorCode :=
  if s.parseStatus = .IN_MESSAGE then
    if s.status = s.released then
      if s.statusDuration < s.minReleased then some .RELEASE_TOO_SHORT else none
    else
      if s.statusDuration < s.minPressed then some .PRESS_TOO_SHORT else none
  else none

/-- `TalkingButton::_parseMessage`. -/
def _parseMessage (s : State) : Option (Bool × State) :=
  match tooShort s with
  | some e => some (_error s e true)
  | none =>
    if (s.parseStatus = .IN_MESSAGE ∧ s.status = s.pressed)
        ∨ s.parseStatus = .END_OF_MESSAGE then
      match s.pressMode with
      | .COUNT => some (_parseCount s)
      | .BINARY => some (_parseBinary s)
      | .DURATION => _parseDuration s
    else some (true, s)

/-- `TalkingButton::read`, one poll. `now` is the value returned by
`millis()` and `level` the value returned by `digitalRead(buttonPin)`. The
result is `none` when the poll runs into undefined behaviour, otherwise the
returned `bool` and the state after the call. -/
def read (s : State) (now level : Nat) : Option (Bool × State) :=
  if s.maxReadPeriod ≤ sub32 now s.lastReadTime then
    some (_error { s with lastReadTime := now } .READ_PERIOD_TOO_LONG false)
  else
    let s := { s with lastReadTime := now, currentStatus := level }
    if s.currentStatus = s.lastStatus then
      let s := { s with currentStatusDuration := u16 (sub32 now s.lastChange) }
      if s.currentStatus = s.released
          ∧ s.messageSeparator ≤ s.currentStatusDuration then
        match s.parseStatus with
        | .INIT => some (true, { s with parseStatus := .WAIT_FOR_MESSAGE })
        | .IN_MESSAGE => _parseMessage { s with parseStatus := .END_OF_MESSAGE }
        | _ => some (true, s)
      else some (true, s)
    else
      let s :=
        { s with
          changeAverage :=
            u32 (s.changeAverage
              + sub32 (sub32 now s.lastChange) (s.changeAverage / 16)),
          lastChange := now,
          status := s.lastStatus,
          statusDuration := s.currentStatusDuration,
          lastStatus := s.currentStatus,
          currentStatusDuration := 0 }
      if s.parseStatus = .WAIT_FOR_MESSAGE then
        some (true, { s with parseStatus := .IN_MESSAGE })
      else if s.debounceInterval ≤ s.statusDuration then _parseMessage s
      else if s.changeAverage ≤ s.minChangeAverage then
        some (_error s .READ_NOISE true)
      else some (true, s)

/-- The copy loop of `readMessage` in Duration mode: entries are copied up to
the first zero, then a zero is stored. `none` when the loop runs past the end of
the array. -/
def copyDigits : List Nat → Option (List Nat)
  | [] => none
  | x :: xs =>
    if x ≠ 0 then
      match copyDigits xs with
      | none => none
      | some out => some (x :: out)
    else some [0]

/-- `TalkingButton::readMessage`. The third component is the list of bytes
stored through `aMessage`, in index order. -/
def readMessage (s : State) : Option (Bool × State × List Nat) :=
  if s.isMessageAvailable then
    if s.pressMode = .DURATION then
      match copyDigits (s.message.take MESSAGE_SIZE) with
      | none => none
      | some out => some (true, { s with isMessageAvailable := false }, out)
    else some (true, { s with isMessageAvailable := false }, [s.message.getD 0 0])
  else some (false, s, [])

/-- `TalkingButton::setMaxReadPeriod`. The two shifts are evaluated in `int`;
`debounceInterval` is a `uint8_t`. -/
def setMaxReadPeriod (s : State) (aMaxReadPeriod : Nat) : Bool × State :=
  let s := { s with maxReadPeriod := aMaxReadPeriod }
  let s := { s with minChangeAverage := (s.maxReadPeriod * 2 + 2) * 16 }
  let s := { s with changeAverage := s.minChangeAverage }
  (true, { s with debounceInterval := u8 (s.maxReadPeriod * 2 + 2) })

/-- `TalkingButton::setMinReleased`. -/
def setMinReleased (s : State) (aMinReleased : Nat) : Bool × State :=
  (true, { s with minReleased := aMinReleased })

/-- `TalkingButton::setMinPressed`. -/
def setMinPressed (s : State) (aMinPressed : Nat) : Bool × State :=
  (true, { s with minPressed := aMinPressed })

/-- `TalkingButton::setMessageSeparator`. -/
def setMessageSeparator (s : State) (aMessageSeparator : Nat) : Bool × State :=
  (true, { s with messageSeparator := aMessageSeparator })

/-- `TalkingButton::setMaxCount`. -/
def setMaxCount (s : State) (aMaxCount : Nat) : Bool × State :=
  (true, { s with maxCount := aMaxCount })

/-- `TalkingButton::setMaxBitNum`. -/
def setMaxBitNum (s : State) (aMaxBitNum : Nat) : Bool × State :=
  (true, { s with maxBitNum := aMaxBitNum })

/-- `TalkingButton::setBinaryHighLowThreshold`. -/
def setBinaryHighLowThreshold (s : State) (aBinaryHighLowThreshold : Nat) :
    Bool × State :=
  (true, { s with binaryHighLowThreshold := aBinaryHighLowThreshold })

/-- `TalkingButton::setMaxDigitNum`. -/
def setMaxDigitNum (s : State) (aMaxDigitNum : Nat) : Bool × State :=
  (true, { s with maxDigitNum := aMaxDigitNum })

/-- `TalkingButton::setDurationUnit`. -/
def setDurationUnit (s : State) (aDurationUnit : Nat) : Bool × State :=
  (true, { s with durationUnit := aDurationUnit })

/-- Default parameter `MAX_READ_PERIOD`. -/
def MAX_READ_PERIOD : Nat := 20

/-- Default parameter `MAX_COUNT`. -/
def MAX_COUNT : Nat := 10

/-- Default parameter `MAX_BIT_NUM`. -/
def MAX_BIT_NUM : Nat := 4

/-- Default parameter `MAX_DIGIT_NUM`. -/
def MAX_DIGIT_NUM : Nat := 4

/-- Default parameter `MIN_RELEASED`. -/
def MIN_RELEASED : Nat := 100

/-- Default parameter `MIN_PRESSED`. -/
def MIN_PRESSED : Nat := 100

/-- Default parameter `MESSAGE_SEPARATOR`. -/
def MESSAGE_SEPARATOR : Nat := 500

/-- Default parameter `BINARY_HIGH_LOW_THRESHOLD`. -/
def BINARY_HIGH_LOW_THRESHOLD : Nat := 300

/-- Default parameter `DURATION_UNIT`. -/
def DURATION_UNIT : Nat := 1000

/-- The constructor `TalkingButton::TalkingButton(void)`. The argument holds
the indeterminate initial values of the members that neither a default member
initialiser nor the constructor sets. -/
def construct (garbage : State) : State :=
  let s := { garbage with count := 0, binaryCode := 0, bitNum := 0, digitNum := 0 }
  let s := (setMaxReadPeriod s MAX_READ_PERIOD).2
  let s := (setMinReleased s MIN_RELEASED).2
  let s := (setMinPressed s MIN_PRESSED).2
  let s := (setMessageSeparator s MESSAGE_SEPARATOR).2
  let s := (setMaxCount s MAX_COUNT).2
  let s := (setMaxBitNum s MAX_BIT_NUM).2
  let s := (setBinaryHighLowThreshold s BINARY_HIGH_LOW_THRESHOLD).2
  let s := (setMaxDigitNum s MAX_DIGIT_NUM).2
  let s := (setDurationUnit s DURATION_UNIT).2
  { s with currentStatusDuration := 0, error := .SUCCESS, parseStatus := .INIT }

/-- `TalkingButton::begin`. `now` is the value returned by `millis()`; the
pull-up argument only selects the mode given to `pinMode`, which has no effect
on the members. -/
def begin (s : State) (aButtonPin : Nat) (aPressMode : PressMode)
    (_aPullup aPressedLow : Bool) (now : Nat) : Bool × State :=
  (true,
    { s with
      buttonPin := aButtonPin,
      pressMode := aPressMode,
      pressed := if aPressedLow then 0 else 1,
      released := if aPressedLow then 1 else 0,
      lastStatus := if aPressedLow then 1 else 0,
      lastChange := now,
      lastReadTime := now })

/-- A sequence of polls, each given as `(now, level)`. The boolean of the
result tells whether every poll returned `true`. -/
def readAll (s : State) : List (Nat × Nat) → Option (Bool × State)
  | [] => some (true, s)
  | p :: ps =>
    match read s p.1 p.2 with
    | none => none
    | some r =>
      match readAll r.2 ps with
      | none => none
      | some rs => some (r.1 && rs.1, rs.2)

/-! ## Definitions used to state and prove the properties -/

/-- The accumulator of the active press mode is zero. -/
def accCleared (s : State) : Prop :=
  match s.pressMode with
  | .COUNT => s.count = 0
  | .BINARY => s.binaryCode = 0 ∧ s.bitNum = 0
  | .DURATION => s.digitNum = 0

/-- At least one symbol has been accumulated in the active press mode: the
test made by the end-of-message branch of the decoder. -/
def accumulated (s : State) : Prop :=
  match s.pressMode with
  | .COUNT => s.count ≠ 0
  | .BINARY => s.bitNum ≠ 0
  | .DURATION => s.digitNum ≠ 0

/-- The state of `read` after the sampling updates of a poll that finds the
level unchanged (before the test for the message separator). -/
def held (s : State) (now level : Nat) : State :=
  { s with lastReadTime := now, currentStatus := level,
           currentStatusDuration := u16 (sub32 now s.lastChange) }

/-- The state of `read` after the sampling updates of a poll that finds the
level changed (before the test of the parse state). -/
def changed (s : State) (now level : Nat) : State :=
  { s with lastReadTime := now, currentStatus := level,
           changeAverage :=
             u32 (s.changeAverage
               + sub32 (sub32 now s.lastChange) (s.changeAverage / 16)),
           lastChange := now,
           status := s.lastStatus,
           statusDuration := s.currentStatusDuration,
           lastStatus := level,
           currentStatusDuration := 0 }

/-- The `switch (pressMode)` of `_parseMessage`. -/
def decode (s : State) : Option (Bool × State) :=
  match s.pressMode with
  | .COUNT => some (_parseCount s)
  | .BINARY => some (_parseBinary s)
  | .DURATION => _parseDuration s

/-- A started instance with the default parameters of the constructor
(active-low button: `pressed = 0`, `released = 1`), in the middle of a
message: the pin has read `level` since the change at time 1000 and the last
poll, at time `1000 + heldFor`, has measured `heldFor` milliseconds. -/
def inMessage (mode : PressMode) (level heldFor : Nat) : State :=
  { error := .SUCCESS, buttonPin := 2, pressMode := mode, pressed := 0, released := 1,
    status := 1 - level, currentStatus := level, currentStatusDuration := heldFor,
    lastStatus := level, parseStatus := .IN_MESSAGE, minReleased := 100,
    minPressed := 100, statusDuration := 150, lastChange := 1000,
    changeAverage := 2000, minChangeAverage := 672, lastReadTime := 1000 + heldFor,
    maxReadPeriod := 20, debounceInterval := 42, messageSeparator := 500, count := 0,
    binaryCode := 0, bitNum := 0, digitNum := 0, maxCount := 10, maxBitNum := 4,
    maxDigitNum := 4, durationUnit := 1000, binaryHighLowThreshold := 300,
    isMessageAvailable := false, message := List.replicate 16 0 }

/-- Two presses counted, the button pressed again for 5 ms, and an average of
the intervals between changes that has fallen below the noise threshold. -/
def noisyBounce : State :=
  { inMessage .COUNT 0 5 with count := 2, changeAverage := 600 }

/-- Count mode with `maxCount = 255`, 255 presses counted and a 256th press
held for 200 ms. -/
def fullCount : State :=
  { inMessage .COUNT 0 200 with count := 255, maxCount := 255 }

/-- Duration mode: the message `[1, 2]` is pending and unread, and the first
press of the next message has been held for 3000 ms. -/
def pendingDuration : State :=
  { inMessage .DURATION 0 3000 with
    isMessageAvailable := true,
    message := [1, 2, 0, 0, 0, 0, 0, 0, 0, 0, 0, 0, 0, 0, 0, 0] }

instance (s : State) : Decidable (accCleared s) := by
  unfold accCleared; cases s.pressMode <;> exact inferInstance

instance (s : State) : Decidable (accumulated s) := by
  unfold accumulated; cases s.pressMode <;> exact inferInstance

/-- The effect of a resetting error on the decoder: accumulator of the active
mode cleared, parse state `INIT`, pending message and flag untouched. -/
def resetFrom (s s1 : State) : Prop :=
  accCleared s1 ∧ s1.parseStatus = .INIT
    ∧ s1.isMessageAvailable = s.isMessageAvailable ∧ s1.message = s.message

/-- Duration mode, two digits read, the button released for 490 ms. -/
def separatorDue : State :=
  { inMessage .DURATION 1 490 with digitNum := 2 }

/-- Binary mode, one bit read, a press that has been held for 60 ms. -/
def shortPress : State :=
  { inMessage .BINARY 0 60 with bitNum := 1, binaryCode := 1 }

/-! ### Poll traces of one message -/

/-- The members that `read` and the decoders only read: the press mode, the two
levels and the parameters set by the `set...` functions. -/
structure Config where
  pressMode : PressMode
  pressed : Nat
  released : Nat
  minReleased : Nat
  minPressed : Nat
  minChangeAverage : Nat
  maxReadPeriod : Nat
  debounceInterval : Nat
  messageSeparator : Nat
  maxCount : Nat
  maxBitNum : Nat
  maxDigitNum : Nat
  durationUnit : Nat
  binaryHighLowThreshold : Nat
  deriving DecidableEq, Repr

/-- The configuration of a state. -/
def State.config (s : State) : Config :=
  { pressMode := s.pressMode, pressed := s.pressed, released := s.released,
    minReleased := s.minReleased, minPressed := s.minPressed,
    minChangeAverage := s.minChangeAverage, maxReadPeriod := s.maxReadPeriod,
    debounceInterval := s.debounceInterval, messageSeparator := s.messageSeparator,
    maxCount := s.maxCount, maxBitNum := s.maxBitNum, maxDigitNum := s.maxDigitNum,
    durationUnit := s.durationUnit,
    binaryHighLowThreshold := s.binaryHighLowThreshold }

/-- A maximal run of consecutive polls that read the same level: the time of
the poll that finds the level changed, and the times of the polls that follow
it and find the level unchanged. -/
structure Segment where
  start : Nat
  holds : List Nat
  deriving DecidableEq, Repr

/-- The poll times of a run, in order. -/
def Segment.times (g : Segment) : List Nat := g.start :: g.holds

/-- The time of the last poll of a run. -/
def Segment.last (g : Segment) : Nat := g.holds.getLastD g.start

/-- The duration `read` has measured for the level of a run when the run ends:
`currentStatusDuration` is zeroed by the poll that finds the change and set
to `now - lastChange` (as a `uint16_t`) by each poll that follows. -/
def Segment.measured (g : Segment) : Nat :=
  if g.holds = [] then 0 else u16 (sub32 g.last g.start)

/-- The polls of a run that reads `level`. -/
def Segment.polls (g : Segment) (level : Nat) : List (Nat × Nat) :=
  g.times.map fun t => (t, level)

/-- Every poll is made less than `maxReadPeriod` after the one before it
(`prev` is the time of the poll before the first). -/
def Timely (maxReadPeriod : Nat) : Nat → List Nat → Prop
  | _, [] => True
  | prev, t :: ts => sub32 t prev < maxReadPeriod ∧ Timely maxReadPeriod t ts

/-- The poll trace of one message, for a button that is released when the
trace starts: polls that still read released, then the presses but the last,
each with the release that follows it, then the last press and the release
that ends the message. -/
structure Trace where
  idle : List Nat
  body : List (Segment × Segment)
  lastPress : Segment
  final : Segment
  deriving DecidableEq, Repr

/-- The poll times of a press and the release after it. -/
def pairTimes (pr : Segment × Segment) : List Nat := pr.1.times ++ pr.2.times

/-- The polls of a press and the release after it. -/
def pairPolls (c : Config) (pr : Segment × Segment) : List (Nat × Nat) :=
  pr.1.polls c.pressed ++ pr.2.polls c.released

/-- The poll times of a trace, in order. -/
def Trace.times (tr : Trace) : List Nat :=
  tr.idle ++ (tr.body.flatMap pairTimes ++ (tr.lastPress.times ++ tr.final.times))

/-- The polls of a trace, in order. -/
def Trace.polls (tr : Trace) (c : Config) : List (Nat × Nat) :=
  tr.idle.map (fun t => (t, c.released))
    ++ (tr.body.flatMap (pairPolls c)
      ++ (tr.lastPress.polls c.pressed ++ tr.final.polls c.released))

/-- The measured durations of the presses of a trace, in order. -/
def Trace.presses (tr : Trace) : List Nat :=
  tr.body.map (fun pr => pr.1.measured) ++ [tr.lastPress.measured]

/-- A press that is accepted: debounced and not shorter than `minPressed`. -/
def pressOK (c : Config) (g : Segment) : Prop :=
  max c.minPressed c.debounceInterval ≤ g.measured

/-- A release inside a message: debounced, not shorter than `minReleased`, and
measured below `messageSeparator` by every poll of the run. -/
def releaseOK (c : Config) (g : Segment) : Prop :=
  max c.minReleased c.debounceInterval ≤ g.measured
    ∧ g.measured < c.messageSeparator
    ∧ ∀ t ∈ g.holds, u16 (sub32 t g.start) < c.messageSeparator

/-- The release that ends a message: its last poll is the first that measures
`messageSeparator` or more. -/
def separatorOK (c : Config) (g : Segment) : Prop :=
  g.holds ≠ [] ∧ c.messageSeparator ≤ g.measured
    ∧ ∀ t ∈ g.holds.dropLast, u16 (sub32 t g.start) < c.messageSeparator

/-- A valid trace of one message under configuration `c`, the previous poll
having been made at time `prev`. -/
def Trace.Valid (tr : Trace) (c : Config) (prev : Nat) : Prop :=
  Timely c.maxReadPeriod prev tr.times
    ∧ (∀ pr ∈ tr.body, pressOK c pr.1 ∧ releaseOK c pr.2)
    ∧ pressOK c tr.lastPress
    ∧ separatorOK c tr.final

/-- The state in which a message can start: parse state `WAIT_FOR_MESSAGE`,
the button released, two distinct levels and a 16-entry message array. -/
def awaiting (s : State) : Prop :=
  s.parseStatus = .WAIT_FOR_MESSAGE ∧ s.lastStatus = s.released
    ∧ s.pressed ≠ s.released ∧ s.message.length = MESSAGE_SIZE

/-- The state after the polls at times `ts` have found the level unchanged and
no separator. -/
def holdEnd (s : State) (ts : List Nat) : State :=
  { s with
    lastReadTime := ts.getLastD s.lastReadTime,
    currentStatus := if ts = [] then s.currentStatus else s.lastStatus,
    currentStatusDuration :=
      if ts = [] then s.currentStatusDuration
      else u16 (sub32 (ts.getLastD s.lastReadTime) s.lastChange) }

/-- No poll at the times `ts` makes `read` act on a message separator. -/
def quiet (s : State) (ts : List Nat) : Prop :=
  s.lastStatus = s.released →
    s.parseStatus = .INIT ∨ s.parseStatus = .IN_MESSAGE →
      ∀ t ∈ ts, u16 (sub32 t s.lastChange) < s.messageSeparator

instance Timely.instDecidable (m : Nat) : ∀ prev ts, Decidable (Timely m prev ts)
  | _, [] => isTrue trivial
  | _, t :: ts =>
    have := Timely.instDecidable m t ts
    inferInstanceAs (Decidable (_ ∧ _))

instance (c : Config) (g : Segment) : Decidable (pressOK c g) := by
  unfold pressOK; exact inferInstance

instance (c : Config) (g : Segment) : Decidable (releaseOK c g) := by
  unfold releaseOK; exact inferInstance

instance (c : Config) (g : Segment) : Decidable (separatorOK c g) := by
  unfold separatorOK; exact inferInstance

instance (tr : Trace) (c : Config) (prev : Nat) : Decidable (tr.Valid c prev) := by
  unfold Trace.Valid; exact inferInstance

instance (s : State) : Decidable (awaiting s) := by
  unfold awaiting; exact inferInstance

/-- The sampling members of a state, which the decoders leave alone. -/
def State.sampling (s : State) : Nat × Nat × Nat × Nat × Nat × Nat × Nat × Nat :=
  (s.status, s.currentStatus, s.currentStatusDuration, s.lastStatus,
    s.statusDuration, s.lastChange, s.changeAverage, s.lastReadTime)

/-- The button is released and the next change of level starts a press that
will be decoded: either a message is awaited, or a message is being read and
the release so far is debounced and not shorter than `minReleased`. -/
def ready (s : State) : Prop :=
  s.lastStatus = s.released ∧ s.pressed ≠ s.released
    ∧ (s.parseStatus = .WAIT_FOR_MESSAGE
      ∨ (s.parseStatus = .IN_MESSAGE ∧ s.debounceInterval ≤ s.currentStatusDuration
          ∧ s.minReleased ≤ s.currentStatusDuration))

/-- The state after the polls of the press `p`, made from a `ready` state. -/
def afterPress (s : State) (p : Segment) : State :=
  holdEnd { changed s p.start s.pressed with parseStatus := .IN_MESSAGE } p.holds

/-- The state handed to the decoder by the poll at time `t` that finds the
press `p` ended. -/
def pressEnded (s : State) (p : Segment) (t : Nat) : State :=
  changed (afterPress s p) t s.released

/-- The state handed to the decoder by the last poll of the release `f` that
ends a message, `x` being the state after the poll that found the release. -/
def separatorSeen (x : State) (f : Segment) : State :=
  { held (holdEnd x f.holds.dropLast) f.last x.lastStatus with
    parseStatus := .END_OF_MESSAGE }

/-- The members written by the decoders: the accumulators of the three modes,
the message array and its flag. -/
structure Acc where
  count : Nat
  binaryCode : Nat
  bitNum : Nat
  digitNum : Nat
  message : List Nat
  isMessageAvailable : Bool
  deriving DecidableEq, Repr

/-- The decoder members of a state. -/
def State.acc (s : State) : Acc :=
  { count := s.count, binaryCode := s.binaryCode, bitNum := s.bitNum,
    digitNum := s.digitNum, message := s.message,
    isMessageAvailable := s.isMessageAvailable }

/-- A started instance with the default parameters of the constructor
(active-low button) that awaits a message: the button has been released since
time 0 and the last poll was made at time 600. -/
def awaitingMessage (mode : PressMode) : State :=
  { error := .SUCCESS, buttonPin := 2, pressMode := mode, pressed := 0, released := 1,
    status := 0, currentStatus := 1, currentStatusDuration := 600, lastStatus := 1,
    parseStatus := .WAIT_FOR_MESSAGE, minReleased := 100, minPressed := 100,
    statusDuration := 0, lastChange := 0, changeAverage := 672,
    minChangeAverage := 672, lastReadTime := 600, maxReadPeriod := 20,
    debounceInterval := 42, messageSeparator := 500, count := 0, binaryCode := 0,
    bitNum := 0, digitNum := 0, maxCount := 10, maxBitNum := 4, maxDigitNum := 4,
    durationUnit := 1000, binaryHighLowThreshold := 300, isMessageAvailable := false,
    message := List.replicate 16 0 }

/-- A run polled every 10 ms: the level is first read at `start` and then by
`n` more polls, so that it is measured at `10 * n` milliseconds. -/
def run10 (start n : Nat) : Segment :=
  { start := start, holds := (List.range n).map fun i => start + 10 * (i + 1) }

/-- Three presses of 150 ms separated by releases of 150 ms, then a release
of 500 ms, polled every 10 ms from time 610. -/
def threePresses : Trace :=
  { idle := [610],
    body := [(run10 620 15, run10 780 15), (run10 940 15, run10 1100 15)],
    lastPress := run10 1260 15,
    final := run10 1420 50 }

/-- The bit read from a press of measured duration `d`: 1 when `d` exceeds
the threshold, else 0. -/
def pressBit (threshold d : Nat) : Nat := if threshold < d then 1 else 0

/-- The number written most significant bit first by the bits `b_1 .. b_n`:
the sum of the `b_i * 2 ^ (n - i)`. -/
def msbFirst : List Nat → Nat
  | [] => 0
  | b :: bs => b * 2 ^ bs.length + msbFirst bs

/-- The trace of `n + 1` presses of 150 ms separated by releases of 150 ms and
followed by a release of 500 ms, polled every 10 ms from time 610. -/
def equalPresses (n : Nat) : Trace :=
  { idle := [610],
    body := (List.range n).map fun i => (run10 (620 + 320 * i) 15, run10 (780 + 320 * i) 15),
    lastPress := run10 (620 + 320 * n) 15,
    final := run10 (780 + 320 * n) 50 }

/-- A press of 400 ms, a release of 150 ms, a press of 100 ms and a release of
500 ms, polled every 10 ms from time 610. -/
def longShort : Trace :=
  { idle := [610],
    body := [(run10 620 40, run10 1030 15)],
    lastPress := run10 1190 10,
    final := run10 1300 50 }

/-- A run polled every 15 ms, measured at `15 * n` milliseconds. -/
def run15 (start n : Nat) : Segment :=
  { start := start, holds := (List.range n).map fun i => start + 15 * (i + 1) }

/-- A press of 900 ms, a release of 150 ms, a press of 2100 ms and a release
of 510 ms, polled every 15 ms from time 615. -/
def twoDurations : Trace :=
  { idle := [615],
    body := [(run15 630 60, run15 1545 10)],
    lastPress := run15 1710 140,
    final := run15 3825 34 }

/-- One press of 300 ms and a release of 500 ms, polled every 10 ms from time
610. -/
def onePress300 : Trace :=
  { idle := [610], body := [], lastPress := run10 620 30, final := run10 930 50 }

/-- The polls of a press of 3000 ms that follows the trace `twoDurations`,
and the poll that finds it ended. -/
def thirdPress : List (Nat × Nat) :=
  (run15 4350 200).polls 0 ++ [(7365, 1)]

/-- The given number of calls of `readMessage` in a row: the result of each
call (the returned `bool` and the bytes stored through `aMessage`) and the
state after the last call. -/
def readMessageTimes (s : State) : Nat → Option (List (Bool × List Nat) × State)
  | 0 => some ([], s)
  | n + 1 =>
    match readMessage s with
    | none => none
    | some r =>
      match readMessageTimes r.2.1 n with
      | none => none
      | some rs => some ((r.1, r.2.2) :: rs.1, rs.2)

/-- Binary mode, two bits read, a release that has lasted 8 ms, and an average
of the intervals between changes just below the noise threshold. -/
def noisyRelease : State :=
  { inMessage .BINARY 1 8 with bitNum := 2, binaryCode := 3, changeAverage := 650 }

/-! ### Runs of a started instance -/

/-- A call of one of the `set...` member functions. -/
inductive Setting where
  | maxReadPeriod (v : Nat)
  | minReleased (v : Nat)
  | minPressed (v : Nat)
  | messageSeparator (v : Nat)
  | maxCount (v : Nat)
  | maxBitNum (v : Nat)
  | binaryHighLowThreshold (v : Nat)
  | maxDigitNum (v : Nat)
  | durationUnit (v : Nat)
  deriving DecidableEq, Repr

/-- The state after a call of a `set...` function. -/
def setting (s : State) : Setting → State
  | .maxReadPeriod v => (setMaxReadPeriod s v).2
  | .minReleased v => (setMinReleased s v).2
  | .minPressed v => (setMinPressed s v).2
  | .messageSeparator v => (setMessageSeparator s v).2
  | .maxCount v => (setMaxCount s v).2
  | .maxBitNum v => (setMaxBitNum s v).2
  | .binaryHighLowThreshold v => (setBinaryHighLowThreshold s v).2
  | .maxDigitNum v => (setMaxDigitNum s v).2
  | .durationUnit v => (setDurationUnit s v).2

/-- The state after a sequence of calls of `set...` functions. -/
def configure (s : State) (l : List Setting) : State := l.foldl setting s

/-- A freshly constructed and started instance: the constructor run on memory
with the contents `garbage`, calls of `set...` functions, `begin`, and further
calls of `set...` functions before the first poll. -/
def started (garbage : State) (before after : List Setting) (aButtonPin : Nat)
    (aPressMode : PressMode) (aPullup aPressedLow : Bool) (now : Nat) : State :=
  configure
    (begin (configure (construct garbage) before) aButtonPin aPressMode aPullup
      aPressedLow now).2
    after

/-- A call of `read` (with the values of `millis()` and `digitalRead`) or of
`readMessage`. -/
inductive Call where
  | read (now level : Nat)
  | readMessage
  deriving DecidableEq, Repr

/-- The state after a call, `none` when the call runs into undefined
behaviour. -/
def call (s : State) : Call → Option State
  | .read now level => (read s now level).map fun r => r.2
  | .readMessage => (readMessage s).map fun r => r.2.1

/-- The state after a sequence of calls. -/
def callAll (s : State) : List Call → Option State
  | [] => some s
  | c :: cs =>
    match call s c with
    | none => none
    | some s1 => callAll s1 cs

/-- The accumulator bounds: no accumulator exceeds its configured limit. -/
def bounded (s : State) : Prop :=
  s.count ≤ s.maxCount ∧ s.bitNum ≤ s.maxBitNum ∧ s.digitNum ≤ s.maxDigitNum

/-- While the parse state is `INIT` or `WAIT_FOR_MESSAGE` the accumulator of
the active mode is zero. -/
def clearedAtRest (s : State) : Prop :=
  s.parseStatus = .INIT ∨ s.parseStatus = .WAIT_FOR_MESSAGE → accCleared s

/-- Memory with every member zero, on which the constructor is run. -/
def blank : State :=
  { error := .SUCCESS, buttonPin := 0, pressMode := .COUNT, pressed := 0, released := 0,
    status := 0, currentStatus := 0, currentStatusDuration := 0, lastStatus := 0,
    parseStatus := .INIT, minReleased := 0, minPressed := 0, statusDuration := 0,
    lastChange := 0, changeAverage := 0, minChangeAverage := 0, lastReadTime := 0,
    maxReadPeriod := 0, debounceInterval := 0, messageSeparator := 0, count := 0,
    binaryCode := 0, bitNum := 0, digitNum := 0, maxCount := 0, maxBitNum := 0,
    maxDigitNum := 0, durationUnit := 0, binaryHighLowThreshold := 0,
    isMessageAvailable := false, message := List.replicate 16 0 }

instance (s : State) : Decidable (bounded s) := by
  unfold bounded; exact inferInstance

instance (s : State) : Decidable (clearedAtRest s) := by
  unfold clearedAtRest; exact inferInstance

/-- An instance at rest with nothing accumulated: the three accumulators are
zero and the parse state is `INIT`. -/
def fresh (s : State) : Prop :=
  s.count = 0 ∧ s.binaryCode = 0 ∧ s.bitNum = 0 ∧ s.digitNum = 0 ∧ s.parseStatus = .INIT

/-- The decoder of the active mode runs into no undefined behaviour: in
Duration mode `digitNum` is inside the message array and `durationUnit` is
not zero. -/
def defined (s : State) : Prop :=
  s.pressMode = .DURATION → s.digitNum < MESSAGE_SIZE ∧ s.durationUnit ≠ 0

/-- A started instance with the default parameters, active low, at time 0. -/
def startedDefault (mode : PressMode) : State :=
  started blank [] [] 2 mode true true 0

/-- Settings that make short presses valid: no minimum durations, a separator
of 60 ms, a binary threshold of 10 ms and `maxBitNum = 255`. -/
def quickBits : List Setting :=
  [.minPressed 0, .minReleased 0, .messageSeparator 60, .binaryHighLowThreshold 10,
    .maxBitNum 255]

/-- A run polled every 19 ms: the level is first read at `start` and then by
three more polls, so that it is measured at 57 ms. -/
def run19 (start : Nat) : Segment :=
  { start := start, holds := [start + 19, start + 38, start + 57] }

/-- The trace of `n + 1` presses of 57 ms separated by releases of 57 ms and
followed by a release of 76 ms, polled every 19 ms from time 95. -/
def quickPresses (n : Nat) : Trace :=
  { idle := [],
    body := (List.range n).map fun i => (run19 (95 + 152 * i), run19 (171 + 152 * i)),
    lastPress := run19 (95 + 152 * n),
    final := { start := 171 + 152 * n,
               holds := [190 + 152 * n, 209 + 152 * n, 228 + 152 * n, 247 + 152 * n] } }

/-- Binary mode with the settings `quickBits`, started at time 0. -/
def startedQuick : State := started blank quickBits [] 2 .BINARY true true 0

/-- The instance `startedQuick` after the polls at 19, 38, 57 and 76 ms have
read the released level: the separator of 60 ms has been seen. -/
def awaitingQuick : State :=
  { startedQuick with
    lastReadTime := 76, currentStatus := 1, currentStatusDuration := 76,
    parseStatus := .WAIT_FOR_MESSAGE }

/-- The invariant behind the accumulator-zero property: the accumulator of the
active mode is zero at rest, the accumulators are within their limits, the
parse state is not the transient `END_OF_MESSAGE`, and in Binary mode the bit
counter cannot wrap (`maxBitNum ≤ 254`) and no bit is held without being
counted. -/
def settled (s : State) : Prop :=
  clearedAtRest s ∧ bounded s ∧ s.parseStatus ≠ .END_OF_MESSAGE
    ∧ (s.pressMode = .BINARY → s.maxBitNum ≤ 254 ∧ (s.bitNum = 0 → s.binaryCode = 0))

/-! ### The decoder as a function of the press durations -/

/-- The members that the decoders read or write, apart from the ended level
and its duration: the configuration, the accumulators with the message, the
parse state and the error code. -/
structure Decoder where
  config : Config
  acc : Acc
  parseStatus : ParsingStatus
  error : ErrorCode
  deriving DecidableEq, Repr

/-- The decoder members of a state. -/
def State.decoder (s : State) : Decoder :=
  { config := s.config, acc := s.acc, parseStatus := s.parseStatus, error := s.error }

/-- The state `x` with the sampling members of `y` in place of its own. -/
def resample (x y : State) : State :=
  { x with
    buttonPin := y.buttonPin, currentStatus := y.currentStatus,
    currentStatusDuration := y.currentStatusDuration, lastStatus := y.lastStatus,
    lastChange := y.lastChange, changeAverage := y.changeAverage,
    lastReadTime := y.lastReadTime }

/-- A state with the decoder members `v`, the ended level `status` of duration
`statusDuration`, and every other sampling member zero. -/
def Decoder.state (v : Decoder) (status statusDuration : Nat) : State :=
  { error := v.error, buttonPin := 0, pressMode := v.config.pressMode,
    pressed := v.config.pressed, released := v.config.released, status := status,
    currentStatus := 0, currentStatusDuration := 0, lastStatus := 0,
    parseStatus := v.parseStatus, minReleased := v.config.minReleased,
    minPressed := v.config.minPressed, statusDuration := statusDuration, lastChange := 0,
    changeAverage := 0, minChangeAverage := v.config.minChangeAverage, lastReadTime := 0,
    maxReadPeriod := v.config.maxReadPeriod, debounceInterval := v.config.debounceInterval,
    messageSeparator := v.config.messageSeparator, count := v.acc.count,
    binaryCode := v.acc.binaryCode, bitNum := v.acc.bitNum, digitNum := v.acc.digitNum,
    maxCount := v.config.maxCount, maxBitNum := v.config.maxBitNum,
    maxDigitNum := v.config.maxDigitNum, durationUnit := v.config.durationUnit,
    binaryHighLowThreshold := v.config.binaryHighLowThreshold,
    isMessageAvailable := v.acc.isMessageAvailable, message := v.acc.message }

/-- The returned value and the decoder members of the state after a call. -/
def view (r : Bool × State) : Bool × Decoder := (r.1, r.2.decoder)

/-- The parse state in which a press is decoded: the change that starts the
press turns `WAIT_FOR_MESSAGE` into `IN_MESSAGE`. -/
def engage (p : ParsingStatus) : ParsingStatus :=
  if p = .WAIT_FOR_MESSAGE then .IN_MESSAGE else p

/-- What the poll that ends an accepted press of measured duration `d` does to
the decoder members: the call of `_parseMessage` for a press. -/
def pressStep (v : Decoder) (d : Nat) : Option (Bool × Decoder) :=
  (_parseMessage
    (Decoder.state { v with parseStatus := engage v.parseStatus } v.config.pressed d)).map view

/-- What the poll that finds the separator does to the decoder members, the
last press having been measured at `d`. -/
def separatorStep (v : Decoder) (d : Nat) : Option (Bool × Decoder) :=
  match v.parseStatus with
  | .INIT => some (true, { v with parseStatus := .WAIT_FOR_MESSAGE })
  | .IN_MESSAGE =>
    (_parseMessage
      (Decoder.state { v with parseStatus := .END_OF_MESSAGE } v.config.pressed d)).map view
  | _ => some (true, v)

/-- The decoder run over the measured durations of the presses of a message:
whether every step returned `true`, and the decoder members at the end. -/
def decodePresses (v : Decoder) : List Nat → Option (Bool × Decoder)
  | [] => some (true, v)
  | d :: ds =>
    match pressStep v d with
    | none => none
    | some r =>
      match decodePresses r.2 ds with
      | none => none
      | some rs => some (r.1 && rs.1, rs.2)

/-- The decoder run over the presses of a message and the separator that ends
it: a function of the decoder members at the start and of the measured
durations of the presses. -/
def decodeMessage (v : Decoder) (ds : List Nat) : Option (Bool × Decoder) :=
  match decodePresses v ds with
  | none => none
  | some r =>
    match separatorStep r.2 (ds.getLastD 0) with
    | none => none
    | some q => some (r.1 && q.1, q.2)

/-- The button is released and the next change of level starts a press: a
message is awaited, or the release so far is debounced and not shorter than
`minReleased` and the parse state is `IN_MESSAGE` or, after an error, `INIT`. -/
def poised (s : State) : Prop :=
  s.lastStatus = s.released ∧ s.pressed ≠ s.released
    ∧ (s.parseStatus = .WAIT_FOR_MESSAGE
      ∨ ((s.parseStatus = .IN_MESSAGE ∨ s.parseStatus = .INIT)
          ∧ s.debounceInterval ≤ s.currentStatusDuration
          ∧ s.minReleased ≤ s.currentStatusDuration))

/-- The state after the polls of the press `p`, made from a `poised` state. -/
def pressHeld (s : State) (p : Segment) : State :=
  holdEnd { changed s p.start s.pressed with parseStatus := engage s.parseStatus } p.holds

/-- The state handed to `_parseMessage` by the poll at time `t` that finds the
press `p` ended. -/
def pressDone (s : State) (p : Segment) (t : Nat) : State :=
  changed (pressHeld s p) t s.released

/-- The result of the last poll of the release `f` that ends a message, `x`
being the state after the poll that found the release. -/
def separatorResult (x : State) (f : Segment) : Option (Bool × State) :=
  match x.parseStatus with
  | .INIT =>
    some (true, { held (holdEnd x f.holds.dropLast) f.last x.lastStatus with
                  parseStatus := .WAIT_FOR_MESSAGE })
  | .IN_MESSAGE =>
    _parseMessage { held (holdEnd x f.holds.dropLast) f.last x.lastStatus with
                    parseStatus := .END_OF_MESSAGE }
  | _ => some (true, held (holdEnd x f.holds.dropLast) f.last x.lastStatus)

instance (s : State) : Decidable (poised s) := by
  unfold poised; exact inferInstance

/-- The trace `longShort` with a release twice as long between the presses: a
press of 400 ms, a release of 300 ms, a press of 100 ms and a release of 500 ms,
polled every 10 ms from time 610. -/
def longShortSlow : Trace :=
  { idle := [610],
    body := [(run10 620 40, run10 1030 30)],
    lastPress := run10 1340 10,
    final := run10 1450 50 }

/-- A started instance in the middle of a message: the button has been
released for 150 ms since time 450 and the last poll was made at time 600. -/
def midMessage (mode : PressMode) : State :=
  { awaitingMessage mode with
    parseStatus := .IN_MESSAGE, currentStatusDuration := 150, lastChange := 450,
    count := 1, bitNum := 1, binaryCode := 1 }

/-- Settings that make short presses valid in Count and Duration mode: no
minimum durations, a separator of 60 ms and a duration unit of 19 ms. -/
def quickSettings : List Setting :=
  [.minPressed 0, .minReleased 0, .messageSeparator 60, .durationUnit 19]

/-- Polled every 19 ms from time 19 with the button active low: a release of
76 ms, then `n` presses of 57 ms, each followed by a release of 57 ms. -/
def quickPolls (n : Nat) : List (Nat × Nat) :=
  [(19, 1), (38, 1), (57, 1), (76, 1)]
    ++ (List.range n).flatMap fun i =>
        (run19 (95 + 152 * i)).polls 0 ++ (run19 (171 + 152 * i)).polls 1

/-- The polls `quickPolls n` as calls of `read`. -/
def quickCalls (n : Nat) : List Call :=
  (quickPolls n).map fun p => .read p.1 p.2

/-- Memory with every byte of the message array 255 and every other member
zero, on which the constructor is run. -/
def filled : State := { blank with message := List.replicate 16 255 }

/-- Count mode with the settings `quickSettings` and `setMaxCount(2)`, started
at time 0. -/
def startedCount2 : State :=
  started blank (quickSettings ++ [.maxCount 2]) [] 2 .COUNT true true 0

/-- The instance `startedCount2` after the calls `quickCalls 2`: two presses
counted, the button released for 57 ms. -/
def countedTwo : State :=
  { startedCount2 with
    currentStatus := 1, currentStatusDuration := 57, parseStatus := .IN_MESSAGE,
    statusDuration := 57, lastChange := 323, changeAverage := 812, lastReadTime := 380,
    count := 2 }

/-- The instance `startedCount2` after the calls `quickCalls 3`: the third
press has failed with `COUNT_OVERFLOW`, the button released for 57 ms. -/
def countOverflowed : State :=
  { startedCount2 with
    error := .COUNT_OVERFLOW, currentStatus := 1, currentStatusDuration := 57,
    statusDuration := 57, lastChange := 475, changeAverage := 862, lastReadTime := 532 }

/-- Duration mode with the settings `quickSettings` and `setMaxDigitNum(n)`,
constructed on the memory `filled` and started at time 0. -/
def startedDigits (n : Nat) : State :=
  started filled (quickSettings ++ [.maxDigitNum n]) [] 2 .DURATION true true 0

/-- The instance `startedDigits 15` after the calls `quickCalls 15`: fifteen
digits written, the button released for 57 ms. -/
def fifteenDigits : State :=
  { startedDigits 15 with
    currentStatus := 1, currentStatusDuration := 57, parseStatus := .IN_MESSAGE,
    statusDuration := 57, lastChange := 2299, changeAverage := 1147, lastReadTime := 2356,
    digitNum := 15, message := List.replicate 15 3 ++ [255] }

/-- The instance `startedDigits 16` after the polls `quickPolls 16`: sixteen
digits written, the button released for 57 ms since time 2451. -/
def sixteenDigits : State :=
  { startedDigits 16 with
    currentStatus := 1, currentStatusDuration := 57, parseStatus := .IN_MESSAGE,
    statusDuration := 57, lastChange := 2451, changeAverage := 1156, lastReadTime := 2508,
    digitNum := 16, message := List.replicate 16 3 }

/-- A press of 30 ms in a message, with `minPressed = 20`: not shorter than
`minPressed`, but shorter than `debounceInterval = 42`. -/
def briefPress : State := { inMessage .COUNT 0 30 with minPressed := 20 }

/-! ## Theorems -/

/-- The result of a poll that is in time and finds the level unchanged. -/
theorem read_hold (s : State) (now level : Nat)
    (hpoll : sub32 now s.lastReadTime < s.maxReadPeriod) (hlevel : level = s.lastStatus) :
    read s now level =
      if level = s.released ∧ s.messageSeparator ≤ u16 (sub32 now s.lastChange) then
        match s.parseStatus with
        | .INIT => some (true, { held s now level with parseStatus := .WAIT_FOR_MESSAGE })
        | .IN_MESSAGE =>
          _parseMessage { held s now level with parseStatus := .END_OF_MESSAGE }
        | _ => some (true, held s now level)
      else some (true, held s now level) := by
  have hp : ¬ s.maxReadPeriod ≤ sub32 now s.lastReadTime := Nat.not_le.mpr hpoll
  simp only [read, hp, if_false, hlevel, if_true, held]

/-- The result of a poll that is in time and finds the level changed. -/
theorem read_change (s : State) (now level : Nat)
    (hpoll : sub32 now s.lastReadTime < s.maxReadPeriod) (hlevel : level ≠ s.lastStatus) :
    read s now level =
      if s.parseStatus = .WAIT_FOR_MESSAGE then
        some (true, { changed s now level with parseStatus := .IN_MESSAGE })
      else if s.debounceInterval ≤ s.currentStatusDuration then
        _parseMessage (changed s now level)
      else if (changed s now level).changeAverage ≤ s.minChangeAverage then
        some (_error (changed s now level) .READ_NOISE true)
      else some (true, changed s now level) := by
  have hp : ¬ s.maxReadPeriod ≤ sub32 now s.lastReadTime := Nat.not_le.mpr hpoll
  simp only [read, hp, if_false, hlevel, changed]


/-- A resetting error returns `false`, records its code and resets the
decoder. -/
theorem error_reset (s : State) (e : ErrorCode) :
    (_error s e true).1 = false ∧ (_error s e true).2.error = e
      ∧ resetFrom s (_error s e true).2 := by
  cases hm : s.pressMode <;> simp [_error, hm, resetFrom, accCleared]

theorem error_reset_of_eq {s s1 : State} {e : ErrorCode} {b : Bool}
    (h : _error s e true = (b, s1)) : b = false ∧ s1.error = e ∧ resetFrom s s1 := by
  have := error_reset s e
  rw [h] at this
  exact this

/-- A failing decoder step is a resetting overflow error. -/
theorem decode_fail {s s1 : State} (h : decode s = some (false, s1)) :
    resetFrom s s1 ∧ (s1.error = .COUNT_OVERFLOW ∨ s1.error = .BINARY_BITS_NUM_OVERFLOW
      ∨ s1.error = .DURATION_DIGITS_NUM_OVERFLOW) := by
  unfold decode at h
  split at h
  · simp only [_parseCount, Option.some.injEq] at h
    split at h
    · simp at h
    · split at h
      · obtain ⟨-, he, hr⟩ := error_reset_of_eq h
        exact ⟨by simpa [resetFrom] using hr, Or.inl he⟩
      · simp at h
  · simp only [_parseBinary, Option.some.injEq] at h
    split at h
    · simp at h
    · split at h
      · obtain ⟨-, he, hr⟩ := error_reset_of_eq h
        exact ⟨by simpa [resetFrom] using hr, Or.inr (Or.inl he)⟩
      · simp at h
  · simp only [_parseDuration] at h
    split at h
    · split at h
      · split at h <;> simp at h
      · simp at h
    · split at h
      · simp only [Option.some.injEq] at h
        obtain ⟨-, he, hr⟩ := error_reset_of_eq h
        exact ⟨hr, Or.inr (Or.inr he)⟩
      · split at h
        · simp at h
        · split at h <;> simp at h

theorem parseMessage_fail {s s1 : State} (h : _parseMessage s = some (false, s1)) :
    resetFrom s s1 ∧ s1.error ≠ .READ_NOISE ∧ s1.error ≠ .READ_PERIOD_TOO_LONG := by
  unfold _parseMessage at h
  split at h
  · next e he =>
    simp only [Option.some.injEq] at h
    obtain ⟨-, he1, hr⟩ := error_reset_of_eq h
    refine ⟨hr, ?_, ?_⟩ <;>
    · rw [he1]
      intro hc
      subst hc
      simp only [tooShort] at he
      split at he <;> [split at he <;> split at he <;> simp at he; simp at he]
  · split at h
    · obtain ⟨hr, he⟩ := @decode_fail s s1 (by simpa [decode] using h)
      refine ⟨hr, ?_, ?_⟩ <;> rcases he with he | he | he <;> simp [he]
    · simp at h


/-- The result of a poll that comes too late. -/
theorem read_slow (s : State) (now level : Nat)
    (h : s.maxReadPeriod ≤ sub32 now s.lastReadTime) :
    read s now level
      = some (false, { s with lastReadTime := now, error := .READ_PERIOD_TOO_LONG }) := by
  simp [read, h, _error]

/-- C5. A poll made `maxReadPeriod` or more milliseconds (modulo `2^32`) after
the previous one returns `false`, records `READ_PERIOD_TOO_LONG` and the new
poll time, and leaves every other member as it was. -/
theorem read_period_too_long (s : State) (now level : Nat)
    (h : s.maxReadPeriod ≤ sub32 now s.lastReadTime) :
    read s now level
      = some (false, { s with lastReadTime := now, error := .READ_PERIOD_TOO_LONG }) :=
  read_slow s now level h

/-- C5 at a concrete input: Binary mode, previous poll at 1200, poll at 1220 with
`maxReadPeriod = 20`. -/
theorem read_period_too_long_witness :
    (inMessage .BINARY 1 200).maxReadPeriod
        ≤ sub32 1220 (inMessage .BINARY 1 200).lastReadTime
      ∧ read (inMessage .BINARY 1 200) 1220 0
        = some (false, { inMessage .BINARY 1 200 with
                          lastReadTime := 1220, error := .READ_PERIOD_TOO_LONG }) :=
  ⟨by decide, read_period_too_long (inMessage .BINARY 1 200) 1220 0 (by decide)⟩

/-- A failing poll either was rejected for its period, or has reset the
decoder. -/
theorem read_fail {s s1 : State} {now level : Nat}
    (h : read s now level = some (false, s1)) :
    (s.maxReadPeriod ≤ sub32 now s.lastReadTime ∧ s1.error = .READ_PERIOD_TOO_LONG)
      ∨ (sub32 now s.lastReadTime < s.maxReadPeriod ∧ resetFrom s s1
          ∧ s1.error ≠ .READ_PERIOD_TOO_LONG) := by
  by_cases hp : s.maxReadPeriod ≤ sub32 now s.lastReadTime
  · left
    rw [read_slow s now level hp] at h
    simp only [Option.some.injEq, Prod.mk.injEq, true_and] at h
    exact ⟨hp, by rw [← h]⟩
  · right
    have hp1 := Nat.not_le.mp hp
    refine ⟨hp1, ?_⟩
    by_cases hl : level = s.lastStatus
    · rw [read_hold s now level hp1 hl] at h
      split at h
      · split at h
        · simp at h
        · obtain ⟨hr, -, he⟩ := parseMessage_fail h
          exact ⟨by simpa [resetFrom, held] using hr, he⟩
        · simp at h
      · simp at h
    · rw [read_change s now level hp1 hl] at h
      split at h
      · simp at h
      · split at h
        · obtain ⟨hr, -, he⟩ := parseMessage_fail h
          exact ⟨by simpa [resetFrom, changed] using hr, he⟩
        · split at h
          · simp only [Option.some.injEq] at h
            obtain ⟨-, he, hr⟩ := error_reset_of_eq h
            exact ⟨by simpa [resetFrom, changed] using hr, by simp [he]⟩
          · simp at h

/-- C6 (as amended). A poll that fails with `READ_NOISE` has reset the decoder:
the accumulator of the active mode is zero and the parse state is `INIT`
after it; the pending message and its flag are untouched. -/
theorem read_noise_resets (s s1 : State) (now level : Nat)
    (hfail : read s now level = some (false, s1))
    (hnoise : s1.error = .READ_NOISE) :
    accCleared s1 ∧ s1.parseStatus = .INIT
      ∧ s1.isMessageAvailable = s.isMessageAvailable ∧ s1.message = s.message := by
  rcases read_fail hfail with ⟨-, he⟩ | ⟨-, hr, -⟩
  · rw [hnoise] at he
    cases he
  · exact hr

/-- C6 (as amended) at a concrete input: the bounce of `noisyBounce`, polled
at time 1010. -/
theorem read_noise_resets_witness :
    read noisyBounce 1010 1
        = some (false, { changed noisyBounce 1010 1 with
                          error := .READ_NOISE, count := 0, parseStatus := .INIT })
      ∧ accCleared { changed noisyBounce 1010 1 with
                      error := .READ_NOISE, count := 0, parseStatus := .INIT }
      ∧ ({ changed noisyBounce 1010 1 with
            error := .READ_NOISE, count := 0, parseStatus := .INIT } : State).parseStatus
          = .INIT :=
  have h : read noisyBounce 1010 1
        = some (false, { changed noisyBounce 1010 1 with
                          error := .READ_NOISE, count := 0, parseStatus := .INIT }) := by
    decide
  ⟨h, (read_noise_resets _ _ 1010 1 h rfl).1, (read_noise_resets _ _ 1010 1 h rfl).2.1⟩

/-- C6 (as stated) fails: with two presses counted in a message, a bounce
that brings the average to the noise threshold makes the poll fail with
`READ_NOISE`, and that poll sets `count` to 0 and the parse state to `INIT`. -/
theorem read_noise_not_preserving :
    noisyBounce.count = 2 ∧ noisyBounce.parseStatus = .IN_MESSAGE
      ∧ (read noisyBounce 1010 1).map
          (fun r => (r.1, r.2.error, r.2.count, r.2.parseStatus))
        = some (false, .READ_NOISE, 0, .INIT) := by
  decide


/-- The completion contract where the write of the terminator is defined (in
Duration mode, `digitNum` inside the message array): a poll that finds the
released level unchanged for at least `messageSeparator` while the parse state
is `IN_MESSAGE` returns `true` and leaves the parse state `WAIT_FOR_MESSAGE`;
it sets the availability flag when a symbol had been accumulated, and otherwise
leaves the flag and the pending message as they were. -/
theorem completion_contract (s : State) (now level : Nat)
    (hpoll : sub32 now s.lastReadTime < s.maxReadPeriod)
    (hin : s.parseStatus = .IN_MESSAGE)
    (hlevel : level = s.lastStatus)
    (hrel : level = s.released)
    (hsep : s.messageSeparator ≤ u16 (sub32 now s.lastChange))
    (hbuf : s.pressMode = .DURATION → s.digitNum < MESSAGE_SIZE) :
    ∃ s1, read s now level = some (true, s1)
      ∧ s1.parseStatus = .WAIT_FOR_MESSAGE
      ∧ (accumulated s → s1.isMessageAvailable = true)
      ∧ (¬ accumulated s →
          s1.isMessageAvailable = s.isMessageAvailable ∧ s1.message = s.message) := by
  rw [read_hold s now level hpoll hlevel]
  cases hm : s.pressMode
  · by_cases hc : s.count = 0 <;>
    simp [hrel, hsep, hin, _parseMessage, tooShort, held, hm, _parseCount, accumulated, hc]
  · by_cases hc : s.bitNum = 0 <;>
    simp [hrel, hsep, hin, _parseMessage, tooShort, held, hm, _parseBinary, accumulated, hc]
  · have hb := hbuf hm
    by_cases hc : s.digitNum = 0 <;>
    simp [hrel, hsep, hin, _parseMessage, tooShort, held, hm, _parseDuration, accumulated, hc,
      writeMessage, hb]

/-- The completion contract at a concrete input: Duration mode, two digits
read, the released level measured at 500 ms by the poll at time 1500. -/
theorem completion_contract_witness :
    accumulated separatorDue
      ∧ ∃ s1, read separatorDue 1500 1 = some (true, s1)
        ∧ s1.parseStatus = .WAIT_FOR_MESSAGE
        ∧ (accumulated separatorDue → s1.isMessageAvailable = true)
        ∧ (¬ accumulated separatorDue →
            s1.isMessageAvailable = separatorDue.isMessageAvailable
              ∧ s1.message = separatorDue.message) :=
  ⟨by decide,
    completion_contract separatorDue 1500 1 (by decide) (by decide) (by decide) (by decide)
      (by decide) (by decide)⟩

set_option maxRecDepth 100000 in
/-- C4 fails in Duration mode with `setMaxDigitNum(16)`, a value the function
accepts. Sixteen presses are read by polls that all return `true` and leave the
state `sixteenDigits`: the parse state is `IN_MESSAGE`, `digitNum` is 16 and the
released level has been held since time 2451. The poll at time 2527 is made in
time and finds the level held for 76 ms, at least `messageSeparator = 60`; its
write of the terminator `message[16]` is outside the 16-entry array, so that
the poll has no defined result. -/
theorem completion_overruns_message :
    (setMaxDigitNum (construct filled) 16).1 = true
      ∧ readAll (startedDigits 16) (quickPolls 16) = some (true, sixteenDigits)
      ∧ sixteenDigits.pressMode = .DURATION
      ∧ sixteenDigits.parseStatus = .IN_MESSAGE
      ∧ sixteenDigits.digitNum = 16
      ∧ sixteenDigits.message.length = MESSAGE_SIZE
      ∧ sixteenDigits.lastStatus = sixteenDigits.released
      ∧ sub32 2527 sixteenDigits.lastReadTime < sixteenDigits.maxReadPeriod
      ∧ sixteenDigits.messageSeparator ≤ u16 (sub32 2527 sixteenDigits.lastChange)
      ∧ read sixteenDigits 2527 sixteenDigits.released = none := by
  decide

/-- C7. While the parse state is `IN_MESSAGE`, a poll that finds the level
changed after a debounced level (measured duration at least
`debounceInterval`) fails with `RELEASE_TOO_SHORT` when the ended level is a
release shorter than `minReleased`, and with `PRESS_TOO_SHORT` when it is a
press shorter than `minPressed`; the accumulator of the active mode is then
zero, the parse state `INIT`, and the pending message and its flag are as
before the poll. -/
theorem too_short_resets (s : State) (now level : Nat)
    (hpoll : sub32 now s.lastReadTime < s.maxReadPeriod)
    (hin : s.parseStatus = .IN_MESSAGE)
    (hchange : level ≠ s.lastStatus)
    (hlevels : s.pressed ≠ s.released)
    (hdeb : s.debounceInterval ≤ s.currentStatusDuration)
    (hshort : (s.lastStatus = s.released ∧ s.currentStatusDuration < s.minReleased)
      ∨ (s.lastStatus = s.pressed ∧ s.currentStatusDuration < s.minPressed)) :
    ∃ s1, read s now level = some (false, s1)
      ∧ s1.error = (if s.lastStatus = s.released then ErrorCode.RELEASE_TOO_SHORT
                    else ErrorCode.PRESS_TOO_SHORT)
      ∧ accCleared s1
      ∧ s1.parseStatus = .INIT
      ∧ s1.isMessageAvailable = s.isMessageAvailable
      ∧ s1.message = s.message := by
  rw [read_change s now level hpoll hchange]
  rcases hshort with ⟨hl, hd⟩ | ⟨hl, hd⟩
  · cases hm : s.pressMode <;>
      simp [changed, hin, hdeb, _parseMessage, tooShort, hl, hd, _error, hm, accCleared]
  · have hne : s.lastStatus ≠ s.released := hl ▸ hlevels
    cases hm : s.pressMode <;>
      simp [changed, hin, hdeb, _parseMessage, tooShort, hne, hd, _error, hm, accCleared]

/-- C7 at a concrete input: Binary mode, a press of 60 ms (debounced, shorter
than `minPressed = 100`) that ends at the poll at time 1070. -/
theorem too_short_resets_witness :
    ∃ s1, read shortPress 1070 1 = some (false, s1)
      ∧ s1.error = (if shortPress.lastStatus = shortPress.released
                    then ErrorCode.RELEASE_TOO_SHORT else ErrorCode.PRESS_TOO_SHORT)
      ∧ accCleared s1
      ∧ s1.parseStatus = .INIT
      ∧ s1.isMessageAvailable = shortPress.isMessageAvailable
      ∧ s1.message = shortPress.message :=
  too_short_resets shortPress 1070 1 (by decide) (by decide) (by decide) (by decide)
    (by decide) (by decide)

/-- C8 (as stated) fails: in a message, a press measured at 10 ms (below
`minPressed = 100`, and below `debounceInterval = 42`) ends in a poll that
returns `true`, records no error and leaves the parse state `IN_MESSAGE`. -/
theorem bounce_not_too_short :
    (inMessage .COUNT 0 10).parseStatus = .IN_MESSAGE
      ∧ (inMessage .COUNT 0 10).lastStatus = (inMessage .COUNT 0 10).pressed
      ∧ (inMessage .COUNT 0 10).currentStatusDuration < (inMessage .COUNT 0 10).minPressed
      ∧ (read (inMessage .COUNT 0 10) 1015 1).map
          (fun r => (r.1, r.2.error, r.2.parseStatus))
        = some (true, .SUCCESS, .IN_MESSAGE) := by
  decide

/-- A level measured below `debounceInterval` is a bounce: while the parse
state is `IN_MESSAGE` the poll that ends it leaves the pending message and its
flag alone, and either returns `true` with the parse state and the error code
unchanged, or fails with `READ_NOISE`. -/
theorem bounce_ignored (s : State) (now level : Nat)
    (hpoll : sub32 now s.lastReadTime < s.maxReadPeriod)
    (hin : s.parseStatus = .IN_MESSAGE)
    (hchange : level ≠ s.lastStatus)
    (hdeb : s.currentStatusDuration < s.debounceInterval) :
    ∃ ok s1, read s now level = some (ok, s1)
      ∧ s1.isMessageAvailable = s.isMessageAvailable ∧ s1.message = s.message
      ∧ ((ok = true ∧ s1.parseStatus = .IN_MESSAGE ∧ s1.error = s.error)
          ∨ (ok = false ∧ s1.error = .READ_NOISE)) := by
  have hdeb1 : ¬ s.debounceInterval ≤ s.currentStatusDuration := Nat.not_le.mpr hdeb
  rw [read_change s now level hpoll hchange]
  rw [if_neg (by simp [hin]), if_neg hdeb1]
  by_cases hn : (changed s now level).changeAverage ≤ s.minChangeAverage
  · rw [if_pos hn]
    cases hm : s.pressMode <;> simp [_error, hm, changed]
  · rw [if_neg hn]
    simp [hin, changed]

/-- A debounced level shorter than its minimum, ended while the parse state is
`IN_MESSAGE`: the poll fails with the error of the level, resets the parse
state to `INIT` and leaves the pending message and its flag alone. -/
theorem short_level_fails (s : State) (now level : Nat)
    (hpoll : sub32 now s.lastReadTime < s.maxReadPeriod)
    (hin : s.parseStatus = .IN_MESSAGE)
    (hchange : level ≠ s.lastStatus)
    (hlevels : s.pressed ≠ s.released)
    (hdeb : s.debounceInterval ≤ s.currentStatusDuration) :
    (s.lastStatus = s.released → s.currentStatusDuration < s.minReleased →
        ∃ s1, read s now level = some (false, s1)
          ∧ s1.error = .RELEASE_TOO_SHORT ∧ s1.parseStatus = .INIT
          ∧ s1.isMessageAvailable = s.isMessageAvailable ∧ s1.message = s.message)
      ∧ (s.lastStatus = s.pressed → s.currentStatusDuration < s.minPressed →
        ∃ s1, read s now level = some (false, s1)
          ∧ s1.error = .PRESS_TOO_SHORT ∧ s1.parseStatus = .INIT
          ∧ s1.isMessageAvailable = s.isMessageAvailable ∧ s1.message = s.message) := by
  rw [read_change s now level hpoll hchange]
  constructor
  · intro hl hd
    cases hm : s.pressMode <;>
      simp [changed, hin, hdeb, _parseMessage, tooShort, hl, hd, _error, hm]
  · intro hl hd
    have hne : s.lastStatus ≠ s.released := hl ▸ hlevels
    cases hm : s.pressMode <;>
      simp [changed, hin, hdeb, _parseMessage, tooShort, hne, hd, _error, hm]

/-- C8 (as amended). While the parse state is `IN_MESSAGE`, a press shorter
than `minPressed`, or a release shorter than `minReleased`, whose measured
duration is at least `debounceInterval` makes the poll that ends it fail with
`PRESS_TOO_SHORT`, respectively `RELEASE_TOO_SHORT`, with the parse state
`INIT` afterwards and no message emitted. Every press or release measured below
`debounceInterval`, shorter than its minimum or not, is a bounce: the poll that
ends it records neither error; it returns `true` with the parse state still
`IN_MESSAGE`, or fails with `READ_NOISE`, and emits no message. -/
theorem too_short_iff_debounced (s : State) (now level : Nat)
    (hpoll : sub32 now s.lastReadTime < s.maxReadPeriod)
    (hin : s.parseStatus = .IN_MESSAGE)
    (hchange : level ≠ s.lastStatus)
    (hlevels : s.pressed ≠ s.released) :
    (s.debounceInterval ≤ s.currentStatusDuration →
        (s.lastStatus = s.released → s.currentStatusDuration < s.minReleased →
          ∃ s1, read s now level = some (false, s1)
            ∧ s1.error = .RELEASE_TOO_SHORT ∧ s1.parseStatus = .INIT
            ∧ s1.isMessageAvailable = s.isMessageAvailable ∧ s1.message = s.message)
        ∧ (s.lastStatus = s.pressed → s.currentStatusDuration < s.minPressed →
          ∃ s1, read s now level = some (false, s1)
            ∧ s1.error = .PRESS_TOO_SHORT ∧ s1.parseStatus = .INIT
            ∧ s1.isMessageAvailable = s.isMessageAvailable ∧ s1.message = s.message))
      ∧ (s.currentStatusDuration < s.debounceInterval →
        ∃ ok s1, read s now level = some (ok, s1)
          ∧ s1.isMessageAvailable = s.isMessageAvailable ∧ s1.message = s.message
          ∧ ((ok = true ∧ s1.parseStatus = .IN_MESSAGE ∧ s1.error = s.error)
              ∨ (ok = false ∧ s1.error = .READ_NOISE))) :=
  ⟨short_level_fails s now level hpoll hin hchange hlevels,
    bounce_ignored s now level hpoll hin hchange⟩

/-- C8 (as amended) at two concrete inputs. Count mode, a press of 30 ms with
`minPressed = 20` and `debounceInterval = 42` that ends at the poll at time
1035: a bounce that is not shorter than `minPressed`, ignored by a poll that
returns `true`. Binary mode, a press of 60 ms with `minPressed = 100` that ends
at the poll at time 1070: debounced, and the poll fails with
`PRESS_TOO_SHORT`. -/
theorem too_short_iff_debounced_witness :
    (briefPress.minPressed ≤ briefPress.currentStatusDuration
      ∧ briefPress.currentStatusDuration < briefPress.debounceInterval
      ∧ (read briefPress 1035 1).map (fun r => (r.1, r.2.error, r.2.parseStatus))
          = some (true, .SUCCESS, .IN_MESSAGE)
      ∧ ∃ ok s1, read briefPress 1035 1 = some (ok, s1)
          ∧ s1.isMessageAvailable = briefPress.isMessageAvailable
          ∧ s1.message = briefPress.message
          ∧ ((ok = true ∧ s1.parseStatus = .IN_MESSAGE ∧ s1.error = briefPress.error)
              ∨ (ok = false ∧ s1.error = .READ_NOISE)))
      ∧ (shortPress.debounceInterval ≤ shortPress.currentStatusDuration
        ∧ shortPress.currentStatusDuration < shortPress.minPressed
        ∧ ∃ s1, read shortPress 1070 1 = some (false, s1)
            ∧ s1.error = .PRESS_TOO_SHORT ∧ s1.parseStatus = .INIT
            ∧ s1.isMessageAvailable = shortPress.isMessageAvailable
            ∧ s1.message = shortPress.message) :=
  ⟨⟨by decide, by decide, by decide,
      (too_short_iff_debounced briefPress 1035 1 (by decide) (by decide) (by decide)
        (by decide)).2 (by decide)⟩,
    ⟨by decide, by decide,
      ((too_short_iff_debounced shortPress 1070 1 (by decide) (by decide) (by decide)
        (by decide)).1 (by decide)).2 (by decide) (by decide)⟩⟩


/-- Below 255 the overflow test works: with `count = maxCount < 255` the next
accepted press fails with `COUNT_OVERFLOW` and resets the decoder. -/
theorem count_overflow_below_255 (s : State) (now level : Nat)
    (hpoll : sub32 now s.lastReadTime < s.maxReadPeriod)
    (hmode : s.pressMode = .COUNT)
    (hin : s.parseStatus = .IN_MESSAGE)
    (hchange : level ≠ s.lastStatus)
    (hpressed : s.lastStatus = s.pressed)
    (hlevels : s.pressed ≠ s.released)
    (hdeb : s.debounceInterval ≤ s.currentStatusDuration)
    (hmin : s.minPressed ≤ s.currentStatusDuration)
    (hfull : s.count = s.maxCount)
    (hmax : s.maxCount < 255) :
    read s now level
      = some (false, { changed s now level with
                        error := .COUNT_OVERFLOW, count := 0, parseStatus := .INIT }) := by
  rw [read_change s now level hpoll hchange]
  have h1 : s.maxCount < u8 (s.maxCount + 1) := by unfold u8; omega
  have hm : ¬ s.currentStatusDuration < s.minPressed := Nat.not_lt.mpr hmin
  simp [changed, hin, hdeb, _parseMessage, tooShort, hpressed, hlevels, hm, hmode,
    _parseCount, hfull, h1, _error]

/-- C9 fails at `maxCount = 255`: with 255 presses counted, the poll that ends
the 256th accepted press returns `true`, records no error, and leaves `count`
wrapped to 0 with the parse state still `IN_MESSAGE`. -/
theorem count_overflow_missed_at_255 :
    fullCount.pressMode = .COUNT ∧ fullCount.parseStatus = .IN_MESSAGE
      ∧ fullCount.count = 255 ∧ fullCount.maxCount = 255
      ∧ (read fullCount 1210 1).map
          (fun r => (r.1, r.2.error, r.2.count, r.2.parseStatus))
        = some (true, .SUCCESS, 0, .IN_MESSAGE) := by
  decide

theorem parseMessage_message {s s1 : State} {ok : Bool}
    (hmode : s.pressMode ≠ .DURATION) (hne : s.parseStatus ≠ .END_OF_MESSAGE)
    (h : _parseMessage s = some (ok, s1)) : s1.message = s.message := by
  unfold _parseMessage at h
  split at h
  · simp only [Option.some.injEq] at h
    exact (error_reset_of_eq h).2.2.2.2.2
  · split at h
    · split at h
      · simp only [_parseCount, Option.some.injEq, hne, if_false] at h
        split at h
        · simpa [resetFrom] using (error_reset_of_eq h).2.2.2.2.2
        · simp only [Prod.mk.injEq] at h
          rw [← h.2]
      · simp only [_parseBinary, Option.some.injEq, hne, if_false] at h
        split at h
        · simpa [resetFrom] using (error_reset_of_eq h).2.2.2.2.2
        · simp only [Prod.mk.injEq] at h
          rw [← h.2]
          split <;> rfl
      · next hd => exact absurd hd hmode
    · simp only [Option.some.injEq, Prod.mk.injEq] at h
      rw [← h.2]

theorem parseMessage_end {s s1 : State} {ok : Bool}
    (hmode : s.pressMode ≠ .DURATION) (hend : s.parseStatus = .END_OF_MESSAGE)
    (h : _parseMessage s = some (ok, s1)) : s1.parseStatus = .WAIT_FOR_MESSAGE := by
  unfold _parseMessage at h
  have ht : tooShort s = none := by simp [tooShort, hend]
  rw [ht] at h
  cases hm : s.pressMode
  · simp only [hend, or_true, if_true, hm, _parseCount, Option.some.injEq, Prod.mk.injEq] at h
    rw [← h.2]
  · simp only [hend, or_true, if_true, hm, _parseBinary, Option.some.injEq, Prod.mk.injEq] at h
    rw [← h.2]
  · exact absurd hm hmode

/-- In Count and Binary mode the message array is written only by the poll
that completes a message (`END_OF_MESSAGE` is never the parse state between two
polls). -/
theorem message_kept_count_binary {s s1 : State} {now level : Nat} {ok : Bool}
    (hmode : s.pressMode ≠ .DURATION) (hrest : s.parseStatus ≠ .END_OF_MESSAGE)
    (h : read s now level = some (ok, s1)) :
    s1.message = s.message
      ∨ (s.parseStatus = .IN_MESSAGE ∧ s1.parseStatus = .WAIT_FOR_MESSAGE
          ∧ level = s.lastStatus ∧ level = s.released
          ∧ s.messageSeparator ≤ u16 (sub32 now s.lastChange)) := by
  by_cases hp : s.maxReadPeriod ≤ sub32 now s.lastReadTime
  · rw [read_slow s now level hp] at h
    simp only [Option.some.injEq, Prod.mk.injEq] at h
    exact Or.inl (by rw [← h.2])
  · have hp1 := Nat.not_le.mp hp
    by_cases hl : level = s.lastStatus
    · rw [read_hold s now level hp1 hl] at h
      split at h
      · next hsep =>
        split at h
        · simp only [Option.some.injEq, Prod.mk.injEq] at h
          exact Or.inl (by rw [← h.2]; rfl)
        · next hin =>
          exact Or.inr ⟨hin, parseMessage_end (by simpa [held] using hmode) rfl h, hl,
            hsep.1, hsep.2⟩
        · simp only [Option.some.injEq, Prod.mk.injEq] at h
          exact Or.inl (by rw [← h.2]; rfl)
      · simp only [Option.some.injEq, Prod.mk.injEq] at h
        exact Or.inl (by rw [← h.2]; rfl)
    · rw [read_change s now level hp1 hl] at h
      left
      split at h
      · simp only [Option.some.injEq, Prod.mk.injEq] at h
        rw [← h.2]; rfl
      · next hw =>
        split at h
        · have := parseMessage_message (s := changed s now level)
            (by simpa [changed] using hmode) ?_ h
          · simpa [changed] using this
          · simpa [changed] using hrest
        · split at h
          · simp only [Option.some.injEq] at h
            simpa [resetFrom, changed] using (error_reset_of_eq h).2.2.2.2.2
          · simp only [Option.some.injEq, Prod.mk.injEq] at h
            rw [← h.2]; rfl

/-- C10 fails in Duration mode: with the message `[1, 2]` pending and unread,
the poll that ends the first press of the next message (3000 ms, no message
completed, parse state `IN_MESSAGE`) stores the digit 3 in `message[0]`, and
`readMessage` then delivers `[3, 2, 0]` instead of `[1, 2, 0]`. -/
theorem pending_duration_overwritten :
    (readMessage pendingDuration).map (fun r => r.2.2) = some [1, 2, 0]
      ∧ (read pendingDuration 4010 1).map
          (fun r => (r.1, r.2.parseStatus, r.2.isMessageAvailable))
        = some (true, .IN_MESSAGE, true)
      ∧ ((read pendingDuration 4010 1).bind (fun r => readMessage r.2)).map
          (fun r => r.2.2)
        = some [3, 2, 0] := by
  decide


theorem readAll_cons (s : State) (p : Nat × Nat) (ps : List (Nat × Nat)) :
    readAll s (p :: ps) =
      match read s p.1 p.2 with
      | none => none
      | some r =>
        match readAll r.2 ps with
        | none => none
        | some rs => some (r.1 && rs.1, rs.2) := rfl

theorem readAll_append (s : State) (ps qs : List (Nat × Nat)) :
    readAll s (ps ++ qs) =
      match readAll s ps with
      | none => none
      | some r =>
        match readAll r.2 qs with
        | none => none
        | some rs => some (r.1 && rs.1, rs.2) := by
  induction ps generalizing s with
  | nil =>
    rw [List.nil_append]
    cases h : readAll s qs <;> simp [readAll, h]
  | cons p ps ih =>
    rw [List.cons_append, readAll_cons, readAll_cons]
    cases hr : read s p.1 p.2 with
    | none => rfl
    | some r =>
      simp only [ih]
      cases h1 : readAll r.2 ps with
      | none => rfl
      | some r1 =>
        simp only
        cases h2 : readAll r1.2 qs with
        | none => rfl
        | some r2 => simp [Bool.and_assoc]

theorem readAll_append_of_ok {s s1 : State} {ps qs : List (Nat × Nat)}
    (h : readAll s ps = some (true, s1)) : readAll s (ps ++ qs) = readAll s1 qs := by
  rw [readAll_append, h]
  simp only [Bool.true_and]
  cases readAll s1 qs <;> rfl

theorem timely_cons (m prev t : Nat) (ts : List Nat) :
    Timely m prev (t :: ts) ↔ sub32 t prev < m ∧ Timely m t ts := Iff.rfl

theorem timely_append (m prev : Nat) (ts us : List Nat) :
    Timely m prev (ts ++ us) ↔ Timely m prev ts ∧ Timely m (ts.getLastD prev) us := by
  induction ts generalizing prev with
  | nil => simp [Timely]
  | cons t ts ih =>
    rw [List.cons_append, timely_cons, timely_cons, ih, List.getLastD_cons, and_assoc]

theorem holdEnd_held (s : State) (t : Nat) (ts : List Nat) :
    holdEnd (held s t s.lastStatus) ts = holdEnd s (t :: ts) := by
  cases ts with
  | nil => simp only [holdEnd, held, List.getLastD_cons, List.getLastD_nil]; simp
  | cons u us => simp only [holdEnd, held, List.getLastD_cons]; simp

/-- Polls that find the level unchanged and act on no separator only update
the poll time and the measured duration. -/
theorem hold_run (ts : List Nat) (s : State)
    (ht : Timely s.maxReadPeriod s.lastReadTime ts) (hq : quiet s ts) :
    readAll s (ts.map fun t => (t, s.lastStatus)) = some (true, holdEnd s ts) := by
  induction ts generalizing s with
  | nil => simp [readAll, holdEnd]
  | cons t ts ih =>
    obtain ⟨ht1, ht2⟩ := ht
    have hr : read s t s.lastStatus = some (true, held s t s.lastStatus) := by
      rw [read_hold s t s.lastStatus ht1 rfl]
      split
      · next hsep =>
        split
        · next hi => exact absurd hsep.2 (Nat.not_le.mpr (hq hsep.1 (Or.inl hi) t (by simp)))
        · next hi => exact absurd hsep.2 (Nat.not_le.mpr (hq hsep.1 (Or.inr hi) t (by simp)))
        · rfl
      · rfl
    have hq1 : quiet (held s t s.lastStatus) ts := by
      intro h1 h2 u hu
      exact hq h1 h2 u (List.mem_cons_of_mem _ hu)
    have := ih (held s t s.lastStatus) ht2 hq1
    rw [holdEnd_held] at this
    rw [List.map_cons, readAll_cons]
    simp only [hr]
    have e : (held s t s.lastStatus).lastStatus = s.lastStatus := rfl
    rw [e] at this
    rw [this]
    rfl


theorem error_frame (s : State) (e : ErrorCode) (b : Bool) :
    (_error s e b).2.config = s.config ∧ (_error s e b).2.sampling = s.sampling := by
  cases b <;> cases hm : s.pressMode <;> simp [_error, hm, State.config, State.sampling]

/-- The decoders leave the configuration and the sampling members alone. -/
theorem decode_frame {s x : State} {ok : Bool} (h : decode s = some (ok, x)) :
    x.config = s.config ∧ x.sampling = s.sampling := by
  unfold decode at h
  split at h
  · simp only [_parseCount, Option.some.injEq] at h
    split at h
    · simp only [Prod.mk.injEq] at h
      rw [← h.2]
      split <;> exact ⟨rfl, rfl⟩
    · split at h
      · have := error_frame { s with count := u8 (s.count + 1) } .COUNT_OVERFLOW true
        rw [h] at this
        exact this
      · simp only [Prod.mk.injEq] at h
        rw [← h.2]
        exact ⟨rfl, rfl⟩
  · simp only [_parseBinary, Option.some.injEq] at h
    split at h
    · simp only [Prod.mk.injEq] at h
      rw [← h.2]
      split <;> exact ⟨rfl, rfl⟩
    · split at h
      · have := error_frame { s with bitNum := u8 (s.bitNum + 1) }
          .BINARY_BITS_NUM_OVERFLOW true
        rw [h] at this
        exact this
      · simp only [Prod.mk.injEq] at h
        rw [← h.2]
        split <;> exact ⟨rfl, rfl⟩
  · simp only [_parseDuration] at h
    split at h
    · split at h
      · split at h
        · simp at h
        · simp only [Option.some.injEq, Prod.mk.injEq] at h
          rw [← h.2]
          exact ⟨rfl, rfl⟩
      · simp only [Option.some.injEq, Prod.mk.injEq] at h
        rw [← h.2]
        exact ⟨rfl, rfl⟩
    · split at h
      · simp only [Option.some.injEq] at h
        have := error_frame s .DURATION_DIGITS_NUM_OVERFLOW true
        rw [h] at this
        exact this
      · split at h
        · simp at h
        · split at h
          · simp at h
          · simp only [Option.some.injEq, Prod.mk.injEq] at h
            rw [← h.2]
            exact ⟨rfl, rfl⟩

/-- The polls of a press, from a `ready` state, all return `true`. -/
theorem press_run (s : State) (p : Segment) (hr : ready s)
    (ht : Timely s.maxReadPeriod s.lastReadTime p.times) :
    readAll s (p.polls s.pressed) = some (true, afterPress s p) := by
  obtain ⟨hl, hne, hph⟩ := hr
  obtain ⟨ht1, ht2⟩ := ht
  have hchange : s.pressed ≠ s.lastStatus := by rw [hl]; exact hne
  have h1 : read s p.start s.pressed
      = some (true, { changed s p.start s.pressed with parseStatus := .IN_MESSAGE }) := by
    rw [read_change s p.start s.pressed ht1 hchange]
    rcases hph with hw | ⟨hin, hdeb, hmin⟩
    · rw [if_pos hw]
    · rw [if_neg (by simp [hin]), if_pos hdeb]
      have hm : ¬ s.currentStatusDuration < s.minReleased := Nat.not_lt.mpr hmin
      have hne1 : s.released ≠ s.pressed := fun h => hne h.symm
      simp [_parseMessage, tooShort, changed, hin, hl, hm, hne1]
  have h2 := hold_run p.holds { changed s p.start s.pressed with parseStatus := .IN_MESSAGE }
    ht2 (by intro h; exact absurd h hne)
  simp only [Segment.polls, Segment.times, List.map_cons]
  rw [readAll_cons]
  simp only [h1]
  have e : ({ changed s p.start s.pressed with parseStatus := .IN_MESSAGE } : State).lastStatus
      = s.pressed := rfl
  rw [e] at h2
  rw [h2]
  rfl

theorem parseMessage_press (x : State) (hin : x.parseStatus = .IN_MESSAGE)
    (hs : x.status = x.pressed) (hne : x.pressed ≠ x.released)
    (hmin : x.minPressed ≤ x.statusDuration) : _parseMessage x = decode x := by
  have hm : ¬ x.statusDuration < x.minPressed := Nat.not_lt.mpr hmin
  have ht : tooShort x = none := by simp [tooShort, hin, hs, hne, hm]
  simp only [_parseMessage, ht, hin, hs, true_and, true_or, if_true, decode]

theorem parseMessage_end_decode (x : State) (hend : x.parseStatus = .END_OF_MESSAGE) :
    _parseMessage x = decode x := by
  have ht : tooShort x = none := by simp [tooShort, hend]
  simp only [_parseMessage, ht, hend, or_true, if_true, decode]

/-- The poll that finds an accepted press ended hands it to the decoder. -/
theorem press_end (s : State) (p : Segment) (t : Nat) (hr : ready s)
    (hp : pressOK s.config p) (ht : sub32 t p.last < s.maxReadPeriod) :
    read (afterPress s p) t s.released = decode (pressEnded s p t) := by
  obtain ⟨hl, hne, -⟩ := hr
  have hne1 : s.released ≠ s.pressed := fun h => hne h.symm
  have hd : (afterPress s p).currentStatusDuration = p.measured := rfl
  have hp1 : s.debounceInterval ≤ p.measured := le_trans (le_max_right _ _) hp
  have hp2 : s.minPressed ≤ p.measured := le_trans (le_max_left _ _) hp
  rw [read_change (afterPress s p) t s.released ht hne1]
  rw [if_neg (by simp [afterPress, holdEnd]), if_pos (by rw [hd]; exact hp1)]
  exact parseMessage_press (pressEnded s p t) rfl rfl hne hp2


/-- What is known of the state returned by the decoder for the poll at time
`t` that ends the press `p`. -/
theorem pressEnded_frame {s x : State} {p : Segment} {t : Nat} {ok : Bool}
    (h : decode (pressEnded s p t) = some (ok, x)) :
    x.config = s.config ∧ x.lastStatus = s.released ∧ x.lastChange = t
      ∧ x.lastReadTime = t ∧ x.currentStatusDuration = 0 := by
  obtain ⟨hc, hs⟩ := decode_frame h
  refine ⟨hc, ?_⟩
  simp only [State.sampling, Prod.mk.injEq] at hs
  obtain ⟨-, -, h3, h4, -, h6, -, h8⟩ := hs
  exact ⟨h4, h6, h8, h3⟩

theorem config_fields {x s : State} (h : x.config = s.config) :
    x.pressMode = s.pressMode ∧ x.pressed = s.pressed ∧ x.released = s.released
      ∧ x.minReleased = s.minReleased ∧ x.minPressed = s.minPressed
      ∧ x.maxReadPeriod = s.maxReadPeriod ∧ x.debounceInterval = s.debounceInterval
      ∧ x.messageSeparator = s.messageSeparator := by
  simp only [State.config, Config.mk.injEq] at h
  obtain ⟨h1, h2, h3, h4, h5, -, h7, h8, h9, -⟩ := h
  exact ⟨h1, h2, h3, h4, h5, h7, h8, h9⟩

theorem getLastD_append_eq (ts us : List Nat) (a : Nat) :
    (ts ++ us).getLastD a = us.getLastD (ts.getLastD a) := by
  induction ts generalizing a with
  | nil => rfl
  | cons t ts ih => rw [List.cons_append, List.getLastD_cons, List.getLastD_cons, ih]

theorem segment_times_last (g : Segment) (prev : Nat) :
    g.times.getLastD prev = g.last := by
  simp only [Segment.times, Segment.last, List.getLastD_cons]

theorem holdEnd_measured (x : State) (g : Segment) (h1 : x.lastChange = g.start)
    (h2 : x.lastReadTime = g.start) (h3 : x.currentStatusDuration = 0) :
    (holdEnd x g.holds).currentStatusDuration = g.measured := by
  simp only [holdEnd, Segment.measured, Segment.last, h1, h2, h3]

/-- The polls of an accepted press and of the release after it, when the
decoder accepts the press. -/
theorem pair_run (s x : State) (pr : Segment × Segment) (hr : ready s)
    (hp : pressOK s.config pr.1) (hrl : releaseOK s.config pr.2)
    (ht : Timely s.maxReadPeriod s.lastReadTime (pairTimes pr))
    (hdec : decode (pressEnded s pr.1 pr.2.start) = some (true, x))
    (hin : x.parseStatus = .IN_MESSAGE) :
    readAll s (pairPolls s.config pr) = some (true, holdEnd x pr.2.holds)
      ∧ ready (holdEnd x pr.2.holds)
      ∧ (holdEnd x pr.2.holds).lastReadTime = (pairTimes pr).getLastD s.lastReadTime := by
  obtain ⟨hc, hls, hlc, hlr, hcd⟩ := pressEnded_frame hdec
  obtain ⟨-, hc2, hc3, hc4, -, hc6, hc7, hc8⟩ := config_fields hc
  rw [pairTimes, timely_append, segment_times_last] at ht
  obtain ⟨ht1, ht2, ht3⟩ := ht
  obtain ⟨hr1, hr2, hr3⟩ := hrl
  have hmeas := holdEnd_measured x pr.2 hlc hlr hcd
  refine ⟨?_, ⟨?_, ?_, Or.inr ⟨hin, ?_, ?_⟩⟩, ?_⟩
  · show readAll s (pr.1.polls s.pressed ++ pr.2.polls s.released) = _
    rw [readAll_append_of_ok (press_run s pr.1 hr ht1)]
    simp only [Segment.polls, Segment.times, List.map_cons]
    rw [readAll_cons]
    simp only [press_end s pr.1 pr.2.start hr hp ht2, hdec]
    have h2 := hold_run pr.2.holds x (by rw [hc6, hlr]; exact ht3)
      (by intro _ _ t ht; rw [hlc, hc8]; exact hr3 t ht)
    rw [hls] at h2
    simp only [h2, Bool.true_and]
  · show x.lastStatus = x.released
    rw [hls, hc3]
  · show x.pressed ≠ x.released
    rw [hc2, hc3]; exact hr.2.1
  · show x.debounceInterval ≤ _
    rw [hmeas, hc7]; exact le_trans (le_max_right _ _) hr1
  · show x.minReleased ≤ _
    rw [hmeas, hc4]; exact le_trans (le_max_left _ _) hr1
  · show pr.2.holds.getLastD x.lastReadTime = _
    rw [hlr, pairTimes, getLastD_append_eq, segment_times_last]
    rfl


theorem readAll_single (s : State) (p : Nat × Nat) : readAll s [p] = read s p.1 p.2 := by
  rw [readAll_cons]
  cases read s p.1 p.2 with
  | none => rfl
  | some r => simp [readAll]

/-- The polls of the release that ends a message, after the poll that found
the release: the last one calls the decoder for the end of the message. -/
theorem separator_run (x : State) (f : Segment) (hf : separatorOK x.config f)
    (ht : Timely x.maxReadPeriod f.start f.holds)
    (hls : x.lastStatus = x.released) (hlc : x.lastChange = f.start)
    (hlr : x.lastReadTime = f.start) (hin : x.parseStatus = .IN_MESSAGE) :
    readAll x (f.holds.map fun t => (t, x.released)) = decode (separatorSeen x f) := by
  obtain ⟨start, holds⟩ := f
  obtain ⟨hne, hsep, hq⟩ := hf
  simp only at hne ht hlc hlr hq
  rcases List.eq_nil_or_concat holds with h | ⟨pre, tEnd, h⟩
  · exact absurd h hne
  · rw [List.concat_eq_append] at h
    subst h
    have hm : (Segment.mk start (pre ++ [tEnd])).measured = u16 (sub32 tEnd start) := by
      simp [Segment.measured, Segment.last, getLastD_append_eq]
    have hlast : (Segment.mk start (pre ++ [tEnd])).last = tEnd := by
      simp [Segment.last, getLastD_append_eq]
    rw [hm] at hsep
    rw [List.dropLast_concat] at hq
    rw [timely_append] at ht
    obtain ⟨ht1, ht2, -⟩ := ht
    have h1 := hold_run pre x (by rw [hlr]; exact ht1)
      (by intro _ _ t ht; rw [hlc]; exact hq t ht)
    rw [hls] at h1
    rw [List.map_append, readAll_append_of_ok h1, List.map_cons, List.map_nil, readAll_single]
    have hrd := read_hold (holdEnd x pre) tEnd x.released
      (by show sub32 tEnd (pre.getLastD x.lastReadTime) < x.maxReadPeriod
          rw [hlr]; exact ht2)
      (by show x.released = x.lastStatus
          exact hls.symm)
    simp only at hrd
    rw [hrd]
    have hc : x.released = (holdEnd x pre).released
        ∧ (holdEnd x pre).messageSeparator
            ≤ u16 (sub32 tEnd (holdEnd x pre).lastChange) := by
      refine ⟨rfl, ?_⟩
      show x.messageSeparator ≤ u16 (sub32 tEnd x.lastChange)
      rw [hlc]; exact hsep
    rw [if_pos hc]
    have hin1 : (holdEnd x pre).parseStatus = .IN_MESSAGE := hin
    simp only [hin1]
    rw [parseMessage_end_decode _ rfl]
    simp only [separatorSeen, hlast, List.dropLast_concat, hls]


theorem final_run (s x : State) (p f : Segment) (hr : ready s)
    (hp : pressOK s.config p) (hf : separatorOK s.config f)
    (ht : Timely s.maxReadPeriod s.lastReadTime (p.times ++ f.times))
    (hdec : decode (pressEnded s p f.start) = some (true, x))
    (hin : x.parseStatus = .IN_MESSAGE) :
    readAll s (p.polls s.pressed ++ f.polls s.released) = decode (separatorSeen x f) := by
  obtain ⟨hc, hls, hlc, hlr, -⟩ := pressEnded_frame hdec
  obtain ⟨-, -, hc3, -, -, hc6, -, -⟩ := config_fields hc
  rw [timely_append, segment_times_last] at ht
  obtain ⟨ht1, ht2, ht3⟩ := ht
  rw [readAll_append_of_ok (press_run s p hr ht1)]
  simp only [Segment.polls, Segment.times, List.map_cons]
  rw [readAll_cons]
  simp only [press_end s p f.start hr hp ht2, hdec, Bool.true_and]
  have h := separator_run x f (by rw [hc]; exact hf) (by rw [hc6]; exact ht3)
    (by rw [hls, hc3]) hlc hlr hin
  rw [hc3] at h
  rw [h]
  cases decode (separatorSeen x f) <;> rfl

theorem idle_run (s : State) (idle : List Nat) (hs : awaiting s)
    (ht : Timely s.maxReadPeriod s.lastReadTime idle) :
    readAll s (idle.map fun t => (t, s.released)) = some (true, holdEnd s idle)
      ∧ ready (holdEnd s idle) := by
  obtain ⟨hw, hl, hne, -⟩ := hs
  have h := hold_run idle s ht (by
    intro _ h
    rw [hw] at h
    rcases h with h | h <;> cases h)
  rw [hl] at h
  exact ⟨h, hl, hne, Or.inl hw⟩

/-- The presses of a message but the last, for a decoder that accepts up to
`n` presses and keeps the invariant `P` of its accumulator. -/
theorem body_run (c : Config) (n : Nat) (P : List Nat → Acc → Prop)
    (hstep : ∀ ds x, x.config = c → x.parseStatus = .IN_MESSAGE → P ds x.acc →
      ds.length < n →
      ∃ y, decode x = some (true, y) ∧ y.parseStatus = .IN_MESSAGE
        ∧ P (ds ++ [x.statusDuration]) y.acc)
    (body : List (Segment × Segment)) :
    ∀ (ds : List Nat) (s : State), ready s → s.config = c → P ds s.acc →
      ds.length + body.length ≤ n →
      (∀ pr ∈ body, pressOK c pr.1 ∧ releaseOK c pr.2) →
      Timely c.maxReadPeriod s.lastReadTime (body.flatMap pairTimes) →
      ∃ s1, readAll s (body.flatMap (pairPolls c)) = some (true, s1)
        ∧ ready s1 ∧ s1.config = c
        ∧ P (ds ++ body.map (fun pr => pr.1.measured)) s1.acc
        ∧ s1.lastReadTime = (body.flatMap pairTimes).getLastD s.lastReadTime := by
  induction body with
  | nil =>
    intro ds s hr hc hP _ _ _
    exact ⟨s, rfl, hr, hc, by simpa using hP, rfl⟩
  | cons pr body ih =>
    intro ds s hr hc hP hn hv ht
    rw [List.flatMap_cons, timely_append] at ht
    obtain ⟨ht1, ht2⟩ := ht
    obtain ⟨hv1, hv2⟩ := List.forall_mem_cons.mp hv
    simp only [List.length_cons] at hn
    obtain ⟨y, hdec, hin, hPy⟩ := hstep ds (pressEnded s pr.1 pr.2.start) hc rfl hP
      (by omega)
    have hcm : c.maxReadPeriod = s.maxReadPeriod := by rw [← hc]; rfl
    obtain ⟨hrun, hready, hlast⟩ := pair_run s y pr hr (by rw [hc]; exact hv1.1)
      (by rw [hc]; exact hv1.2) (by rw [← hcm]; exact ht1) hdec hin
    have hcy : (holdEnd y pr.2.holds).config = c := by
      have := (decode_frame hdec).1
      rw [← hc]
      exact this
    obtain ⟨s1, h1, h2, h3, h4, h5⟩ := ih (ds ++ [pr.1.measured]) (holdEnd y pr.2.holds)
      hready hcy hPy (by simp only [List.length_append, List.length_singleton]; omega) hv2
      (by rw [hlast]; exact ht2)
    refine ⟨s1, ?_, h2, h3, ?_, ?_⟩
    · rw [List.flatMap_cons, ← hc, readAll_append_of_ok hrun, hc]
      exact h1
    · simpa using h4
    · rw [h5, hlast, List.flatMap_cons, getLastD_append_eq]


/-- A valid trace of one message, run from a state that awaits a message,
makes every poll but the last return `true` and ends in the decoder call for
the end of the message, made on a state `x` that has accumulated the presses of
the trace. -/
theorem trace_run (c : Config) (n : Nat) (P : List Nat → Acc → Prop)
    (hstep : ∀ ds x, x.config = c → x.parseStatus = .IN_MESSAGE → P ds x.acc →
      ds.length < n →
      ∃ y, decode x = some (true, y) ∧ y.parseStatus = .IN_MESSAGE
        ∧ P (ds ++ [x.statusDuration]) y.acc)
    (s : State) (tr : Trace) (hs : awaiting s) (hc : s.config = c) (hP : P [] s.acc)
    (hn : tr.presses.length ≤ n) (hv : tr.Valid c s.lastReadTime) :
    ∃ x, readAll s (tr.polls c) = decode x ∧ x.parseStatus = .END_OF_MESSAGE
      ∧ x.config = c ∧ P tr.presses x.acc := by
  obtain ⟨ht, hbody, hpress, hfinal⟩ := hv
  rw [Trace.times, timely_append, timely_append] at ht
  obtain ⟨ht1, ht2, ht3⟩ := ht
  have hcm : c.maxReadPeriod = s.maxReadPeriod := by rw [← hc]; rfl
  have hcr : c.released = s.released := by rw [← hc]; rfl
  have hcp : c.pressed = s.pressed := by rw [← hc]; rfl
  obtain ⟨hidle, hready⟩ := idle_run s tr.idle hs (by rw [← hcm]; exact ht1)
  simp only [Trace.presses, List.length_append, List.length_map, List.length_singleton] at hn
  obtain ⟨s1, h1, h2, h3, h4, h5⟩ := body_run c n P hstep tr.body [] (holdEnd s tr.idle)
    hready hc hP (by simp only [List.length_nil]; omega) hbody ht2
  obtain ⟨y, hdec, hin, hPy⟩ := hstep _ (pressEnded s1 tr.lastPress tr.final.start) h3 rfl h4
    (by simp only [List.nil_append, List.length_map]; omega)
  have hc1 : c.maxReadPeriod = s1.maxReadPeriod := by rw [← h3]; rfl
  have hcr1 : c.released = s1.released := by rw [← h3]; rfl
  have hcp1 : c.pressed = s1.pressed := by rw [← h3]; rfl
  have hfin := final_run s1 y tr.lastPress tr.final h2 (by rw [h3]; exact hpress)
    (by rw [h3]; exact hfinal) (by rw [← hc1, h5]; exact ht3) hdec hin
  refine ⟨separatorSeen y tr.final, ?_, rfl, ?_, ?_⟩
  · rw [Trace.polls, hcr, readAll_append_of_ok hidle, readAll_append_of_ok h1, hcp1, ← hcr,
      hcr1]
    exact hfin
  · rw [← h3]
    exact (decode_frame hdec).1
  · simpa [Trace.presses] using hPy


theorem count_step (c : Config) (hmode : c.pressMode = .COUNT) (hmax : c.maxCount ≤ 255)
    (ds : List Nat) (x : State) (hc : x.config = c) (hin : x.parseStatus = .IN_MESSAGE)
    (hP : x.acc.count = ds.length ∧ x.acc.message.length = MESSAGE_SIZE)
    (hn : ds.length < c.maxCount) :
    ∃ y, decode x = some (true, y) ∧ y.parseStatus = .IN_MESSAGE
      ∧ (y.acc.count = (ds ++ [x.statusDuration]).length
          ∧ y.acc.message.length = MESSAGE_SIZE) := by
  have hm : x.pressMode = .COUNT := by rw [← hc] at hmode; exact hmode
  have hmc : x.maxCount = c.maxCount := by rw [← hc]; rfl
  obtain ⟨hcount, hlen⟩ := hP
  have hcount1 : x.count = ds.length := hcount
  have hu : u8 (ds.length + 1) = ds.length + 1 := by unfold u8; omega
  have hlt : ¬ c.maxCount < ds.length + 1 := by omega
  refine ⟨{ x with count := ds.length + 1 }, ?_, hin, ?_, hlen⟩
  · simp [decode, hm, _parseCount, hin, hcount1, hu, hmc, hlt]
  · simp [State.acc]

/-- C1. Count mode: from a state that awaits a message with `count = 0`, a
valid poll trace of one message with `n` presses, `1 ≤ n ≤ maxCount`, makes
every poll return `true` and ends with a pending message whose byte is `n`,
`count = 0` and the parse state `WAIT_FOR_MESSAGE`. -/
theorem count_message (s : State) (tr : Trace)
    (hmode : s.pressMode = .COUNT) (hs : awaiting s) (hzero : s.count = 0)
    (hv : tr.Valid s.config s.lastReadTime)
    (hn : tr.presses.length ≤ s.maxCount) (hmax : s.maxCount ≤ 255) :
    1 ≤ tr.presses.length
      ∧ ∃ s1, readAll s (tr.polls s.config) = some (true, s1)
        ∧ s1.isMessageAvailable = true
        ∧ s1.message.head? = some tr.presses.length
        ∧ s1.count = 0
        ∧ s1.parseStatus = .WAIT_FOR_MESSAGE := by
  have hpos : 1 ≤ tr.presses.length := by simp [Trace.presses]
  refine ⟨hpos, ?_⟩
  obtain ⟨x, hrun, hend, hc, hcount, hlen⟩ := trace_run s.config s.maxCount
    (fun ds a => a.count = ds.length ∧ a.message.length = MESSAGE_SIZE)
    (count_step s.config hmode hmax) s tr hs rfl ⟨hzero, hs.2.2.2⟩ hn hv
  have hm : x.pressMode = .COUNT := by
    have : x.config.pressMode = s.config.pressMode := by rw [hc]
    exact this.trans hmode
  have hcount1 : x.count = tr.presses.length := hcount
  have hne : x.count ≠ 0 := by omega
  have hlen1 : x.message.length = MESSAGE_SIZE := hlen
  have hd : decode x = some (true,
      { x with message := x.message.set 0 x.count, count := 0, error := .SUCCESS,
               isMessageAvailable := true, parseStatus := .WAIT_FOR_MESSAGE }) := by
    simp [decode, hm, _parseCount, hend, hne]
  refine ⟨_, hrun.trans hd, rfl, ?_, rfl, rfl⟩
  show (x.message.set 0 x.count).head? = _
  rw [hcount1]
  cases hml : x.message with
  | nil => rw [hml] at hlen1; cases hlen1
  | cons a l => rfl

set_option maxRecDepth 100000 in
/-- C1 at a concrete input: `maxCount = 3` and three presses emit 3. -/
theorem count_message_witness :
    1 ≤ threePresses.presses.length
      ∧ ∃ s1, readAll { awaitingMessage .COUNT with maxCount := 3 }
          (threePresses.polls ({ awaitingMessage .COUNT with maxCount := 3 } : State).config)
            = some (true, s1)
        ∧ s1.isMessageAvailable = true
        ∧ s1.message.head? = some 3
        ∧ s1.count = 0
        ∧ s1.parseStatus = .WAIT_FOR_MESSAGE :=
  count_message { awaitingMessage .COUNT with maxCount := 3 } threePresses (by decide)
    (by decide) (by decide) (by decide) (by decide) (by decide)


theorem msbFirst_append (bs : List Nat) (b : Nat) :
    msbFirst (bs ++ [b]) = 2 * msbFirst bs + b := by
  induction bs with
  | nil => simp [msbFirst]
  | cons a bs ih =>
    show a * 2 ^ (bs ++ [b]).length + msbFirst (bs ++ [b])
      = 2 * (a * 2 ^ bs.length + msbFirst bs) + b
    rw [ih, List.length_append, List.length_singleton, pow_succ]
    ring

theorem msbFirst_lt (bs : List Nat) (h : ∀ b ∈ bs, b ≤ 1) : msbFirst bs < 2 ^ bs.length := by
  induction bs with
  | nil => simp [msbFirst]
  | cons a bs ih =>
    have h1 : a ≤ 1 := h a (by simp)
    have h2 := ih (fun b hb => h b (List.mem_cons_of_mem _ hb))
    simp only [msbFirst, List.length_cons, pow_succ]
    have : a * 2 ^ bs.length ≤ 1 * 2 ^ bs.length := Nat.mul_le_mul_right _ h1
    omega

theorem even_lor_one (a : Nat) : (a * 2 % 256) ||| 1 = a * 2 % 256 + 1 := by
  have hk : a * 2 % 256 = 2 ^ 1 * (a * 2 % 256 / 2) := by omega
  rw [hk]
  exact (Nat.mul_add_lt_is_or (i := 1) (b := 1) (by norm_num) _).symm

theorem binary_step (c : Config) (hmode : c.pressMode = .BINARY) (hmax : c.maxBitNum ≤ 255)
    (ds : List Nat) (x : State) (hc : x.config = c) (hin : x.parseStatus = .IN_MESSAGE)
    (hP : x.acc.bitNum = ds.length
      ∧ x.acc.binaryCode = msbFirst (ds.map (pressBit c.binaryHighLowThreshold)) % 256
      ∧ x.acc.message.length = MESSAGE_SIZE)
    (hn : ds.length < c.maxBitNum) :
    ∃ y, decode x = some (true, y) ∧ y.parseStatus = .IN_MESSAGE
      ∧ (y.acc.bitNum = (ds ++ [x.statusDuration]).length
          ∧ y.acc.binaryCode
              = msbFirst ((ds ++ [x.statusDuration]).map
                  (pressBit c.binaryHighLowThreshold)) % 256
          ∧ y.acc.message.length = MESSAGE_SIZE) := by
  have hm : x.pressMode = .BINARY := by rw [← hc] at hmode; exact hmode
  have hmb : x.maxBitNum = c.maxBitNum := by rw [← hc]; rfl
  have hth : x.binaryHighLowThreshold = c.binaryHighLowThreshold := by rw [← hc]; rfl
  obtain ⟨hnum, hcode, hlen⟩ := hP
  have hnum1 : x.bitNum = ds.length := hnum
  have hcode1 : x.binaryCode
      = msbFirst (ds.map (pressBit c.binaryHighLowThreshold)) % 256 := hcode
  have hu : u8 (ds.length + 1) = ds.length + 1 := by unfold u8; omega
  have hlt : ¬ c.maxBitNum < ds.length + 1 := by omega
  have hpb : decode x = some (true,
      { x with
        bitNum := ds.length + 1,
        binaryCode :=
          if c.binaryHighLowThreshold < x.statusDuration then u8 (x.binaryCode * 2) ||| 1
          else u8 (x.binaryCode * 2) }) := by
    simp only [decode, hm, _parseBinary, hin, hnum1, hu, hmb, hlt, if_false, hth,
      reduceCtorEq]
    split <;> rfl
  refine ⟨_, hpb, hin, ?_, ?_, hlen⟩
  · simp [State.acc]
  · show (if c.binaryHighLowThreshold < x.statusDuration then u8 (x.binaryCode * 2) ||| 1
        else u8 (x.binaryCode * 2)) = _
    rw [List.map_append, List.map_singleton, msbFirst_append, hcode1]
    unfold pressBit u8
    split
    · rw [even_lor_one]; omega
    · omega

/-- C2 (as amended). Binary mode: from a state that awaits a message with the
bit accumulator empty, a valid poll trace of one message with `n` presses,
`1 ≤ n ≤ maxBitNum`, ends with a pending message whose byte is the number
written most significant bit first by the bits of the presses, reduced modulo
256; the bit of a press is 1 exactly when its measured duration exceeds
`binaryHighLowThreshold`. For `n ≤ 8` the byte is that number itself. -/
theorem binary_message (s : State) (tr : Trace)
    (hmode : s.pressMode = .BINARY) (hs : awaiting s)
    (hzero : s.bitNum = 0 ∧ s.binaryCode = 0)
    (hv : tr.Valid s.config s.lastReadTime)
    (hn : tr.presses.length ≤ s.maxBitNum) (hmax : s.maxBitNum ≤ 255) :
    ∃ s1, readAll s (tr.polls s.config) = some (true, s1)
      ∧ s1.isMessageAvailable = true
      ∧ s1.message.head?
          = some (msbFirst (tr.presses.map (pressBit s.binaryHighLowThreshold)) % 256)
      ∧ (tr.presses.length ≤ 8 →
          s1.message.head?
            = some (msbFirst (tr.presses.map (pressBit s.binaryHighLowThreshold)))) := by
  have hpos : 1 ≤ tr.presses.length := by simp [Trace.presses]
  obtain ⟨x, hrun, hend, hc, hnum, hcode, hlen⟩ := trace_run s.config s.maxBitNum
    (fun ds a => a.bitNum = ds.length
      ∧ a.binaryCode = msbFirst (ds.map (pressBit s.config.binaryHighLowThreshold)) % 256
      ∧ a.message.length = MESSAGE_SIZE)
    (binary_step s.config hmode hmax) s tr hs rfl
    ⟨hzero.1, by simpa [msbFirst] using hzero.2, hs.2.2.2⟩ hn hv
  have hm : x.pressMode = .BINARY := by
    have : x.config.pressMode = s.config.pressMode := by rw [hc]
    exact this.trans hmode
  have hnum1 : x.bitNum = tr.presses.length := hnum
  have hne : x.bitNum ≠ 0 := by omega
  have hlen1 : x.message.length = MESSAGE_SIZE := hlen
  have hcode1 : x.binaryCode
      = msbFirst (tr.presses.map (pressBit s.binaryHighLowThreshold)) % 256 := hcode
  have hd : decode x = some (true,
      { x with message := x.message.set 0 x.binaryCode, binaryCode := 0, bitNum := 0,
               error := .SUCCESS, isMessageAvailable := true,
               parseStatus := .WAIT_FOR_MESSAGE }) := by
    simp [decode, hm, _parseBinary, hend, hne]
  have hhead : (x.message.set 0 x.binaryCode).head? = some x.binaryCode := by
    cases hml : x.message with
    | nil => rw [hml] at hlen1; cases hlen1
    | cons a l => rfl
  refine ⟨_, hrun.trans hd, rfl, ?_, ?_⟩
  · show (x.message.set 0 x.binaryCode).head? = _
    rw [hhead, hcode1]
  · intro h8
    show (x.message.set 0 x.binaryCode).head? = _
    rw [hhead, hcode1]
    have hlt := msbFirst_lt (tr.presses.map (pressBit s.binaryHighLowThreshold)) (by
      intro b hb
      obtain ⟨d, -, rfl⟩ := List.mem_map.mp hb
      unfold pressBit
      split <;> omega)
    rw [List.length_map] at hlt
    have h256 : 2 ^ tr.presses.length ≤ 2 ^ 8 := Nat.pow_le_pow_right (by norm_num) h8
    rw [Nat.mod_eq_of_lt (by omega)]

set_option maxRecDepth 100000 in
/-- C2 (as amended) at a concrete input: with threshold 300 the presses 400,
100 emit 2. -/
theorem binary_message_witness :
    longShort.presses = [400, 100]
      ∧ ∃ s1, readAll (awaitingMessage .BINARY)
          (longShort.polls (awaitingMessage .BINARY).config) = some (true, s1)
        ∧ s1.isMessageAvailable = true
        ∧ s1.message.head? = some 2
        ∧ (longShort.presses.length ≤ 8 → s1.message.head? = some 2) :=
  ⟨by decide,
    binary_message (awaitingMessage .BINARY) longShort (by decide) (by decide) (by decide)
      (by decide) (by decide) (by decide)⟩

set_option maxRecDepth 100000 in
/-- C2 (as stated) fails: with `maxBitNum = 9` and a threshold of 100 ms, nine
presses of 150 ms (nine bits 1, the number 511) emit the byte 255. -/
theorem binary_nine_bits_truncated :
    (equalPresses 8).Valid
        ({ awaitingMessage .BINARY with maxBitNum := 9, binaryHighLowThreshold := 100 } :
          State).config 600
      ∧ (equalPresses 8).presses = [150, 150, 150, 150, 150, 150, 150, 150, 150]
      ∧ msbFirst ((equalPresses 8).presses.map (pressBit 100)) = 511
      ∧ (readAll
            { awaitingMessage .BINARY with maxBitNum := 9, binaryHighLowThreshold := 100 }
            ((equalPresses 8).polls
              ({ awaitingMessage .BINARY with
                  maxBitNum := 9, binaryHighLowThreshold := 100 } : State).config)).map
          (fun r => (r.1, r.2.isMessageAvailable, r.2.message.head?))
        = some (true, true, some 255) := by
  decide


theorem take_succ_set (m : List Nat) (k v : Nat) (h : k < m.length) :
    (m.set k v).take (k + 1) = m.take k ++ [v] := by
  induction m generalizing k with
  | nil => cases h
  | cons a l ih =>
    cases k with
    | zero => rfl
    | succ k =>
      simp only [List.set_cons_succ, List.take_succ_cons, List.cons_append]
      rw [ih k (by simpa using h)]

theorem durationDigit_eq (d u : Nat) :
    durationDigit d u = max 1 ((d + u / 2) / u % 256) := by
  unfold durationDigit u8
  simp only
  split <;> omega

theorem duration_step (c : Config) (n : Nat) (hmode : c.pressMode = .DURATION)
    (hunit : 1 ≤ c.durationUnit) (hn1 : n ≤ c.maxDigitNum) (hn2 : n < MESSAGE_SIZE)
    (ds : List Nat) (x : State) (hc : x.config = c) (hin : x.parseStatus = .IN_MESSAGE)
    (hP : x.acc.digitNum = ds.length
      ∧ x.acc.message.take ds.length = ds.map (fun d => durationDigit d c.durationUnit)
      ∧ x.acc.message.length = MESSAGE_SIZE)
    (hn : ds.length < n) :
    ∃ y, decode x = some (true, y) ∧ y.parseStatus = .IN_MESSAGE
      ∧ (y.acc.digitNum = (ds ++ [x.statusDuration]).length
          ∧ y.acc.message.take (ds ++ [x.statusDuration]).length
              = (ds ++ [x.statusDuration]).map (fun d => durationDigit d c.durationUnit)
          ∧ y.acc.message.length = MESSAGE_SIZE) := by
  have hm : x.pressMode = .DURATION := by rw [← hc] at hmode; exact hmode
  have hmd : x.maxDigitNum = c.maxDigitNum := by rw [← hc]; rfl
  have hdu : x.durationUnit = c.durationUnit := by rw [← hc]; rfl
  obtain ⟨hnum, htake, hlen⟩ := hP
  have hnum1 : x.digitNum = ds.length := hnum
  have htake1 : x.message.take ds.length
      = ds.map (fun d => durationDigit d c.durationUnit) := htake
  have hlen1 : x.message.length = MESSAGE_SIZE := hlen
  have h16 : MESSAGE_SIZE = 16 := rfl
  have hu : u8 (ds.length + 1) = ds.length + 1 := by unfold u8; omega
  have hlt : ¬ ((c.maxDigitNum : Int) - 1 < (ds.length : Int)) := by omega
  have hu0 : c.durationUnit ≠ 0 := by omega
  have hw : ds.length < MESSAGE_SIZE := by omega
  have hpd : decode x = some (true,
      { x with
        message := x.message.set ds.length (durationDigit x.statusDuration c.durationUnit),
        digitNum := ds.length + 1 }) := by
    simp [decode, hm, _parseDuration, hin, hnum1, hmd, hlt, hdu, hu0, writeMessage, hw, hu]
  refine ⟨_, hpd, hin, ?_, ?_, ?_⟩
  · simp [State.acc]
  · show (x.message.set ds.length (durationDigit x.statusDuration c.durationUnit)).take
        (ds ++ [x.statusDuration]).length = _
    rw [List.length_append, List.length_singleton, take_succ_set _ _ _ (by omega), htake1,
      List.map_append, List.map_singleton]
  · show (x.message.set ds.length _).length = MESSAGE_SIZE
    rw [List.length_set]
    exact hlen1

/-- Duration mode: a valid poll trace of one message of `k` presses, within
`maxDigitNum` and the message array, ends with the digits of the presses and a
zero in the first `k + 1` entries of the array, the flag set, no digit left in
the accumulator and the parse state `WAIT_FOR_MESSAGE`. -/
theorem duration_run (s : State) (tr : Trace)
    (hmode : s.pressMode = .DURATION) (hs : awaiting s) (hzero : s.digitNum = 0)
    (hunit : 1 ≤ s.durationUnit)
    (hv : tr.Valid s.config s.lastReadTime)
    (hn : tr.presses.length ≤ s.maxDigitNum) (hbuf : tr.presses.length < MESSAGE_SIZE) :
    ∃ s1, readAll s (tr.polls s.config) = some (true, s1)
      ∧ s1.isMessageAvailable = true
      ∧ s1.pressMode = .DURATION
      ∧ s1.parseStatus = .WAIT_FOR_MESSAGE
      ∧ s1.digitNum = 0
      ∧ s1.message.length = MESSAGE_SIZE
      ∧ s1.message.take (tr.presses.length + 1)
          = tr.presses.map (fun d => durationDigit d s.durationUnit) ++ [0] := by
  have hpos : 1 ≤ tr.presses.length := by simp [Trace.presses]
  obtain ⟨x, hrun, hend, hc, hnum, htake, hlen⟩ := trace_run s.config tr.presses.length
    (fun ds a => a.digitNum = ds.length
      ∧ a.message.take ds.length = ds.map (fun d => durationDigit d s.config.durationUnit)
      ∧ a.message.length = MESSAGE_SIZE)
    (duration_step s.config tr.presses.length hmode hunit hn hbuf) s tr hs rfl
    ⟨hzero, by simp, hs.2.2.2⟩ (le_refl _) hv
  have hm : x.pressMode = .DURATION := by
    have : x.config.pressMode = s.config.pressMode := by rw [hc]
    exact this.trans hmode
  have hnum1 : x.digitNum = tr.presses.length := hnum
  have hne : x.digitNum ≠ 0 := by omega
  have hlen1 : x.message.length = MESSAGE_SIZE := hlen
  have htake1 : x.message.take tr.presses.length
      = tr.presses.map (fun d => durationDigit d s.durationUnit) := htake
  have hd : decode x = some (true,
      { x with message := x.message.set x.digitNum 0, digitNum := 0, error := .SUCCESS,
               isMessageAvailable := true, parseStatus := .WAIT_FOR_MESSAGE }) := by
    have hw : x.digitNum < MESSAGE_SIZE := by omega
    simp [decode, hm, _parseDuration, hend, hne, writeMessage, hw]
  refine ⟨_, hrun.trans hd, rfl, hm, rfl, rfl, ?_, ?_⟩
  · show (x.message.set x.digitNum 0).length = MESSAGE_SIZE
    rw [List.length_set]
    exact hlen1
  · show (x.message.set x.digitNum 0).take (tr.presses.length + 1) = _
    rw [hnum1, take_succ_set _ _ _ (by omega), htake1]

/-- C3 (as amended). Duration mode, `durationUnit = u ≥ 1`: from a state that
awaits a message with no digit read, a valid poll trace of one message with `k`
presses, `1 ≤ k ≤ maxDigitNum` and `k ≤ 15`, ends with a pending message whose
first `k + 1` entries are the digits of the presses, in order, followed by a
zero; the digit of a press of measured duration `d` is
`max 1 (((d + u / 2) / u) mod 256)`, which is `max 1 ((d + u / 2) / u)` when that
quotient is below 256. -/
theorem duration_message (s : State) (tr : Trace)
    (hmode : s.pressMode = .DURATION) (hs : awaiting s) (hzero : s.digitNum = 0)
    (hunit : 1 ≤ s.durationUnit)
    (hv : tr.Valid s.config s.lastReadTime)
    (hn : tr.presses.length ≤ s.maxDigitNum) (hbuf : tr.presses.length < MESSAGE_SIZE) :
    ∃ s1, readAll s (tr.polls s.config) = some (true, s1)
      ∧ s1.isMessageAvailable = true
      ∧ s1.message.take (tr.presses.length + 1)
          = tr.presses.map
              (fun d => max 1 ((d + s.durationUnit / 2) / s.durationUnit % 256)) ++ [0]
      ∧ ∀ d ∈ tr.presses, (d + s.durationUnit / 2) / s.durationUnit < 256 →
          max 1 ((d + s.durationUnit / 2) / s.durationUnit % 256)
            = max 1 ((d + s.durationUnit / 2) / s.durationUnit) := by
  obtain ⟨s1, hrun, hflag, -, -, -, -, htake⟩ :=
    duration_run s tr hmode hs hzero hunit hv hn hbuf
  refine ⟨s1, hrun, hflag, ?_, ?_⟩
  · rw [htake]
    congr 1
    apply List.map_congr_left
    intro d _
    exact durationDigit_eq d s.durationUnit
  · intro d _ hq
    rw [Nat.mod_eq_of_lt hq]

set_option maxRecDepth 100000 in
/-- C3 (as amended) at a concrete input: with `durationUnit = 1000` the
presses 900, 2100 emit `[1, 2, 0]`. -/
theorem duration_message_witness :
    twoDurations.presses = [900, 2100]
      ∧ ∃ s1, readAll (awaitingMessage .DURATION)
          (twoDurations.polls (awaitingMessage .DURATION).config) = some (true, s1)
        ∧ s1.isMessageAvailable = true
        ∧ s1.message.take 3 = [1, 2, 0]
        ∧ ∀ d ∈ twoDurations.presses, (d + 1000 / 2) / 1000 < 256 →
            max 1 ((d + 1000 / 2) / 1000 % 256) = max 1 ((d + 1000 / 2) / 1000) :=
  ⟨by decide,
    duration_message (awaitingMessage .DURATION) twoDurations (by decide) (by decide)
      (by decide) (by decide) (by decide) (by decide) (by decide)⟩

set_option maxRecDepth 100000 in
/-- C3 (as stated) fails: with `durationUnit = 1`, a press measured at 300 ms,
for which the claim gives the digit `max 1 ((300 + 0) / 1) = 300`, emits the
message `[44, 0]`: the quotient is stored in a byte. -/
theorem duration_digit_truncated :
    onePress300.Valid ({ awaitingMessage .DURATION with durationUnit := 1 } : State).config 600
      ∧ onePress300.presses = [300]
      ∧ max 1 ((300 + 1 / 2) / 1) = 300
      ∧ (readAll { awaitingMessage .DURATION with durationUnit := 1 }
            (onePress300.polls
              ({ awaitingMessage .DURATION with durationUnit := 1 } : State).config)).map
          (fun r => (r.1, r.2.isMessageAvailable, r.2.message.take 2))
        = some (true, true, [44, 0]) := by
  decide

set_option maxRecDepth 200000 in
/-- The state of C10 is reached from a state that awaits a message: after
the trace `twoDurations`, `readMessage` would deliver `[1, 2, 0]`; after the
first press of the next message (3000 ms) it delivers `[3, 2, 0]`. -/
theorem pending_duration_overwritten_by_trace :
    ((readAll (awaitingMessage .DURATION)
          (twoDurations.polls (awaitingMessage .DURATION).config)).bind
        (fun r => readMessage r.2)).map (fun r => r.2.2) = some [1, 2, 0]
      ∧ (readAll (awaitingMessage .DURATION)
            (twoDurations.polls (awaitingMessage .DURATION).config ++ thirdPress)).map
          (fun r => (r.1, r.2.parseStatus, r.2.isMessageAvailable))
        = some (true, .IN_MESSAGE, true)
      ∧ ((readAll (awaitingMessage .DURATION)
            (twoDurations.polls (awaitingMessage .DURATION).config ++ thirdPress)).bind
          (fun r => readMessage r.2)).map (fun r => r.2.2) = some [3, 2, 0] := by
  decide


/-- With no message pending `readMessage` returns `false`, stores nothing and
leaves the state as it is. -/
theorem readMessage_absent (s : State) (h : s.isMessageAvailable = false) :
    readMessage s = some (false, s, []) := by
  simp [readMessage, h]

theorem readMessageTimes_absent (s : State) (h : s.isMessageAvailable = false) (n : Nat) :
    readMessageTimes s n = some (List.replicate n (false, []), s) := by
  induction n with
  | zero => rfl
  | succ n ih =>
    rw [readMessageTimes, readMessage_absent s h]
    simp only [ih, List.replicate_succ]

/-- C12. With no message pending, `readMessage` returns `false`, stores nothing
through `aMessage` and leaves every member, the error code included, as it
was; any number of calls in a row all give that result. -/
theorem take_message_absent (s : State) (h : s.isMessageAvailable = false) :
    readMessage s = some (false, s, [])
      ∧ ∀ n, readMessageTimes s n = some (List.replicate n (false, []), s) :=
  ⟨readMessage_absent s h, readMessageTimes_absent s h⟩

/-- C12 at a concrete input: Duration mode in the middle of a message, three
calls in a row. -/
theorem take_message_absent_witness :
    readMessage (inMessage .DURATION 0 200) = some (false, inMessage .DURATION 0 200, [])
      ∧ readMessageTimes (inMessage .DURATION 0 200) 3
        = some ([(false, []), (false, []), (false, [])], inMessage .DURATION 0 200) :=
  ⟨(take_message_absent (inMessage .DURATION 0 200) (by decide)).1,
    (take_message_absent (inMessage .DURATION 0 200) (by decide)).2 3⟩

/-- Up to 126 the three derived values of `setMaxReadPeriod` are as
documented; the two 32-bit ones are so for every argument. -/
theorem setMaxReadPeriod_values (s : State) (m : Nat) :
    (setMaxReadPeriod s m).2.maxReadPeriod = m
      ∧ (setMaxReadPeriod s m).2.minChangeAverage = (2 * m + 2) * 16
      ∧ (setMaxReadPeriod s m).2.changeAverage = (setMaxReadPeriod s m).2.minChangeAverage
      ∧ (m ≤ 126 → (setMaxReadPeriod s m).2.debounceInterval = 2 * m + 2) := by
  refine ⟨rfl, ?_, rfl, ?_⟩
  · simp only [setMaxReadPeriod]; ring
  · intro h
    simp only [setMaxReadPeriod, u8]
    omega

/-- C14 fails from 127 on: `setMaxReadPeriod(127)` stores 0 in the `uint8_t`
member `debounceInterval`, where `2 * 127 + 2 = 256`, while `minChangeAverage`
gets `256 * 16 = 4096`. -/
theorem debounce_interval_wraps_at_127 :
    (setMaxReadPeriod (construct (awaitingMessage .COUNT)) 127).2.debounceInterval = 0
      ∧ (setMaxReadPeriod (construct (awaitingMessage .COUNT)) 127).2.minChangeAverage = 4096
      ∧ (setMaxReadPeriod (construct (awaitingMessage .COUNT)) 255).2.debounceInterval = 0 := by
  decide

theorem sub32_eq_emod (a b : Nat) :
    ((sub32 a b : Nat) : Int) = ((a : Int) - (b : Int)) % 4294967296 := by
  unfold sub32
  omega

theorem sub32_add (p e : Nat) (he : e < 4294967296) :
    sub32 ((p + e) % 4294967296) p = e := by
  unfold sub32
  omega

/-- A poll is rejected with `READ_PERIOD_TOO_LONG` exactly when the 32-bit
difference of the two poll times reaches `maxReadPeriod`. -/
theorem rejected_iff (s : State) (now level : Nat) :
    (∃ s1, read s now level = some (false, s1) ∧ s1.error = .READ_PERIOD_TOO_LONG)
      ↔ s.maxReadPeriod ≤ sub32 now s.lastReadTime := by
  constructor
  · rintro ⟨s1, h, he⟩
    rcases read_fail h with ⟨hp, -⟩ | ⟨-, -, hne⟩
    · exact hp
    · exact absurd he hne
  · intro hp
    exact ⟨_, read_slow s now level hp, rfl⟩

/-- C15. With 32-bit poll times, a poll fails with `READ_PERIOD_TOO_LONG` if
and only if `(now - lastReadTime) mod 2^32` is at least `maxReadPeriod`; a poll
made `e < maxReadPeriod` milliseconds after the previous one is not rejected,
whether or not the counter has wrapped in between. -/
theorem clock_wraparound (s : State) (now level : Nat) :
    ((∃ s1, read s now level = some (false, s1) ∧ s1.error = .READ_PERIOD_TOO_LONG)
        ↔ (s.maxReadPeriod : Int) ≤ ((now : Int) - (s.lastReadTime : Int)) % 4294967296)
      ∧ ∀ e, e < s.maxReadPeriod → e < 4294967296 →
          ¬ ∃ s1, read s ((s.lastReadTime + e) % 4294967296) level = some (false, s1)
            ∧ s1.error = .READ_PERIOD_TOO_LONG := by
  constructor
  · rw [rejected_iff, ← sub32_eq_emod now s.lastReadTime]
    exact Int.ofNat_le.symm
  · intro e he he32
    rw [rejected_iff, sub32_add s.lastReadTime e he32]
    omega

/-- C15 at a concrete input: the previous poll at `2^32 - 6`, the poll at 4,
ten milliseconds later, with `maxReadPeriod = 20`. -/
theorem clock_wraparound_witness :
    ((∃ s1, read { awaitingMessage .COUNT with lastReadTime := 4294967290 } 4 1
            = some (false, s1) ∧ s1.error = .READ_PERIOD_TOO_LONG)
        ↔ ((20 : Nat) : Int) ≤ (((4 : Nat) : Int) - ((4294967290 : Nat) : Int)) % 4294967296)
      ∧ ∀ e, e < 20 → e < 4294967296 →
          ¬ ∃ s1, read { awaitingMessage .COUNT with lastReadTime := 4294967290 }
                ((4294967290 + e) % 4294967296) 1 = some (false, s1)
            ∧ s1.error = .READ_PERIOD_TOO_LONG :=
  clock_wraparound { awaitingMessage .COUNT with lastReadTime := 4294967290 } 4 1


theorem durationDigit_bounds (d u : Nat) : 1 ≤ durationDigit d u ∧ durationDigit d u ≤ 255 := by
  unfold durationDigit u8
  simp only
  split <;> omega

theorem takeWhile_digits (ds rest : List Nat) (h : ∀ d ∈ ds, d ≠ 0) :
    (ds ++ 0 :: rest).takeWhile (fun x => x != 0) = ds := by
  induction ds with
  | nil => simp
  | cons d ds ih =>
    have hd : d ≠ 0 := h d (by simp)
    have := ih (fun x hx => h x (List.mem_cons_of_mem _ hx))
    simp [List.takeWhile_cons, hd, this]

/-- A list whose first `k + 1` entries are `ds ++ [0]` is `ds ++ 0 :: rest`. -/
theorem of_take_succ (m ds : List Nat) (h : m.take (ds.length + 1) = ds ++ [0]) :
    m = ds ++ 0 :: m.drop (ds.length + 1) := by
  have := List.take_append_drop (ds.length + 1) m
  rw [h] at this
  simpa using this.symm


/-- C18. Duration mode: the digit stored for a press is never zero, it lies in
`1 .. 255`; after the poll that completes a message of `k` digits
(`k ≤ maxDigitNum`, `k ≤ 15`) the first `k` entries of the message array are
those digits and the first zero of the array is the terminator at index `k`. -/
theorem duration_digits_nonzero (s : State) (tr : Trace)
    (hmode : s.pressMode = .DURATION) (hs : awaiting s) (hzero : s.digitNum = 0)
    (hunit : 1 ≤ s.durationUnit)
    (hv : tr.Valid s.config s.lastReadTime)
    (hn : tr.presses.length ≤ s.maxDigitNum) (hbuf : tr.presses.length < MESSAGE_SIZE) :
    (∀ d u, 1 ≤ durationDigit d u ∧ durationDigit d u ≤ 255)
      ∧ ∃ s1 digits, readAll s (tr.polls s.config) = some (true, s1)
        ∧ digits.length = tr.presses.length
        ∧ (∀ x ∈ digits, 1 ≤ x ∧ x ≤ 255)
        ∧ s1.message.take (tr.presses.length + 1) = digits ++ [0]
        ∧ (s1.message.takeWhile (fun x => x != 0)).length = tr.presses.length := by
  refine ⟨durationDigit_bounds, ?_⟩
  obtain ⟨s1, hrun, -, -, -, -, -, htake⟩ :=
    duration_run s tr hmode hs hzero hunit hv hn hbuf
  have hk : (tr.presses.map (fun d => durationDigit d s.durationUnit)).length
      = tr.presses.length := List.length_map _ _
  have hb : ∀ x ∈ tr.presses.map (fun d => durationDigit d s.durationUnit),
      1 ≤ x ∧ x ≤ 255 := by
    intro x hx
    obtain ⟨d, -, rfl⟩ := List.mem_map.mp hx
    exact durationDigit_bounds d s.durationUnit
  refine ⟨s1, _, hrun, hk, hb, htake, ?_⟩
  have hshape := of_take_succ s1.message
    (tr.presses.map (fun d => durationDigit d s.durationUnit)) (by rw [hk]; exact htake)
  rw [hshape, takeWhile_digits _ _ (fun x hx => by have := (hb x hx).1; omega), hk]

set_option maxRecDepth 100000 in
/-- C18 at a concrete input: a press of 300 ms with `durationUnit = 1`, whose
quotient 300 is stored as 44. -/
theorem duration_digits_nonzero_witness :
    (∀ d u, 1 ≤ durationDigit d u ∧ durationDigit d u ≤ 255)
      ∧ ∃ s1 digits, readAll { awaitingMessage .DURATION with durationUnit := 1 }
            (onePress300.polls
              ({ awaitingMessage .DURATION with durationUnit := 1 } : State).config)
          = some (true, s1)
        ∧ digits.length = 1
        ∧ (∀ x ∈ digits, 1 ≤ x ∧ x ≤ 255)
        ∧ s1.message.take (1 + 1) = digits ++ [0]
        ∧ (s1.message.takeWhile (fun x => x != 0)).length = 1 :=
  duration_digits_nonzero { awaitingMessage .DURATION with durationUnit := 1 } onePress300
    (by decide) (by decide) (by decide) (by decide) (by decide) (by decide) (by decide)


/-- `_parseMessage` leaves a parse state other than `IN_MESSAGE` and
`END_OF_MESSAGE` as it is. -/
theorem parseMessage_idle {s s1 : State} {ok : Bool}
    (h1 : s.parseStatus ≠ .IN_MESSAGE) (h2 : s.parseStatus ≠ .END_OF_MESSAGE)
    (h : _parseMessage s = some (ok, s1)) : ok = true ∧ s1 = s := by
  have ht : tooShort s = none := by simp [tooShort, h1]
  simp only [_parseMessage, ht, h1, h2, false_and, or_self, if_false, Option.some.injEq,
    Prod.mk.injEq] at h
  exact ⟨h.1.symm, h.2.symm⟩

/-- C13 (as stated) fails: in a message, a release that has lasted 8 ms (below
`debounceInterval = 42`) ends in a poll that finds the average at the noise
threshold; the poll fails with `READ_NOISE` and the parse state goes from
`IN_MESSAGE` to `INIT`. -/
theorem bounce_changes_parse_state :
    noisyRelease.parseStatus = .IN_MESSAGE
      ∧ noisyRelease.lastStatus = noisyRelease.released
      ∧ noisyRelease.currentStatusDuration < noisyRelease.debounceInterval
      ∧ (read noisyRelease 1015 0).map (fun r => (r.1, r.2.error, r.2.parseStatus))
        = some (false, .READ_NOISE, .INIT) := by
  decide

/-- C13 (as amended). A poll after which the parse state differs from the one
before it has either found the released level unchanged for at least
`messageSeparator`, or found the level changed after a level that lasted at
least `debounceInterval`, or found the level changed while the parse state was
`WAIT_FOR_MESSAGE` (which becomes `IN_MESSAGE` whatever the duration), or
found a bounce and failed with `READ_NOISE` (which resets the parse state to
`INIT`). -/
theorem parse_state_changes (s s1 : State) (now level : Nat) (ok : Bool)
    (h : read s now level = some (ok, s1))
    (hdiff : s1.parseStatus ≠ s.parseStatus) :
    sub32 now s.lastReadTime < s.maxReadPeriod
      ∧ ((level = s.lastStatus ∧ level = s.released
            ∧ s.messageSeparator ≤ u16 (sub32 now s.lastChange))
        ∨ (level ≠ s.lastStatus ∧ s.debounceInterval ≤ s.currentStatusDuration)
        ∨ (level ≠ s.lastStatus ∧ s.parseStatus = .WAIT_FOR_MESSAGE
            ∧ s1.parseStatus = .IN_MESSAGE)
        ∨ (level ≠ s.lastStatus ∧ s.currentStatusDuration < s.debounceInterval
            ∧ ok = false ∧ s1.error = .READ_NOISE ∧ s1.parseStatus = .INIT)) := by
  by_cases hp : s.maxReadPeriod ≤ sub32 now s.lastReadTime
  · rw [read_slow s now level hp] at h
    simp only [Option.some.injEq, Prod.mk.injEq] at h
    exact absurd (by rw [← h.2]) hdiff
  · have hp1 := Nat.not_le.mp hp
    refine ⟨hp1, ?_⟩
    by_cases hl : level = s.lastStatus
    · rw [read_hold s now level hp1 hl] at h
      split at h
      · next hsep => exact Or.inl ⟨hl, hsep.1, hsep.2⟩
      · simp only [Option.some.injEq, Prod.mk.injEq] at h
        exact absurd (by rw [← h.2]; rfl) hdiff
    · rw [read_change s now level hp1 hl] at h
      right
      split at h
      · next hw =>
        simp only [Option.some.injEq, Prod.mk.injEq] at h
        exact Or.inr (Or.inl ⟨hl, hw, by rw [← h.2]⟩)
      · split at h
        · next hdeb => exact Or.inl ⟨hl, hdeb⟩
        · next hdeb =>
          split at h
          · simp only [Option.some.injEq] at h
            obtain ⟨hok, he, -, hinit, -⟩ := error_reset_of_eq h
            exact Or.inr (Or.inr ⟨hl, Nat.not_le.mp hdeb, hok, he, hinit⟩)
          · simp only [Option.some.injEq, Prod.mk.injEq] at h
            exact absurd (by rw [← h.2]; rfl) hdiff

/-- C13 (as amended) at a concrete input: the bounce of `noisyRelease`. -/
theorem parse_state_changes_witness :
    sub32 1015 noisyRelease.lastReadTime < noisyRelease.maxReadPeriod
      ∧ (((0 : Nat) = noisyRelease.lastStatus ∧ (0 : Nat) = noisyRelease.released
            ∧ noisyRelease.messageSeparator ≤ u16 (sub32 1015 noisyRelease.lastChange))
        ∨ ((0 : Nat) ≠ noisyRelease.lastStatus
            ∧ noisyRelease.debounceInterval ≤ noisyRelease.currentStatusDuration)
        ∨ ((0 : Nat) ≠ noisyRelease.lastStatus
            ∧ noisyRelease.parseStatus = .WAIT_FOR_MESSAGE
            ∧ ({ changed noisyRelease 1015 0 with
                  error := .READ_NOISE, binaryCode := 0, bitNum := 0,
                  parseStatus := .INIT } : State).parseStatus = .IN_MESSAGE)
        ∨ ((0 : Nat) ≠ noisyRelease.lastStatus
            ∧ noisyRelease.currentStatusDuration < noisyRelease.debounceInterval
            ∧ false = false
            ∧ ({ changed noisyRelease 1015 0 with
                  error := .READ_NOISE, binaryCode := 0, bitNum := 0,
                  parseStatus := .INIT } : State).error = .READ_NOISE
            ∧ ({ changed noisyRelease 1015 0 with
                  error := .READ_NOISE, binaryCode := 0, bitNum := 0,
                  parseStatus := .INIT } : State).parseStatus = .INIT)) :=
  parse_state_changes noisyRelease
    { changed noisyRelease 1015 0 with
      error := .READ_NOISE, binaryCode := 0, bitNum := 0, parseStatus := .INIT }
    1015 0 false (by decide) (by decide)


theorem error_bounded (s : State) (e : ErrorCode) (b : Bool) (h : bounded s) :
    bounded (_error s e b).2 := by
  obtain ⟨h1, h2, h3⟩ := h
  cases b <;> cases hm : s.pressMode <;> simp [_error, hm, bounded, h1, h2, h3]

theorem decode_bounded {s s1 : State} {ok : Bool} (hb : bounded s)
    (h : decode s = some (ok, s1)) : bounded s1 := by
  obtain ⟨h1, h2, h3⟩ := hb
  unfold decode at h
  split at h
  · next hm =>
    simp only [_parseCount, Option.some.injEq] at h
    split at h
    · simp only [Prod.mk.injEq] at h
      rw [← h.2]
      split <;> simp [bounded, h1, h2, h3]
    · split at h
      · simp only [_error, hm, Bool.not_true, Bool.false_eq_true, if_false,
          Prod.mk.injEq] at h
        rw [← h.2]
        simp [bounded, h2, h3]
      · next hle =>
        simp only [Prod.mk.injEq] at h
        rw [← h.2]
        exact ⟨Nat.not_lt.mp hle, h2, h3⟩
  · next hm =>
    simp only [_parseBinary, Option.some.injEq] at h
    split at h
    · simp only [Prod.mk.injEq] at h
      rw [← h.2]
      split <;> simp [bounded, h1, h2, h3]
    · split at h
      · simp only [_error, hm, Bool.not_true, Bool.false_eq_true, if_false,
          Prod.mk.injEq] at h
        rw [← h.2]
        simp [bounded, h1, h3]
      · next hle =>
        simp only [Prod.mk.injEq] at h
        rw [← h.2]
        split <;> exact ⟨h1, Nat.not_lt.mp hle, h3⟩
  · next hm =>
    simp only [_parseDuration] at h
    split at h
    · split at h
      · split at h
        · simp at h
        · simp only [Option.some.injEq, Prod.mk.injEq] at h
          rw [← h.2]
          simp [bounded, h1, h2]
      · simp only [Option.some.injEq, Prod.mk.injEq] at h
        rw [← h.2]
        exact ⟨h1, h2, h3⟩
    · split at h
      · simp only [Option.some.injEq] at h
        have := error_bounded s .DURATION_DIGITS_NUM_OVERFLOW true ⟨h1, h2, h3⟩
        rw [h] at this
        exact this
      · next hlt =>
        split at h
        · simp at h
        · split at h
          · simp at h
          · simp only [Option.some.injEq, Prod.mk.injEq] at h
            rw [← h.2]
            refine ⟨h1, h2, ?_⟩
            show u8 (s.digitNum + 1) ≤ s.maxDigitNum
            unfold u8
            omega

theorem parseMessage_bounded {s s1 : State} {ok : Bool} (hb : bounded s)
    (h : _parseMessage s = some (ok, s1)) : bounded s1 := by
  unfold _parseMessage at h
  split at h
  · next e _ =>
    simp only [Option.some.injEq] at h
    have := error_bounded s e true hb
    rw [h] at this
    exact this
  · split at h
    · exact decode_bounded hb (by simpa [decode] using h)
    · simp only [Option.some.injEq, Prod.mk.injEq] at h
      rw [← h.2]
      exact hb

/-- A poll keeps the accumulator bounds. -/
theorem read_bounded {s s1 : State} {now level : Nat} {ok : Bool} (hb : bounded s)
    (h : read s now level = some (ok, s1)) : bounded s1 := by
  by_cases hp : s.maxReadPeriod ≤ sub32 now s.lastReadTime
  · rw [read_slow s now level hp] at h
    simp only [Option.some.injEq, Prod.mk.injEq] at h
    rw [← h.2]
    exact hb
  · have hp1 := Nat.not_le.mp hp
    by_cases hl : level = s.lastStatus
    · rw [read_hold s now level hp1 hl] at h
      split at h
      · split at h
        · simp only [Option.some.injEq, Prod.mk.injEq] at h
          rw [← h.2]
          exact hb
        · exact parseMessage_bounded (s := { held s now level with
            parseStatus := .END_OF_MESSAGE }) hb h
        · simp only [Option.some.injEq, Prod.mk.injEq] at h
          rw [← h.2]
          exact hb
      · simp only [Option.some.injEq, Prod.mk.injEq] at h
        rw [← h.2]
        exact hb
    · rw [read_change s now level hp1 hl] at h
      split at h
      · simp only [Option.some.injEq, Prod.mk.injEq] at h
        rw [← h.2]
        exact hb
      · split at h
        · exact parseMessage_bounded (s := changed s now level) hb h
        · split at h
          · simp only [Option.some.injEq] at h
            have := error_bounded (changed s now level) .READ_NOISE true hb
            rw [h] at this
            exact this
          · simp only [Option.some.injEq, Prod.mk.injEq] at h
            rw [← h.2]
            exact hb


theorem parseMessage_config {s s1 : State} {ok : Bool}
    (h : _parseMessage s = some (ok, s1)) : s1.config = s.config := by
  unfold _parseMessage at h
  split at h
  · next e _ =>
    simp only [Option.some.injEq] at h
    have := (error_frame s e true).1
    rw [h] at this
    exact this
  · split at h
    · exact (decode_frame (s := s) (by simpa [decode] using h)).1
    · simp only [Option.some.injEq, Prod.mk.injEq] at h
      rw [← h.2]

/-- A poll leaves the configuration as it is. -/
theorem read_config {s s1 : State} {now level : Nat} {ok : Bool}
    (h : read s now level = some (ok, s1)) : s1.config = s.config := by
  by_cases hp : s.maxReadPeriod ≤ sub32 now s.lastReadTime
  · rw [read_slow s now level hp] at h
    simp only [Option.some.injEq, Prod.mk.injEq] at h
    rw [← h.2]
    rfl
  · have hp1 := Nat.not_le.mp hp
    by_cases hl : level = s.lastStatus
    · rw [read_hold s now level hp1 hl] at h
      split at h
      · split at h
        · simp only [Option.some.injEq, Prod.mk.injEq] at h
          rw [← h.2]
          rfl
        · exact (parseMessage_config h).trans rfl
        · simp only [Option.some.injEq, Prod.mk.injEq] at h
          rw [← h.2]
          rfl
      · simp only [Option.some.injEq, Prod.mk.injEq] at h
        rw [← h.2]
        rfl
    · rw [read_change s now level hp1 hl] at h
      split at h
      · simp only [Option.some.injEq, Prod.mk.injEq] at h
        rw [← h.2]
        rfl
      · split at h
        · exact (parseMessage_config h).trans rfl
        · split at h
          · simp only [Option.some.injEq] at h
            have := (error_frame (changed s now level) .READ_NOISE true).1
            rw [h] at this
            exact this
          · simp only [Option.some.injEq, Prod.mk.injEq] at h
            rw [← h.2]
            rfl

theorem readMessage_state {s s1 : State} {ok : Bool} {out : List Nat}
    (h : readMessage s = some (ok, s1, out)) :
    s1 = s ∨ s1 = { s with isMessageAvailable := false } := by
  unfold readMessage at h
  split at h
  · split at h
    · split at h
      · simp at h
      · simp only [Option.some.injEq, Prod.mk.injEq] at h
        exact Or.inr h.2.1.symm
    · simp only [Option.some.injEq, Prod.mk.injEq] at h
      exact Or.inr h.2.1.symm
  · simp only [Option.some.injEq, Prod.mk.injEq] at h
    exact Or.inl h.2.1.symm

/-- A property kept by every poll and insensitive to the availability flag holds
after every sequence of calls. -/
theorem callAll_invariant (I : State → Prop)
    (hread : ∀ s s1 now level ok, I s → read s now level = some (ok, s1) → I s1)
    (hflag : ∀ s, I s → I { s with isMessageAvailable := false })
    (cs : List Call) : ∀ s s1, I s → callAll s cs = some s1 → I s1 := by
  induction cs with
  | nil =>
    intro s s1 hI h
    simp only [callAll, Option.some.injEq] at h
    rw [← h]
    exact hI
  | cons c cs ih =>
    intro s s1 hI h
    rw [callAll] at h
    split at h
    · simp at h
    · next s2 hc =>
      refine ih s2 s1 ?_ h
      cases c with
      | read now level =>
        simp only [call, Option.map_eq_some'] at hc
        obtain ⟨r, hr, rfl⟩ := hc
        exact hread s r.2 now level r.1 hI hr
      | readMessage =>
        simp only [call, Option.map_eq_some'] at hc
        obtain ⟨r, hr, rfl⟩ := hc
        rcases @readMessage_state s r.2.1 r.1 r.2.2 hr with h1 | h1
        · rw [h1]; exact hI
        · rw [h1]; exact hflag s hI

theorem setting_keeps (s : State) (x : Setting) :
    (setting s x).count = s.count ∧ (setting s x).binaryCode = s.binaryCode
      ∧ (setting s x).bitNum = s.bitNum ∧ (setting s x).digitNum = s.digitNum
      ∧ (setting s x).parseStatus = s.parseStatus
      ∧ (setting s x).pressMode = s.pressMode := by
  cases x <;> exact ⟨rfl, rfl, rfl, rfl, rfl, rfl⟩

theorem configure_keeps (l : List Setting) (s : State) :
    (configure s l).count = s.count ∧ (configure s l).binaryCode = s.binaryCode
      ∧ (configure s l).bitNum = s.bitNum ∧ (configure s l).digitNum = s.digitNum
      ∧ (configure s l).parseStatus = s.parseStatus
      ∧ (configure s l).pressMode = s.pressMode := by
  induction l generalizing s with
  | nil => exact ⟨rfl, rfl, rfl, rfl, rfl, rfl⟩
  | cons x l ih =>
    obtain ⟨h1, h2, h3, h4, h5, h6⟩ := ih (setting s x)
    obtain ⟨k1, k2, k3, k4, k5, k6⟩ := setting_keeps s x
    exact ⟨h1.trans k1, h2.trans k2, h3.trans k3, h4.trans k4, h5.trans k5, h6.trans k6⟩

/-- A freshly constructed and started instance has nothing accumulated, is in
the parse state `INIT` and has the press mode given to `begin`. -/
theorem started_fresh (garbage : State) (before after : List Setting) (aButtonPin : Nat)
    (aPressMode : PressMode) (aPullup aPressedLow : Bool) (now : Nat) :
    fresh (started garbage before after aButtonPin aPressMode aPullup aPressedLow now)
      ∧ (started garbage before after aButtonPin aPressMode aPullup aPressedLow
          now).pressMode = aPressMode := by
  obtain ⟨h1, h2, h3, h4, h5, h6⟩ := configure_keeps after
    (begin (configure (construct garbage) before) aButtonPin aPressMode aPullup
      aPressedLow now).2
  obtain ⟨k1, k2, k3, k4, k5, -⟩ := configure_keeps before (construct garbage)
  unfold started
  refine ⟨⟨h1.trans k1, h2.trans k2, h3.trans k3, h4.trans k4, h5.trans k5⟩, h6⟩


theorem parseMessage_total (s : State) (h : defined s) : ∃ r, _parseMessage s = some r := by
  unfold _parseMessage
  split
  · exact ⟨_, rfl⟩
  · split
    · split
      · exact ⟨_, rfl⟩
      · exact ⟨_, rfl⟩
      · next hm =>
        obtain ⟨hd, hu⟩ := h hm
        unfold _parseDuration writeMessage
        simp only [hd, if_true, hu, if_false]
        split
        · split <;> exact ⟨_, rfl⟩
        · split <;> exact ⟨_, rfl⟩
    · exact ⟨_, rfl⟩

/-- A poll whose decoder is defined returns. -/
theorem read_total (s : State) (now level : Nat) (h : defined s) :
    ∃ r, read s now level = some r := by
  by_cases hp : s.maxReadPeriod ≤ sub32 now s.lastReadTime
  · exact ⟨_, read_slow s now level hp⟩
  · have hp1 := Nat.not_le.mp hp
    by_cases hl : level = s.lastStatus
    · rw [read_hold s now level hp1 hl]
      split
      · split
        · exact ⟨_, rfl⟩
        · exact parseMessage_total _ h
        · exact ⟨_, rfl⟩
      · exact ⟨_, rfl⟩
    · rw [read_change s now level hp1 hl]
      split
      · exact ⟨_, rfl⟩
      · split
        · exact parseMessage_total _ h
        · split <;> exact ⟨_, rfl⟩

/-- When every poll keeps `I` and returns from a state that satisfies `I`,
every sequence of polls returns. -/
theorem readAll_total (I : State → Prop)
    (hread : ∀ s s1 now level ok, I s → read s now level = some (ok, s1) → I s1)
    (htotal : ∀ s now level, I s → ∃ r, read s now level = some r)
    (ps : List (Nat × Nat)) : ∀ s, I s → ∃ r, readAll s ps = some r := by
  induction ps with
  | nil => intro s _; exact ⟨_, rfl⟩
  | cons p ps ih =>
    intro s hI
    obtain ⟨r, hr⟩ := htotal s p.1 p.2 hI
    obtain ⟨rs, hrs⟩ := ih r.2 (hread s r.2 p.1 p.2 r.1 hI hr)
    exact ⟨(r.1 && rs.1, rs.2), by rw [readAll_cons, hr]; simp only [hrs]⟩

theorem fresh_bounded {s : State} (h : fresh s) : bounded s := by
  obtain ⟨h1, -, h3, h4, -⟩ := h
  simp [bounded, h1, h3, h4]

theorem bounded_flag (s : State) (h : bounded s) :
    bounded { s with isMessageAvailable := false } := h

theorem config_pressMode {s s1 : State} (h : s1.config = s.config) :
    s1.pressMode = s.pressMode := (config_fields h).1

/-- C19. Accumulator bounds: after every sequence of calls of `read` and
`readMessage` on a freshly constructed and started instance, `count ≤ maxCount`,
`bitNum ≤ maxBitNum` and `digitNum ≤ maxDigitNum`; in Count and Binary mode
every sequence of polls returns. -/
theorem accumulator_bounds (garbage : State) (before after : List Setting)
    (aButtonPin : Nat) (aPressMode : PressMode) (aPullup aPressedLow : Bool) (now : Nat)
    (cs : List Call) (s1 : State)
    (h : callAll (started garbage before after aButtonPin aPressMode aPullup aPressedLow now)
      cs = some s1) :
    (s1.count ≤ s1.maxCount ∧ s1.bitNum ≤ s1.maxBitNum ∧ s1.digitNum ≤ s1.maxDigitNum)
      ∧ (aPressMode ≠ .DURATION → ∀ ps, ∃ r,
          readAll (started garbage before after aButtonPin aPressMode aPullup aPressedLow now)
            ps = some r) := by
  obtain ⟨hf, hm⟩ := started_fresh garbage before after aButtonPin aPressMode aPullup
    aPressedLow now
  constructor
  · exact callAll_invariant bounded (fun s s1 now level ok hb hr => read_bounded hb hr)
      bounded_flag cs _ s1 (fresh_bounded hf) h
  · intro hne ps
    refine readAll_total (fun s => s.pressMode ≠ .DURATION) ?_ ?_ ps _
      (by show _ ≠ _; rw [hm]; exact hne)
    · intro s s2 now level ok hs hr
      rw [config_pressMode (read_config hr)]
      exact hs
    · intro s now level hs
      exact read_total s now level (fun hd => absurd hd hs)

set_option maxRecDepth 100000 in
/-- C19 at two concrete runs in Count mode with `maxCount = 2`, polled every
19 ms. After two presses of 57 ms `count` has reached the limit: `count = 2`.
After a third press, whose poll fails with `COUNT_OVERFLOW`, `count = 0`. -/
theorem accumulator_bounds_witness :
    (callAll startedCount2 (quickCalls 2) = some countedTwo
      ∧ countedTwo.count = 2 ∧ countedTwo.maxCount = 2
      ∧ (countedTwo.count ≤ countedTwo.maxCount ∧ countedTwo.bitNum ≤ countedTwo.maxBitNum
          ∧ countedTwo.digitNum ≤ countedTwo.maxDigitNum)
        ∧ (PressMode.COUNT ≠ .DURATION → ∀ ps, ∃ r, readAll startedCount2 ps = some r))
      ∧ (callAll startedCount2 (quickCalls 3) = some countOverflowed
        ∧ (readAll startedCount2 (quickPolls 3)).map (fun r => (r.1, r.2.error))
            = some (false, .COUNT_OVERFLOW)
        ∧ (countOverflowed.count ≤ countOverflowed.maxCount
            ∧ countOverflowed.bitNum ≤ countOverflowed.maxBitNum
            ∧ countOverflowed.digitNum ≤ countOverflowed.maxDigitNum)
          ∧ (PressMode.COUNT ≠ .DURATION → ∀ ps, ∃ r,
              readAll startedCount2 ps = some r)) :=
  ⟨⟨by decide, by decide, by decide,
      accumulator_bounds blank (quickSettings ++ [Setting.maxCount 2]) [] 2 .COUNT true true 0
        (quickCalls 2) countedTwo (by decide)⟩,
    ⟨by decide, by decide,
      accumulator_bounds blank (quickSettings ++ [Setting.maxCount 2]) [] 2 .COUNT true true 0
        (quickCalls 3) countOverflowed (by decide)⟩⟩

theorem in_range_invariant (s : State) :
    (s.pressMode = .DURATION ∧ s.maxDigitNum ≤ 15 ∧ bounded s) →
      ∀ s1 now level ok, read s now level = some (ok, s1) →
        s1.pressMode = .DURATION ∧ s1.maxDigitNum ≤ 15 ∧ bounded s1 := by
  rintro ⟨hm, hmax, hb⟩ s1 now level ok hr
  have hc := read_config hr
  have hmd : s1.maxDigitNum = s.maxDigitNum := by
    have : s1.config.maxDigitNum = s.config.maxDigitNum := by rw [hc]
    exact this
  exact ⟨(config_pressMode hc).trans hm, by rw [hmd]; exact hmax, read_bounded hb hr⟩

/-- C20. Message buffer safety: in Duration mode with `maxDigitNum ≤ 15`, after
every sequence of calls on a freshly constructed and started instance
`digitNum`, the index at which the next poll writes the message array (a digit,
or the terminating zero), is at most `maxDigitNum` and below 16, so that the
write is inside the array; with a `durationUnit` of at least 1 the next poll
returns. -/
theorem message_write_in_range (garbage : State) (before after : List Setting)
    (aButtonPin : Nat) (aPullup aPressedLow : Bool) (now : Nat)
    (cs : List Call) (s1 : State)
    (hmax : (started garbage before after aButtonPin .DURATION aPullup aPressedLow
      now).maxDigitNum ≤ 15)
    (h : callAll (started garbage before after aButtonPin .DURATION aPullup aPressedLow now)
      cs = some s1) :
    s1.digitNum ≤ s1.maxDigitNum ∧ s1.digitNum < MESSAGE_SIZE
      ∧ (∀ v, writeMessage s1.message s1.digitNum v = some (s1.message.set s1.digitNum v))
      ∧ (1 ≤ s1.durationUnit → ∀ now1 level, ∃ r, read s1 now1 level = some r) := by
  obtain ⟨hf, hm⟩ := started_fresh garbage before after aButtonPin .DURATION aPullup
    aPressedLow now
  obtain ⟨hm1, hmax1, -, -, hb⟩ := callAll_invariant
    (fun s => s.pressMode = .DURATION ∧ s.maxDigitNum ≤ 15 ∧ bounded s)
    (fun s s1 now level ok hI hr => in_range_invariant s hI s1 now level ok hr)
    (fun s hI => hI) cs _ s1 ⟨hm, hmax, fresh_bounded hf⟩ h
  have h16 : s1.digitNum < MESSAGE_SIZE := by
    have : MESSAGE_SIZE = 16 := rfl
    omega
  refine ⟨hb, h16, ?_, ?_⟩
  · intro v
    simp only [writeMessage, h16, if_true]
  · intro hu now1 level
    exact read_total s1 now1 level (fun _ => ⟨h16, by omega⟩)


set_option maxRecDepth 100000 in
/-- C20 at a concrete run: Duration mode with `maxDigitNum = 15` and a unit of
19 ms, constructed on memory whose message bytes are all 255 and polled every
19 ms. Fifteen presses of 57 ms write the digit 3 at the indices 0 to 14, after
which `digitNum = 15`; the poll at time 2375 completes the message and writes
the terminator at index 15, the last entry of the array. -/
theorem message_write_in_range_witness :
    callAll (startedDigits 15) (quickCalls 15) = some fifteenDigits
      ∧ fifteenDigits.digitNum = 15 ∧ fifteenDigits.maxDigitNum = 15
      ∧ fifteenDigits.message = List.replicate 15 3 ++ [255]
      ∧ (read fifteenDigits 2375 1).map
          (fun r => (r.1, r.2.message, r.2.isMessageAvailable, r.2.digitNum))
        = some (true, List.replicate 15 3 ++ [0], true, 0)
      ∧ (fifteenDigits.digitNum ≤ fifteenDigits.maxDigitNum
        ∧ fifteenDigits.digitNum < MESSAGE_SIZE
        ∧ (∀ v, writeMessage fifteenDigits.message fifteenDigits.digitNum v
            = some (fifteenDigits.message.set fifteenDigits.digitNum v))
        ∧ (1 ≤ fifteenDigits.durationUnit →
            ∀ now1 level, ∃ r, read fifteenDigits now1 level = some r)) :=
  ⟨by decide, by decide, by decide, by decide, by decide,
    message_write_in_range filled (quickSettings ++ [Setting.maxDigitNum 15]) [] 2 true true 0
      (quickCalls 15) fifteenDigits (by decide) (by decide)⟩


theorem binary_wrap_step (c : Config) (flag : Bool) (m : List Nat)
    (hmode : c.pressMode = .BINARY) (hmax : c.maxBitNum = 255)
    (n : Nat) (ds : List Nat) (x : State) (hc : x.config = c)
    (hin : x.parseStatus = .IN_MESSAGE)
    (hP : x.acc.bitNum = ds.length % 256
      ∧ x.acc.binaryCode = msbFirst (ds.map (pressBit c.binaryHighLowThreshold)) % 256
      ∧ x.acc.isMessageAvailable = flag ∧ x.acc.message = m)
    (_hn : ds.length < n) :
    ∃ y, decode x = some (true, y) ∧ y.parseStatus = .IN_MESSAGE
      ∧ (y.acc.bitNum = (ds ++ [x.statusDuration]).length % 256
          ∧ y.acc.binaryCode
              = msbFirst ((ds ++ [x.statusDuration]).map
                  (pressBit c.binaryHighLowThreshold)) % 256
          ∧ y.acc.isMessageAvailable = flag ∧ y.acc.message = m) := by
  have hm : x.pressMode = .BINARY := by rw [← hc] at hmode; exact hmode
  have hmb : x.maxBitNum = 255 := by rw [← hc] at hmax; exact hmax
  have hth : x.binaryHighLowThreshold = c.binaryHighLowThreshold := by rw [← hc]; rfl
  obtain ⟨hnum, hcode, hflag, hmsg⟩ := hP
  have hnum1 : x.bitNum = ds.length % 256 := hnum
  have hcode1 : x.binaryCode
      = msbFirst (ds.map (pressBit c.binaryHighLowThreshold)) % 256 := hcode
  have hlt : ¬ 255 < u8 (ds.length % 256 + 1) := by unfold u8; omega
  have hpb : decode x = some (true,
      { x with
        bitNum := u8 (ds.length % 256 + 1),
        binaryCode :=
          if c.binaryHighLowThreshold < x.statusDuration then u8 (x.binaryCode * 2) ||| 1
          else u8 (x.binaryCode * 2) }) := by
    simp only [decode, hm, _parseBinary, hin, hnum1, hmb, hlt, if_false, hth, reduceCtorEq]
    split <;> rfl
  refine ⟨_, hpb, hin, ?_, ?_, hflag, hmsg⟩
  · show u8 (ds.length % 256 + 1) = _
    rw [List.length_append, List.length_singleton]
    unfold u8
    omega
  · show (if c.binaryHighLowThreshold < x.statusDuration then u8 (x.binaryCode * 2) ||| 1
        else u8 (x.binaryCode * 2)) = _
    rw [List.map_append, List.map_singleton, msbFirst_append, hcode1]
    unfold pressBit u8
    split
    · rw [even_lor_one]; omega
    · omega

/-- Binary mode with `maxBitNum = 255`: the bit counter wraps, so a valid poll
trace of 256 presses is accepted press by press and ends with no message
emitted, the parse state `WAIT_FOR_MESSAGE`, `bitNum = 0` and the low byte of
the bits still in `binaryCode`. -/
theorem binary_wrap_run (s : State) (tr : Trace)
    (hmode : s.pressMode = .BINARY) (hs : awaiting s)
    (hzero : s.bitNum = 0 ∧ s.binaryCode = 0) (hmax : s.maxBitNum = 255)
    (hv : tr.Valid s.config s.lastReadTime) (hlen : tr.presses.length = 256) :
    ∃ s1, readAll s (tr.polls s.config) = some (true, s1)
      ∧ s1.pressMode = .BINARY
      ∧ s1.parseStatus = .WAIT_FOR_MESSAGE
      ∧ s1.bitNum = 0
      ∧ s1.binaryCode
          = msbFirst (tr.presses.map (pressBit s.binaryHighLowThreshold)) % 256
      ∧ s1.isMessageAvailable = s.isMessageAvailable
      ∧ s1.message = s.message := by
  obtain ⟨x, hrun, hend, hc, hnum, hcode, hflag, hmsg⟩ := trace_run s.config
    tr.presses.length
    (fun ds a => a.bitNum = ds.length % 256
      ∧ a.binaryCode = msbFirst (ds.map (pressBit s.config.binaryHighLowThreshold)) % 256
      ∧ a.isMessageAvailable = s.isMessageAvailable ∧ a.message = s.message)
    (binary_wrap_step s.config s.isMessageAvailable s.message hmode hmax tr.presses.length)
    s tr hs rfl ⟨by simpa using hzero.1, by simpa [msbFirst] using hzero.2, rfl, rfl⟩
    (le_refl _) hv
  have hm : x.pressMode = .BINARY := by
    have : x.config.pressMode = s.config.pressMode := by rw [hc]
    exact this.trans hmode
  have hnum1 : x.bitNum = 0 := by
    have : x.bitNum = tr.presses.length % 256 := hnum
    rw [this, hlen]
  have hd : decode x = some (true, { x with parseStatus := .WAIT_FOR_MESSAGE }) := by
    simp [decode, hm, _parseBinary, hend, hnum1]
  exact ⟨_, hrun.trans hd, hm, rfl, hnum1, hcode, hflag, hmsg⟩


theorem sub32_step (t k : Nat) (hk : k < 4294967296) : sub32 (t + k) t = k := by
  unfold sub32
  omega

theorem run19_measured (t : Nat) : (run19 t).measured = 57 := by
  have h := sub32_step t 57 (by norm_num)
  simp [run19, Segment.measured, Segment.last, h, u16]

theorem run19_pressOK (c : Config) (hp : c.minPressed = 0) (hd : c.debounceInterval = 42)
    (t : Nat) : pressOK c (run19 t) := by
  unfold pressOK
  rw [run19_measured, hp, hd]
  decide

theorem run19_releaseOK (c : Config) (hr : c.minReleased = 0) (hd : c.debounceInterval = 42)
    (hs : c.messageSeparator = 60) (t : Nat) : releaseOK c (run19 t) := by
  unfold releaseOK
  rw [run19_measured, hr, hd, hs]
  refine ⟨by decide, by decide, ?_⟩
  intro u hu
  simp only [run19, List.mem_cons, List.mem_singleton, List.not_mem_nil, or_false] at hu
  rcases hu with rfl | rfl | rfl
  · show u16 (sub32 (t + 19) t) < 60
    rw [sub32_step t 19 (by norm_num)]; decide
  · show u16 (sub32 (t + 38) t) < 60
    rw [sub32_step t 38 (by norm_num)]; decide
  · show u16 (sub32 (t + 57) t) < 60
    rw [sub32_step t 57 (by norm_num)]; decide

theorem timely_run19 (prev t : Nat) (h : sub32 t prev < 20) :
    Timely 20 prev (run19 t).times := by
  have h1 : sub32 (t + 19) t < 20 := by rw [sub32_step t 19 (by norm_num)]; norm_num
  have h2 : sub32 (t + 38) (t + 19) < 20 := by
    have := sub32_step (t + 19) 19 (by norm_num)
    rw [show t + 19 + 19 = t + 38 by omega] at this
    rw [this]; norm_num
  have h3 : sub32 (t + 57) (t + 38) < 20 := by
    have := sub32_step (t + 38) 19 (by norm_num)
    rw [show t + 38 + 19 = t + 57 by omega] at this
    rw [this]; norm_num
  exact ⟨h, h1, h2, h3, trivial⟩

theorem run19_times_last (prev t : Nat) : (run19 t).times.getLastD prev = t + 57 := rfl

theorem timely_quick_pair (prev t : Nat) (h : sub32 t prev < 20) :
    Timely 20 prev (pairTimes (run19 t, run19 (t + 76)))
      ∧ (pairTimes (run19 t, run19 (t + 76))).getLastD prev = t + 133 := by
  have hstep : sub32 (t + 76) (t + 57) < 20 := by
    have := sub32_step (t + 57) 19 (by norm_num)
    rw [show t + 57 + 19 = t + 76 by omega] at this
    rw [this]; norm_num
  constructor
  · rw [pairTimes, timely_append, run19_times_last]
    exact ⟨timely_run19 prev t h, timely_run19 (t + 57) (t + 76) hstep⟩
  · rw [pairTimes, getLastD_append_eq]
    show t + 76 + 57 = t + 133
    omega

theorem quick_body (n : Nat) :
    Timely 20 76
        (((List.range n).map fun i => (run19 (95 + 152 * i), run19 (171 + 152 * i))).flatMap
          pairTimes)
      ∧ (((List.range n).map fun i => (run19 (95 + 152 * i), run19 (171 + 152 * i))).flatMap
          pairTimes).getLastD 76 = 76 + 152 * n := by
  induction n with
  | zero => exact ⟨trivial, rfl⟩
  | succ n ih =>
    obtain ⟨h1, h2⟩ := ih
    have hstep : sub32 (95 + 152 * n) (76 + 152 * n) < 20 := by
      have := sub32_step (76 + 152 * n) 19 (by norm_num)
      rw [show 76 + 152 * n + 19 = 95 + 152 * n by omega] at this
      rw [this]; norm_num
    obtain ⟨h3, h4⟩ := timely_quick_pair (76 + 152 * n) (95 + 152 * n) hstep
    rw [show 95 + 152 * n + 76 = 171 + 152 * n by omega] at h3 h4
    rw [List.range_succ, List.map_append, List.flatMap_append, List.map_singleton,
      List.flatMap_singleton, timely_append, getLastD_append_eq, h2]
    exact ⟨⟨h1, h3⟩, by rw [h4]; omega⟩

/-- The trace `quickPresses n` is valid under the settings `quickBits`, after a
poll at time 76. -/
theorem quickPresses_valid (c : Config) (hmax : c.maxReadPeriod = 20)
    (hp : c.minPressed = 0) (hr : c.minReleased = 0) (hd : c.debounceInterval = 42)
    (hs : c.messageSeparator = 60) (n : Nat) : (quickPresses n).Valid c 76 := by
  obtain ⟨h1, h2⟩ := quick_body n
  have hstep : sub32 (95 + 152 * n) (76 + 152 * n) < 20 := by
    have := sub32_step (76 + 152 * n) 19 (by norm_num)
    rw [show 76 + 152 * n + 19 = 95 + 152 * n by omega] at this
    rw [this]; norm_num
  refine ⟨?_, ?_, run19_pressOK c hp hd _, ?_⟩
  · rw [hmax]
    show Timely 20 76 ([] ++ ((((List.range n).map fun i =>
      (run19 (95 + 152 * i), run19 (171 + 152 * i))).flatMap pairTimes)
        ++ ((run19 (95 + 152 * n)).times ++ _)))
    rw [List.nil_append, timely_append, h2, timely_append, run19_times_last]
    refine ⟨h1, timely_run19 _ _ hstep, ?_⟩
    have e : ∀ a b : Nat, b < 4294967296 → sub32 (a + b) a = b := sub32_step
    refine ⟨?_, ?_, ?_, ?_, ?_, trivial⟩
    · have := e (95 + 152 * n + 57) 19 (by norm_num)
      rw [show 95 + 152 * n + 57 + 19 = 171 + 152 * n by omega] at this
      exact lt_of_eq_of_lt this (by norm_num)
    · have := e (171 + 152 * n) 19 (by norm_num)
      rw [show 171 + 152 * n + 19 = 190 + 152 * n by omega] at this
      exact lt_of_eq_of_lt this (by norm_num)
    · have := e (190 + 152 * n) 19 (by norm_num)
      rw [show 190 + 152 * n + 19 = 209 + 152 * n by omega] at this
      exact lt_of_eq_of_lt this (by norm_num)
    · have := e (209 + 152 * n) 19 (by norm_num)
      rw [show 209 + 152 * n + 19 = 228 + 152 * n by omega] at this
      exact lt_of_eq_of_lt this (by norm_num)
    · have := e (228 + 152 * n) 19 (by norm_num)
      rw [show 228 + 152 * n + 19 = 247 + 152 * n by omega] at this
      exact lt_of_eq_of_lt this (by norm_num)
  · intro pr hpr
    obtain ⟨i, -, rfl⟩ := List.mem_map.mp hpr
    exact ⟨run19_pressOK c hp hd _, run19_releaseOK c hr hd hs _⟩
  · have e : ∀ a b : Nat, b < 4294967296 → sub32 (a + b) a = b := sub32_step
    refine ⟨by simp [quickPresses], ?_, ?_⟩
    · rw [hs]
      have := e (171 + 152 * n) 76 (by norm_num)
      rw [show 171 + 152 * n + 76 = 247 + 152 * n by omega] at this
      simp [quickPresses, Segment.measured, Segment.last, this, u16]
    · intro u hu
      rw [hs]
      simp only [quickPresses, List.dropLast, List.mem_cons, List.mem_singleton,
        List.not_mem_nil, or_false] at hu
      rcases hu with rfl | rfl | rfl
      · have := e (171 + 152 * n) 19 (by norm_num)
        rw [show 171 + 152 * n + 19 = 190 + 152 * n by omega] at this
        show u16 (sub32 (190 + 152 * n) (171 + 152 * n)) < 60
        rw [this]; decide
      · have := e (171 + 152 * n) 38 (by norm_num)
        rw [show 171 + 152 * n + 38 = 209 + 152 * n by omega] at this
        show u16 (sub32 (209 + 152 * n) (171 + 152 * n)) < 60
        rw [this]; decide
      · have := e (171 + 152 * n) 57 (by norm_num)
        rw [show 171 + 152 * n + 57 = 228 + 152 * n by omega] at this
        show u16 (sub32 (228 + 152 * n) (171 + 152 * n)) < 60
        rw [this]; decide


theorem quickPresses_presses (n : Nat) : (quickPresses n).presses = List.replicate (n + 1) 57 := by
  have h : (quickPresses n).body.map (fun pr => pr.1.measured) = List.replicate n 57 := by
    simp only [quickPresses, List.map_map]
    apply List.eq_replicate_iff.mpr
    refine ⟨by simp, ?_⟩
    intro b hb
    obtain ⟨i, -, rfl⟩ := List.mem_map.mp hb
    exact run19_measured _
  have hl : (quickPresses n).lastPress.measured = 57 := run19_measured _
  rw [Trace.presses, h, hl, List.replicate_succ']

theorem msbFirst_ones (n : Nat) : msbFirst (List.replicate n 1) + 1 = 2 ^ n := by
  induction n with
  | zero => rfl
  | succ n ih =>
    rw [List.replicate_succ, msbFirst, List.length_replicate, pow_succ]
    omega

/-- C17 fails in Binary mode with `maxBitNum = 255`: on a freshly constructed
instance configured with `quickBits` and started at time 0, the polls that
show a separator and then 256 accepted presses (each above the threshold)
followed by a separator all return `true` and end in the parse state
`WAIT_FOR_MESSAGE` with `bitNum = 0` and `binaryCode = 255`. -/
theorem binary_code_left_at_rest :
    ∃ s1, readAll startedQuick
        ([(19, 1), (38, 1), (57, 1), (76, 1)] ++ (quickPresses 255).polls startedQuick.config)
          = some (true, s1)
      ∧ s1.pressMode = .BINARY
      ∧ s1.parseStatus = .WAIT_FOR_MESSAGE
      ∧ s1.bitNum = 0
      ∧ s1.binaryCode = 255
      ∧ ¬ accCleared s1 := by
  have h0 : readAll startedQuick [(19, 1), (38, 1), (57, 1), (76, 1)]
      = some (true, awaitingQuick) := by decide
  obtain ⟨s1, hrun, hm, hp, hb, hcode, -, -⟩ := binary_wrap_run awaitingQuick (quickPresses 255)
    (by decide) (by decide) (by decide) (by decide)
    (quickPresses_valid awaitingQuick.config rfl rfl rfl rfl rfl 255)
    (by rw [quickPresses_presses, List.length_replicate])
  have hc : s1.binaryCode = 255 := by
    rw [hcode, quickPresses_presses, List.map_replicate]
    have h1 : pressBit awaitingQuick.binaryHighLowThreshold 57 = 1 := by decide
    rw [h1]
    have h2 : msbFirst (List.replicate (255 + 1) 1) = 2 ^ 256 - 1 :=
      Nat.eq_sub_of_add_eq (msbFirst_ones 256)
    rw [h2]
    norm_num
  refine ⟨s1, ?_, hm, hp, hb, hc, ?_⟩
  · rw [readAll_append_of_ok h0]
    exact hrun
  · unfold accCleared
    rw [hm]
    simp [hc]


theorem settled_of_reset {s s1 : State} (hr : resetFrom s s1) (hb : bounded s1)
    (hc : s1.config = s.config) (hbin : s.pressMode = .BINARY → s.maxBitNum ≤ 254) :
    settled s1 := by
  obtain ⟨hacc, hinit, -, -⟩ := hr
  refine ⟨fun _ => hacc, hb, by rw [hinit]; simp, ?_⟩
  intro hm
  have hm0 : s.pressMode = .BINARY := by rw [← config_pressMode hc]; exact hm
  have hmax : s1.maxBitNum = s.maxBitNum := by
    have : s1.config.maxBitNum = s.config.maxBitNum := by rw [hc]
    exact this
  refine ⟨by rw [hmax]; exact hbin hm0, fun _ => ?_⟩
  unfold accCleared at hacc
  rw [hm] at hacc
  exact hacc.1

theorem decode_settled {s s1 : State} {ok : Bool}
    (hb : bounded s)
    (hbin : s.pressMode = .BINARY → s.maxBitNum ≤ 254 ∧ (s.bitNum = 0 → s.binaryCode = 0))
    (hph : s.parseStatus = .IN_MESSAGE ∨ s.parseStatus = .END_OF_MESSAGE)
    (h : decode s = some (ok, s1)) : settled s1 := by
  have hb1 := decode_bounded hb h
  have hcfg := (decode_frame h).1
  cases ok with
  | false =>
    exact settled_of_reset (decode_fail h).1 hb1 hcfg (fun hm => (hbin hm).1)
  | true =>
    unfold decode at h
    split at h
    · next hm =>
      simp only [_parseCount, Option.some.injEq] at h
      split at h
      · simp only [Prod.mk.injEq, true_and] at h
        rw [← h] at hb1 ⊢
        refine ⟨?_, hb1, by simp, by intro hx; split at hx <;> simp [hm] at hx⟩
        intro _
        split <;> simp_all [accCleared]
      · next hne =>
        split at h
        · exact absurd (error_reset_of_eq h).1 (by simp)
        · simp only [Prod.mk.injEq, true_and] at h
          rw [← h] at hb1 ⊢
          refine ⟨?_, hb1, by simpa using hne, by intro hx; simp [hm] at hx⟩
          intro hr
          rcases hph with hp | hp
          · rcases hr with hr | hr <;> simp [hp] at hr
          · exact absurd hp hne
    · next hm =>
      obtain ⟨hmax, hcode⟩ := hbin hm
      simp only [_parseBinary, Option.some.injEq] at h
      split at h
      · simp only [Prod.mk.injEq, true_and] at h
        rw [← h] at hb1 ⊢
        refine ⟨?_, hb1, by simp, ?_⟩
        · intro _
          split <;> simp_all [accCleared]
        · intro _
          refine ⟨by split <;> exact hmax, ?_⟩
          split <;> simp_all
      · next hne =>
        split at h
        · exact absurd (error_reset_of_eq h).1 (by simp)
        · next hle =>
          simp only [Prod.mk.injEq, true_and] at h
          have hnz : u8 (s.bitNum + 1) ≠ 0 := by
            have := hb.2.1
            unfold u8
            omega
          rw [← h] at hb1 ⊢
          refine ⟨?_, hb1, ?_, ?_⟩
          · intro hr
            rcases hph with hp | hp
            · split at hr <;> rcases hr with hr | hr <;> simp [hp] at hr
            · exact absurd hp hne
          · split <;> simpa using hne
          · intro _
            refine ⟨by split <;> exact hmax, ?_⟩
            intro h0
            split at h0 <;> exact absurd h0 hnz
    · next hm =>
      simp only [_parseDuration] at h
      split at h
      · split at h
        · split at h
          · simp at h
          · simp only [Option.some.injEq, Prod.mk.injEq, true_and] at h
            rw [← h] at hb1 ⊢
            refine ⟨?_, hb1, by simp, by intro hx; simp [hm] at hx⟩
            intro _
            simp [accCleared, hm]
        · next hz =>
          simp only [Option.some.injEq, Prod.mk.injEq, true_and] at h
          rw [← h] at hb1 ⊢
          refine ⟨?_, hb1, by simp, by intro hx; simp [hm] at hx⟩
          intro _
          simpa [accCleared, hm] using hz
      · next hne =>
        split at h
        · simp only [Option.some.injEq] at h
          exact absurd (error_reset_of_eq h).1 (by simp)
        · split at h
          · simp at h
          · split at h
            · simp at h
            · simp only [Option.some.injEq, Prod.mk.injEq, true_and] at h
              rw [← h] at hb1 ⊢
              refine ⟨?_, hb1, by simpa using hne, by intro hx; simp [hm] at hx⟩
              intro hr
              rcases hph with hp | hp
              · rcases hr with hr | hr <;> simp [hp] at hr
              · exact absurd hp hne


theorem error_settled {s s1 : State} {e : ErrorCode} {b : Bool} (hb : bounded s)
    (hbin : s.pressMode = .BINARY → s.maxBitNum ≤ 254)
    (h : _error s e true = (b, s1)) : settled s1 := by
  have h1 := error_bounded s e true hb
  have h2 := (error_frame s e true).1
  rw [h] at h1 h2
  exact settled_of_reset (error_reset_of_eq h).2.2 h1 h2 hbin

theorem parseMessage_settled {x s1 : State} {ok : Bool} (hb : bounded x)
    (hbin : x.pressMode = .BINARY → x.maxBitNum ≤ 254 ∧ (x.bitNum = 0 → x.binaryCode = 0))
    (hrest : x.parseStatus ≠ .END_OF_MESSAGE → settled x)
    (h : _parseMessage x = some (ok, s1)) : settled s1 := by
  unfold _parseMessage at h
  split at h
  · simp only [Option.some.injEq] at h
    exact error_settled hb (fun hm => (hbin hm).1) h
  · split at h
    · next hcond =>
      exact decode_settled hb hbin (hcond.imp (fun hc => hc.1) id) (by simpa [decode] using h)
    · next hcond =>
      simp only [Option.some.injEq, Prod.mk.injEq] at h
      rw [← h.2]
      exact hrest (fun he => hcond (Or.inr he))

/-- A poll keeps the invariant `settled`. -/
theorem read_settled {s s1 : State} {now level : Nat} {ok : Bool} (hs : settled s)
    (h : read s now level = some (ok, s1)) : settled s1 := by
  obtain ⟨hc, hb, hne, hbin⟩ := hs
  by_cases hp : s.maxReadPeriod ≤ sub32 now s.lastReadTime
  · rw [read_slow s now level hp] at h
    simp only [Option.some.injEq, Prod.mk.injEq] at h
    rw [← h.2]
    exact ⟨hc, hb, hne, hbin⟩
  · have hp1 := Nat.not_le.mp hp
    by_cases hl : level = s.lastStatus
    · rw [read_hold s now level hp1 hl] at h
      split at h
      · split at h
        · next hinit =>
          simp only [Option.some.injEq, Prod.mk.injEq] at h
          rw [← h.2]
          exact ⟨fun _ => hc (Or.inl hinit), hb, by simp, hbin⟩
        · exact parseMessage_settled (x := { held s now level with
            parseStatus := .END_OF_MESSAGE }) hb hbin (fun hx => absurd rfl hx) h
        · simp only [Option.some.injEq, Prod.mk.injEq] at h
          rw [← h.2]
          exact ⟨hc, hb, hne, hbin⟩
      · simp only [Option.some.injEq, Prod.mk.injEq] at h
        rw [← h.2]
        exact ⟨hc, hb, hne, hbin⟩
    · rw [read_change s now level hp1 hl] at h
      split at h
      · simp only [Option.some.injEq, Prod.mk.injEq] at h
        rw [← h.2]
        refine ⟨?_, hb, by simp, hbin⟩
        intro hr
        rcases hr with hr | hr <;> simp at hr
      · split at h
        · exact parseMessage_settled (x := changed s now level) hb hbin
            (fun _ => ⟨hc, hb, hne, hbin⟩) h
        · split at h
          · simp only [Option.some.injEq] at h
            exact error_settled (s := changed s now level) hb (fun hm => (hbin hm).1) h
          · simp only [Option.some.injEq, Prod.mk.injEq] at h
            rw [← h.2]
            exact ⟨hc, hb, hne, hbin⟩

/-- The accumulator-zero invariant holds wherever the bit counter cannot wrap:
in Count and Duration mode, and in Binary mode with `maxBitNum ≤ 254`, after
every sequence of calls on a freshly constructed and started instance, the
accumulator of the active mode is zero whenever the parse state is `INIT` or
`WAIT_FOR_MESSAGE`. -/
theorem cleared_at_rest (garbage : State) (before after : List Setting)
    (aButtonPin : Nat) (aPressMode : PressMode) (aPullup aPressedLow : Bool) (now : Nat)
    (cs : List Call) (s1 : State)
    (hbits : aPressMode = .BINARY →
      (started garbage before after aButtonPin aPressMode aPullup aPressedLow
        now).maxBitNum ≤ 254)
    (h : callAll (started garbage before after aButtonPin aPressMode aPullup aPressedLow now)
      cs = some s1) :
    s1.parseStatus = .INIT ∨ s1.parseStatus = .WAIT_FOR_MESSAGE → accCleared s1 := by
  obtain ⟨hf, hm⟩ := started_fresh garbage before after aButtonPin aPressMode aPullup
    aPressedLow now
  have h0 : settled
      (started garbage before after aButtonPin aPressMode aPullup aPressedLow now) := by
    obtain ⟨f1, f2, f3, f4, f5⟩ := hf
    refine ⟨?_, fresh_bounded ⟨f1, f2, f3, f4, f5⟩, by rw [f5]; simp, ?_⟩
    · intro _
      unfold accCleared
      split <;> simp [f1, f2, f3, f4]
    · intro hb
      exact ⟨hbits (hm.symm.trans hb), fun _ => f2⟩
  exact (callAll_invariant settled (fun s s1 now level ok hI hr => read_settled hI hr)
    (fun s hI => hI) cs _ s1 h0 h).1


theorem error_resample (x y : State) (e : ErrorCode) (b : Bool) :
    _error (resample x y) e b = ((_error x e b).1, resample (_error x e b).2 y) := by
  cases b <;> cases hm : x.pressMode <;> simp [_error, resample, hm]

theorem parseCount_resample (x y : State) :
    _parseCount (resample x y) = ((_parseCount x).1, resample (_parseCount x).2 y) := by
  by_cases h1 : x.parseStatus = .END_OF_MESSAGE
  · by_cases h2 : x.count = 0 <;> simp [_parseCount, resample, h1, h2]
  · by_cases h3 : x.maxCount < u8 (x.count + 1) <;> cases hm : x.pressMode <;>
      simp [_parseCount, _error, resample, h1, h3, hm]

theorem parseBinary_resample (x y : State) :
    _parseBinary (resample x y) = ((_parseBinary x).1, resample (_parseBinary x).2 y) := by
  by_cases h1 : x.parseStatus = .END_OF_MESSAGE
  · by_cases h2 : x.bitNum = 0 <;> simp [_parseBinary, resample, h1, h2]
  · by_cases h3 : x.maxBitNum < u8 (x.bitNum + 1)
    · cases hm : x.pressMode <;> simp [_parseBinary, _error, resample, h1, h3, hm]
    · by_cases h4 : x.binaryHighLowThreshold < x.statusDuration <;>
        simp [_parseBinary, resample, h1, h3, h4]

theorem parseDuration_resample (x y : State) :
    _parseDuration (resample x y)
      = (_parseDuration x).map (fun r => (r.1, resample r.2 y)) := by
  by_cases h5 : x.digitNum < MESSAGE_SIZE
  · by_cases h1 : x.parseStatus = .END_OF_MESSAGE
    · by_cases h2 : x.digitNum = 0 <;>
        simp [_parseDuration, resample, writeMessage, h1, h2, h5]
    · by_cases h3 : (x.maxDigitNum : Int) - 1 < (x.digitNum : Int)
      · cases hm : x.pressMode <;>
          simp [_parseDuration, _error, resample, h1, h3, hm]
      · by_cases h4 : x.durationUnit = 0 <;>
          simp [_parseDuration, resample, writeMessage, h1, h3, h4, h5]
  · by_cases h1 : x.parseStatus = .END_OF_MESSAGE
    · by_cases h2 : x.digitNum = 0 <;>
        simp [_parseDuration, resample, writeMessage, h1, h2, h5]
    · by_cases h3 : (x.maxDigitNum : Int) - 1 < (x.digitNum : Int)
      · cases hm : x.pressMode <;>
          simp [_parseDuration, _error, resample, h1, h3, hm]
      · by_cases h4 : x.durationUnit = 0 <;>
          simp [_parseDuration, resample, writeMessage, h1, h3, h4, h5]

theorem parseMessage_resample (x y : State) :
    _parseMessage (resample x y)
      = (_parseMessage x).map (fun r => (r.1, resample r.2 y)) := by
  have ht : tooShort (resample x y) = tooShort x := rfl
  have hc : ((resample x y).parseStatus = .IN_MESSAGE
        ∧ (resample x y).status = (resample x y).pressed
      ∨ (resample x y).parseStatus = .END_OF_MESSAGE)
      = (x.parseStatus = .IN_MESSAGE ∧ x.status = x.pressed
        ∨ x.parseStatus = .END_OF_MESSAGE) := rfl
  have hm : (resample x y).pressMode = x.pressMode := rfl
  unfold _parseMessage
  rw [ht]
  split
  · simp only [Option.map_some', error_resample]
  · simp only [hc, hm]
    split
    · split
      · simp only [Option.map_some', parseCount_resample]
      · simp only [Option.map_some', parseBinary_resample]
      · exact parseDuration_resample x y
    · rfl


theorem resample_eq {x y : State} (hd : x.decoder = y.decoder) (hs : x.status = y.status)
    (ht : x.statusDuration = y.statusDuration) : resample x y = y := by
  cases x
  cases y
  simp only [State.decoder, State.config, State.acc, Decoder.mk.injEq, Config.mk.injEq,
    Acc.mk.injEq] at hd
  simp only at hs ht
  simp only [resample, State.mk.injEq]
  simp only [hs, ht, true_and, and_true]
  tauto

/-- `_parseMessage` is a function of the decoder members, the ended level and
its duration. -/
theorem parse_congr {x y : State} (hd : x.decoder = y.decoder) (hs : x.status = y.status)
    (ht : x.statusDuration = y.statusDuration) :
    (_parseMessage x).map view = (_parseMessage y).map view := by
  have h := parseMessage_resample x y
  rw [resample_eq hd hs ht] at h
  rw [h, Option.map_map]
  rfl

theorem decoder_state (v : Decoder) (a b : Nat) : (v.state a b).decoder = v := rfl

theorem parseMessage_frame {s x : State} {ok : Bool} (h : _parseMessage s = some (ok, x)) :
    x.config = s.config ∧ x.sampling = s.sampling := by
  unfold _parseMessage at h
  split at h
  · next e _ =>
    simp only [Option.some.injEq] at h
    have := error_frame s e true
    rw [h] at this
    exact this
  · split at h
    · exact decode_frame (s := s) (by simpa [decode] using h)
    · simp only [Option.some.injEq, Prod.mk.injEq] at h
      rw [← h.2]
      exact ⟨rfl, rfl⟩

theorem decode_status {s x : State} (hne : s.parseStatus ≠ .END_OF_MESSAGE)
    (h : decode s = some (true, x)) : x.parseStatus = s.parseStatus := by
  unfold decode at h
  split at h
  · simp only [_parseCount, hne, if_false, Option.some.injEq] at h
    split at h
    · exact absurd (error_reset_of_eq h).1 (by simp)
    · simp only [Prod.mk.injEq, true_and] at h
      rw [← h]
  · simp only [_parseBinary, hne, if_false, Option.some.injEq] at h
    split at h
    · exact absurd (error_reset_of_eq h).1 (by simp)
    · simp only [Prod.mk.injEq, true_and] at h
      rw [← h]
      split <;> rfl
  · simp only [_parseDuration, hne, if_false] at h
    split at h
    · simp only [Option.some.injEq] at h
      exact absurd (error_reset_of_eq h).1 (by simp)
    · split at h
      · simp at h
      · split at h
        · simp at h
        · simp only [Option.some.injEq, Prod.mk.injEq, true_and] at h
          rw [← h]

/-- After `_parseMessage` for a change of level, the parse state is `IN_MESSAGE`
or `INIT` when it was one of them before. -/
theorem parse_status_after {s x : State} {ok : Bool}
    (hs : s.parseStatus = .IN_MESSAGE ∨ s.parseStatus = .INIT)
    (h : _parseMessage s = some (ok, x)) :
    x.parseStatus = .IN_MESSAGE ∨ x.parseStatus = .INIT := by
  cases ok with
  | false => exact Or.inr (parseMessage_fail h).1.2.1
  | true =>
    rcases hs with hs | hs
    · left
      unfold _parseMessage at h
      split at h
      · simp only [Option.some.injEq] at h
        exact absurd (error_reset_of_eq h).1 (by simp)
      · split at h
        · rw [decode_status (by rw [hs]; simp) (by simpa [decode] using h), hs]
        · simp only [Option.some.injEq, Prod.mk.injEq, true_and] at h
          rw [← h, hs]
    · right
      have := (parseMessage_idle (by rw [hs]; simp) (by rw [hs]; simp) h).2
      rw [this, hs]


theorem engage_ne_wait (p : ParsingStatus) : engage p ≠ .WAIT_FOR_MESSAGE := by
  unfold engage
  split
  · simp
  · assumption

theorem engage_of_ne {p : ParsingStatus} (h : p ≠ .WAIT_FOR_MESSAGE) : engage p = p := by
  unfold engage
  rw [if_neg h]

/-- The polls of a press, from a `poised` state, all return `true`. -/
theorem press_held (s : State) (p : Segment) (hr : poised s)
    (ht : Timely s.maxReadPeriod s.lastReadTime p.times) :
    readAll s (p.polls s.pressed) = some (true, pressHeld s p) := by
  obtain ⟨hl, hne, hph⟩ := hr
  obtain ⟨ht1, ht2⟩ := ht
  have hchange : s.pressed ≠ s.lastStatus := by rw [hl]; exact hne
  have hne1 : s.released ≠ s.pressed := fun h => hne h.symm
  have h1 : read s p.start s.pressed
      = some (true, { changed s p.start s.pressed with
                      parseStatus := engage s.parseStatus }) := by
    rw [read_change s p.start s.pressed ht1 hchange]
    rcases hph with hw | ⟨hin | hin, hdeb, hmin⟩
    · rw [if_pos hw, hw]
      rfl
    · rw [if_neg (by simp [hin]), if_pos hdeb]
      have hm : ¬ s.currentStatusDuration < s.minReleased := Nat.not_lt.mpr hmin
      simp [_parseMessage, tooShort, changed, hin, hl, hm, hne1, engage]
    · rw [if_neg (by simp [hin]), if_pos hdeb]
      simp [_parseMessage, tooShort, changed, hin, engage]
  have h2 := hold_run p.holds
    { changed s p.start s.pressed with parseStatus := engage s.parseStatus }
    ht2 (by intro h; exact absurd h hne)
  simp only [Segment.polls, Segment.times, List.map_cons]
  rw [readAll_cons]
  simp only [h1]
  have e : ({ changed s p.start s.pressed with
      parseStatus := engage s.parseStatus } : State).lastStatus = s.pressed := rfl
  rw [e] at h2
  rw [h2]
  rfl

/-- The poll that finds an accepted press ended calls `_parseMessage`. -/
theorem press_done (s : State) (p : Segment) (t : Nat) (hr : poised s)
    (hp : pressOK s.config p) (ht : sub32 t p.last < s.maxReadPeriod) :
    read (pressHeld s p) t s.released = _parseMessage (pressDone s p t) := by
  obtain ⟨hl, hne, -⟩ := hr
  have hne1 : s.released ≠ s.pressed := fun h => hne h.symm
  have hd : (pressHeld s p).currentStatusDuration = p.measured := rfl
  have hp1 : s.debounceInterval ≤ p.measured := le_trans (le_max_right _ _) hp
  rw [read_change (pressHeld s p) t s.released ht hne1]
  have hw : ¬ (pressHeld s p).parseStatus = .WAIT_FOR_MESSAGE :=
    engage_ne_wait s.parseStatus
  rw [if_neg hw, if_pos (by rw [hd]; exact hp1)]
  rfl

theorem pressDone_status (s : State) (p : Segment) (t : Nat) (hr : poised s) :
    (pressDone s p t).parseStatus = .IN_MESSAGE ∨ (pressDone s p t).parseStatus = .INIT := by
  show engage s.parseStatus = _ ∨ engage s.parseStatus = _
  rcases hr.2.2 with hw | ⟨hin | hin, -⟩
  · rw [hw]; exact Or.inl rfl
  · rw [hin]; exact Or.inl rfl
  · rw [hin]; exact Or.inr rfl

/-- The polls of an accepted press and of the release after it: the call of
`_parseMessage` for the press, then polls that only measure the release. -/
theorem pair_polls (s : State) (pr : Segment × Segment) (hr : poised s)
    (hp : pressOK s.config pr.1) (hrl : releaseOK s.config pr.2)
    (ht : Timely s.maxReadPeriod s.lastReadTime (pairTimes pr)) :
    readAll s (pairPolls s.config pr)
        = (_parseMessage (pressDone s pr.1 pr.2.start)).map
            (fun r => (r.1, holdEnd r.2 pr.2.holds))
      ∧ ∀ ok x, _parseMessage (pressDone s pr.1 pr.2.start) = some (ok, x) →
          poised (holdEnd x pr.2.holds) ∧ (holdEnd x pr.2.holds).config = s.config
            ∧ (holdEnd x pr.2.holds).lastReadTime = (pairTimes pr).getLastD s.lastReadTime := by
  rw [pairTimes, timely_append, segment_times_last] at ht
  obtain ⟨ht1, ht2, ht3⟩ := ht
  obtain ⟨hr1, hr2, hr3⟩ := hrl
  have key : ∀ ok x, _parseMessage (pressDone s pr.1 pr.2.start) = some (ok, x) →
      readAll x (pr.2.holds.map fun t => (t, s.released)) = some (true, holdEnd x pr.2.holds)
        ∧ poised (holdEnd x pr.2.holds) ∧ (holdEnd x pr.2.holds).config = s.config
        ∧ (holdEnd x pr.2.holds).lastReadTime = (pairTimes pr).getLastD s.lastReadTime := by
    intro ok x hx
    obtain ⟨hc, hsam⟩ := parseMessage_frame hx
    simp only [State.sampling, Prod.mk.injEq] at hsam
    obtain ⟨-, -, hcd, hls, -, hlc, -, hlr⟩ := hsam
    have hls1 : x.lastStatus = s.released := hls
    have hlc1 : x.lastChange = pr.2.start := hlc
    have hlr1 : x.lastReadTime = pr.2.start := hlr
    have hcd1 : x.currentStatusDuration = 0 := hcd
    have hc0 : x.config = s.config := hc
    obtain ⟨-, hc2, hc3, hc4, -, hc6, hc7, hc8⟩ := config_fields hc0
    have hmeas := holdEnd_measured x pr.2 hlc1 hlr1 hcd1
    have hst := parse_status_after (pressDone_status s pr.1 pr.2.start hr) hx
    have h2 := hold_run pr.2.holds x (by rw [hc6, hlr1]; exact ht3)
      (by intro _ _ t ht; rw [hlc1, hc8]; exact hr3 t ht)
    rw [hls1] at h2
    refine ⟨h2, ⟨?_, ?_, Or.inr ⟨hst, ?_, ?_⟩⟩, hc0, ?_⟩
    · show x.lastStatus = x.released
      rw [hls1, hc3]
    · show x.pressed ≠ x.released
      rw [hc2, hc3]; exact hr.2.1
    · show x.debounceInterval ≤ _
      rw [hmeas, hc7]; exact le_trans (le_max_right _ _) hr1
    · show x.minReleased ≤ _
      rw [hmeas, hc4]; exact le_trans (le_max_left _ _) hr1
    · show pr.2.holds.getLastD x.lastReadTime = _
      rw [hlr1, pairTimes, getLastD_append_eq, segment_times_last]
      rfl
  constructor
  · show readAll s (pr.1.polls s.pressed ++ pr.2.polls s.released) = _
    rw [readAll_append_of_ok (press_held s pr.1 hr ht1)]
    simp only [Segment.polls, Segment.times, List.map_cons]
    rw [readAll_cons]
    simp only [press_done s pr.1 pr.2.start hr hp ht2]
    cases hx : _parseMessage (pressDone s pr.1 pr.2.start) with
    | none => rfl
    | some r =>
      obtain ⟨h2, -⟩ := key r.1 r.2 hx
      simp only [h2, Bool.and_true, Option.map_some']
  · intro ok x hx
    exact (key ok x hx).2


/-- The polls of the release that ends a message, after the poll that found
the release: the last one acts on the separator. -/
theorem separator_polls (x : State) (f : Segment) (hf : separatorOK x.config f)
    (ht : Timely x.maxReadPeriod f.start f.holds)
    (hls : x.lastStatus = x.released) (hlc : x.lastChange = f.start)
    (hlr : x.lastReadTime = f.start) :
    readAll x (f.holds.map fun t => (t, x.released)) = separatorResult x f := by
  obtain ⟨start, holds⟩ := f
  obtain ⟨hne, hsep, hq⟩ := hf
  simp only at hne ht hlc hlr hq
  rcases List.eq_nil_or_concat holds with h | ⟨pre, tEnd, h⟩
  · exact absurd h hne
  · rw [List.concat_eq_append] at h
    subst h
    have hm : (Segment.mk start (pre ++ [tEnd])).measured = u16 (sub32 tEnd start) := by
      simp [Segment.measured, Segment.last, getLastD_append_eq]
    have hlast : (Segment.mk start (pre ++ [tEnd])).last = tEnd := by
      simp [Segment.last, getLastD_append_eq]
    rw [hm] at hsep
    rw [List.dropLast_concat] at hq
    rw [timely_append] at ht
    obtain ⟨ht1, ht2, -⟩ := ht
    have h1 := hold_run pre x (by rw [hlr]; exact ht1)
      (by intro _ _ t ht; rw [hlc]; exact hq t ht)
    rw [hls] at h1
    rw [List.map_append, readAll_append_of_ok h1, List.map_cons, List.map_nil, readAll_single]
    have hrd := read_hold (holdEnd x pre) tEnd x.released
      (by show sub32 tEnd (pre.getLastD x.lastReadTime) < x.maxReadPeriod
          rw [hlr]; exact ht2)
      (by show x.released = x.lastStatus
          exact hls.symm)
    simp only at hrd
    rw [hrd]
    have hc : x.released = (holdEnd x pre).released
        ∧ (holdEnd x pre).messageSeparator
            ≤ u16 (sub32 tEnd (holdEnd x pre).lastChange) := by
      refine ⟨rfl, ?_⟩
      show x.messageSeparator ≤ u16 (sub32 tEnd x.lastChange)
      rw [hlc]; exact hsep
    rw [if_pos hc]
    have hps : (holdEnd x pre).parseStatus = x.parseStatus := rfl
    simp only [separatorResult, hlast, List.dropLast_concat, hls, hps]

/-- The polls of the last press of a message and of the release that ends
it. -/
theorem final_polls (s : State) (p f : Segment) (hr : poised s)
    (hp : pressOK s.config p) (hf : separatorOK s.config f)
    (ht : Timely s.maxReadPeriod s.lastReadTime (p.times ++ f.times)) :
    readAll s (p.polls s.pressed ++ f.polls s.released) =
      match _parseMessage (pressDone s p f.start) with
      | none => none
      | some r =>
        match separatorResult r.2 f with
        | none => none
        | some q => some (r.1 && q.1, q.2) := by
  rw [timely_append, segment_times_last] at ht
  obtain ⟨ht1, ht2, ht3⟩ := ht
  rw [readAll_append_of_ok (press_held s p hr ht1)]
  simp only [Segment.polls, Segment.times, List.map_cons]
  rw [readAll_cons]
  simp only [press_done s p f.start hr hp ht2]
  cases hx : _parseMessage (pressDone s p f.start) with
  | none => rfl
  | some r =>
    obtain ⟨hc, hsam⟩ := @parseMessage_frame _ r.2 r.1 hx
    simp only [State.sampling, Prod.mk.injEq] at hsam
    obtain ⟨-, -, -, hls, -, hlc, -, hlr⟩ := hsam
    have hc0 : r.2.config = s.config := hc
    obtain ⟨-, -, hc3, -, -, hc6, -, -⟩ := config_fields hc0
    have h := separator_polls r.2 f (by rw [hc0]; exact hf) (by rw [hc6]; exact ht3)
      (by rw [hc3]; exact hls) hlc hlr
    rw [hc3] at h
    simp only [h]

/-- The call of `_parseMessage` for an ended press, on the decoder members. -/
theorem press_sim (s : State) (p : Segment) (t : Nat) :
    (_parseMessage (pressDone s p t)).map view = pressStep s.decoder p.measured :=
  parse_congr rfl rfl rfl

/-- The poll that acts on the separator, on the decoder members. -/
theorem separator_sim (x : State) (f : Segment) (hst : x.status = x.pressed) :
    (separatorResult x f).map view = separatorStep x.decoder x.statusDuration := by
  unfold separatorResult separatorStep
  have hps : x.decoder.parseStatus = x.parseStatus := rfl
  rw [hps]
  split
  · rfl
  · exact parse_congr rfl hst rfl
  · rfl


/-- The presses of a message but the last, on the decoder members: the polls
give what the decoder gives on the measured durations of the presses. -/
theorem body_sim (c : Config) (body : List (Segment × Segment)) :
    ∀ s : State, poised s → s.config = c →
      (∀ pr ∈ body, pressOK c pr.1 ∧ releaseOK c pr.2) →
      Timely c.maxReadPeriod s.lastReadTime (body.flatMap pairTimes) →
      (readAll s (body.flatMap (pairPolls c))).map view
          = decodePresses s.decoder (body.map fun pr => pr.1.measured)
        ∧ ∀ ok x, readAll s (body.flatMap (pairPolls c)) = some (ok, x) →
            poised x ∧ x.config = c
              ∧ x.lastReadTime = (body.flatMap pairTimes).getLastD s.lastReadTime := by
  induction body with
  | nil =>
    intro s hr hc _ _
    refine ⟨rfl, ?_⟩
    intro ok x h
    simp only [List.flatMap_nil, readAll, Option.some.injEq, Prod.mk.injEq] at h
    obtain ⟨-, rfl⟩ := h
    exact ⟨hr, hc, rfl⟩
  | cons pr body ih =>
    intro s hr hc hv ht
    rw [List.flatMap_cons, timely_append] at ht
    obtain ⟨ht1, ht2⟩ := ht
    obtain ⟨hv1, hv2⟩ := List.forall_mem_cons.mp hv
    have hcm : c.maxReadPeriod = s.maxReadPeriod := by rw [← hc]; rfl
    obtain ⟨hpair, hnext⟩ := pair_polls s pr hr (by rw [hc]; exact hv1.1)
      (by rw [hc]; exact hv1.2) (by rw [← hcm]; exact ht1)
    have hsim := press_sim s pr.1 pr.2.start
    rw [hc] at hpair
    simp only [List.flatMap_cons, List.map_cons, decodePresses]
    rw [readAll_append, hpair, ← hsim]
    cases hx : _parseMessage (pressDone s pr.1 pr.2.start) with
    | none => exact ⟨rfl, fun _ _ h => by simp at h⟩
    | some r =>
      obtain ⟨hp, hcx, hlr⟩ := hnext r.1 r.2 hx
      have hcx1 : (holdEnd r.2 pr.2.holds).config = c := hcx.trans hc
      have hcm1 : c.maxReadPeriod = (holdEnd r.2 pr.2.holds).maxReadPeriod := by
        rw [← hcx1]; rfl
      obtain ⟨ih1, ih2⟩ := ih (holdEnd r.2 pr.2.holds) hp hcx1 hv2
        (by rw [hlr]; exact ht2)
      have hdec : (holdEnd r.2 pr.2.holds).decoder = r.2.decoder := rfl
      rw [hdec] at ih1
      simp only [Option.map_some', view]
      rw [← ih1]
      cases hy : readAll (holdEnd r.2 pr.2.holds) (body.flatMap (pairPolls c)) with
      | none => exact ⟨rfl, fun _ _ h => by simp at h⟩
      | some q =>
        refine ⟨rfl, ?_⟩
        intro ok x h
        simp only [Option.some.injEq, Prod.mk.injEq] at h
        obtain ⟨-, rfl⟩ := h
        obtain ⟨a, b, d⟩ := ih2 q.1 q.2 hy
        refine ⟨a, b, ?_⟩
        rw [d, hlr]
        rw [getLastD_append_eq]

theorem decodePresses_cons (v : Decoder) (d : Nat) (ds : List Nat) :
    decodePresses v (d :: ds) =
      match pressStep v d with
      | none => none
      | some r =>
        match decodePresses r.2 ds with
        | none => none
        | some rs => some (r.1 && rs.1, rs.2) := rfl

/-- The decoder over the presses of a message but the last, then the last. -/
theorem decodePresses_append (v : Decoder) (ds es : List Nat) :
    decodePresses v (ds ++ es) =
      match decodePresses v ds with
      | none => none
      | some r =>
        match decodePresses r.2 es with
        | none => none
        | some rs => some (r.1 && rs.1, rs.2) := by
  induction ds generalizing v with
  | nil =>
    rw [List.nil_append]
    cases h : decodePresses v es <;> simp [decodePresses, h]
  | cons d ds ih =>
    rw [List.cons_append, decodePresses_cons, decodePresses_cons]
    cases h1 : pressStep v d with
    | none => rfl
    | some r =>
      simp only [ih]
      cases h2 : decodePresses r.2 ds with
      | none => rfl
      | some r2 =>
        simp only
        cases h3 : decodePresses r2.2 es with
        | none => rfl
        | some r3 => simp [Bool.and_assoc]

theorem decodePresses_single (v : Decoder) (d : Nat) :
    decodePresses v [d] = (pressStep v d).map fun r => (r.1, r.2) := by
  simp only [decodePresses]
  cases pressStep v d with
  | none => rfl
  | some r => simp

/-- The polls of a valid trace of one message, on the decoder members: the
result and the decoder members after the last poll are those that the decoder
gives on the measured durations of the presses. -/
theorem message_sim (s : State) (tr : Trace) (hs : awaiting s)
    (hv : tr.Valid s.config s.lastReadTime) :
    (readAll s (tr.polls s.config)).map view = decodeMessage s.decoder tr.presses := by
  obtain ⟨ht, hbody, hpress, hfinal⟩ := hv
  rw [Trace.times, timely_append, timely_append] at ht
  obtain ⟨ht1, ht2, ht3⟩ := ht
  obtain ⟨hidle, hready⟩ := idle_run s tr.idle hs ht1
  have hpo : poised (holdEnd s tr.idle) := ⟨hready.1, hready.2.1, Or.inl hs.1⟩
  obtain ⟨hb1, hb2⟩ := body_sim s.config tr.body (holdEnd s tr.idle) hpo rfl hbody ht2
  have hd0 : (holdEnd s tr.idle).decoder = s.decoder := rfl
  rw [hd0] at hb1
  have hcr : s.config.released = s.released := rfl
  rw [Trace.polls, hcr, readAll_append_of_ok hidle, readAll_append, decodeMessage,
    Trace.presses, decodePresses_append, ← hb1]
  have hlast : (List.map (fun pr : Segment × Segment => pr.1.measured) tr.body
      ++ [tr.lastPress.measured]).getLastD 0 = tr.lastPress.measured := by
    rw [getLastD_append_eq]; rfl
  rw [hlast]
  cases hx : readAll (holdEnd s tr.idle) (tr.body.flatMap (pairPolls s.config)) with
  | none => rfl
  | some r =>
    obtain ⟨hp, hc, hlr⟩ := hb2 r.1 r.2 hx
    have hcm : s.config.maxReadPeriod = r.2.maxReadPeriod := by rw [← hc]; rfl
    have hcp : s.config.pressed = r.2.pressed := by rw [← hc]; rfl
    have hfin := final_polls r.2 tr.lastPress tr.final hp (by rw [hc]; exact hpress)
      (by rw [hc]; exact hfinal) (by rw [← hcm, hlr]; exact ht3)
    have hsim := press_sim r.2 tr.lastPress tr.final.start
    simp only [Option.map_some', view]
    have hrl : s.released = r.2.released := by
      have : s.config.released = r.2.config.released := by rw [hc]
      exact this
    rw [decodePresses_single, hcp, hrl, hfin, ← hsim]
    cases hy : _parseMessage (pressDone r.2 tr.lastPress tr.final.start) with
    | none => rfl
    | some y =>
      obtain ⟨hcy, hsam⟩ := @parseMessage_frame _ y.2 y.1 hy
      simp only [State.sampling, Prod.mk.injEq] at hsam
      obtain ⟨hst, -, -, -, hsd, -, -, -⟩ := hsam
      have hyp : y.2.pressed = r.2.pressed := by
        have : y.2.config.pressed = r.2.config.pressed := by rw [hcy]; rfl
        exact this
      have hsep := separator_sim y.2 tr.final (by rw [hst, hyp]; rfl)
      have hsd1 : y.2.statusDuration = tr.lastPress.measured := hsd
      rw [hsd1] at hsep
      simp only [Option.map_some', view]
      rw [← hsep]
      cases separatorResult y.2 tr.final with
      | none => rfl
      | some q => simp [Bool.and_assoc, view]

/-- The poll that finds a debounced release of at least `minReleased` ended
while a message is being read changes the sampling members only. -/
theorem release_end (s : State) (now : Nat) (hr : poised s)
    (hin : s.parseStatus = .IN_MESSAGE)
    (ht : sub32 now s.lastReadTime < s.maxReadPeriod) :
    read s now s.pressed = some (true, changed s now s.pressed)
      ∧ (changed s now s.pressed).decoder = s.decoder := by
  have h := press_held s ⟨now, []⟩ hr ⟨ht, trivial⟩
  simp only [Segment.polls, Segment.times, List.map_cons, List.map_nil, readAll_single] at h
  rw [h]
  refine ⟨?_, rfl⟩
  simp [pressHeld, holdEnd, engage, hin]
  rw [← hin]
  rfl

/-- Two valid traces of one message with the same press durations, read from
states with the same decoder members, give the same result and leave the same
decoder members. -/
theorem same_presses (s1 s2 : State) (t1 t2 : Trace) (h1 : awaiting s1) (h2 : awaiting s2)
    (hd : s1.decoder = s2.decoder)
    (hv1 : t1.Valid s1.config s1.lastReadTime) (hv2 : t2.Valid s2.config s2.lastReadTime)
    (hp : t1.presses = t2.presses) :
    (readAll s1 (t1.polls s1.config)).map view
      = (readAll s2 (t2.polls s2.config)).map view := by
  rw [message_sim s1 t1 h1 hv1, message_sim s2 t2 h2 hv2, hd, hp]

/-- C16. Release durations do not affect what is emitted. Two valid traces of
one message whose presses are measured with the same durations in the same
order, read from awaiting states with the same decoder members (configuration,
accumulators, message array, availability flag, parse state, error code), give
the same result of `read` and the same decoder members after the last poll,
whatever the releases and the poll times are; this holds for every mode and
configuration, also when a press overflows a limit or the decoder runs into
undefined behaviour. And the poll that finds a debounced release of at least
`minReleased` ended while the parse state is `IN_MESSAGE` returns `true` and
changes the sampling members only: the accumulators, the message array, the
availability flag and the parse state are unchanged. -/
theorem release_durations_ignored (s1 s2 : State) (t1 t2 : Trace) (x : State) (now : Nat)
    (h1 : awaiting s1) (h2 : awaiting s2) (hd : s1.decoder = s2.decoder)
    (hv1 : t1.Valid s1.config s1.lastReadTime) (hv2 : t2.Valid s2.config s2.lastReadTime)
    (hp : t1.presses = t2.presses)
    (hx : poised x) (hin : x.parseStatus = .IN_MESSAGE)
    (ht : sub32 now x.lastReadTime < x.maxReadPeriod) :
    (readAll s1 (t1.polls s1.config)).map view = (readAll s2 (t2.polls s2.config)).map view
      ∧ read x now x.pressed = some (true, changed x now x.pressed)
      ∧ (changed x now x.pressed).acc = x.acc
      ∧ (changed x now x.pressed).parseStatus = x.parseStatus :=
  ⟨same_presses s1 s2 t1 t2 h1 h2 hd hv1 hv2 hp, (release_end x now hx hin ht).1, rfl, rfl⟩

set_option maxRecDepth 100000 in
/-- C16 at a concrete input: in Binary mode the traces `longShort` and
`longShortSlow` have the same presses, and releases of 150 ms and of 300 ms
between them. -/
theorem release_durations_ignored_witness :
    longShort.presses = longShortSlow.presses
      ∧ longShort.polls (awaitingMessage .BINARY).config
          ≠ longShortSlow.polls (awaitingMessage .BINARY).config
      ∧ (readAll (awaitingMessage .BINARY)
            (longShort.polls (awaitingMessage .BINARY).config)).map view
          = (readAll (awaitingMessage .BINARY)
              (longShortSlow.polls (awaitingMessage .BINARY).config)).map view
      ∧ read (midMessage .BINARY) 610 (midMessage .BINARY).pressed
          = some (true, changed (midMessage .BINARY) 610 (midMessage .BINARY).pressed)
      ∧ (changed (midMessage .BINARY) 610 (midMessage .BINARY).pressed).acc
          = (midMessage .BINARY).acc
      ∧ (changed (midMessage .BINARY) 610 (midMessage .BINARY).pressed).parseStatus
          = (midMessage .BINARY).parseStatus :=
  ⟨by decide, by decide,
    release_durations_ignored (awaitingMessage .BINARY) (awaitingMessage .BINARY)
      longShort longShortSlow (midMessage .BINARY) 610 (by decide) (by decide) rfl
      (by decide) (by decide) (by decide) (by decide) rfl (by decide)⟩

end TalkingButton
